import Mathlib

/-!
# db_sync: dependency planner, schema reconciler and row replicator

A shallow embedding of `internal/services/schema_service.go` and
`internal/services/sync_service.go`.

Conventions of the embedding.

* A Go `map[K]V` is an association list with distinct keys. The order of
  the list carries no meaning; wherever the source ranges over a map the
  iteration order is an explicit argument (a permutation of the keys).
* A Go `map[string]bool` that is only read with `m[k]` is a total function to
  `Bool` (absent keys read `false`).
* Go `int` values that only count upwards are `Nat`; values that may be
  negative are `Int`. No computation here comes near the 64-bit range.
* A nil-pointer dereference (a panic) and an exhausted recursion budget are
  both `none`.
-/

namespace DbSync

/-! ## models/dependency.go -/

/-- ForeignKey of `models/dependency.go`. -/
structure ForeignKey where
  TableName : String
  ColumnName : String
  ReferencedTableName : String
  ReferencedColumnName : String
  ConstraintName : String
deriving DecidableEq, Repr

/-- TableDependency of `models/dependency.go`. -/
structure TableDependency where
  TableName : String
  DependsOn : List String
  Level : Nat
  HasCircular : Bool
deriving DecidableEq, Repr

/-! ## Go maps -/

/-- A Go `map[K]V`: an association list with distinct keys. -/
abbrev GoMap (K V : Type) := List (K × V)

/-- Lookup `m[k]`: the value stored under `k`, if any. -/
def GoMap.get? {K V : Type} [DecidableEq K] : GoMap K V → K → Option V
  | [], _ => none
  | (k, d) :: rest, key => if k = key then some d else GoMap.get? rest key

/-- In-place update of the value stored under `key` (through a pointer `m[k]`). -/
def GoMap.modify {K V : Type} [DecidableEq K] : GoMap K V → K → (V → V) → GoMap K V
  | [], _, _ => []
  | (k, d) :: rest, key, f =>
    if k = key then (k, f d) :: GoMap.modify rest key f
    else (k, d) :: GoMap.modify rest key f

/-- Assignment `m[k] = v`. -/
def GoMap.insert {K V : Type} [DecidableEq K] : GoMap K V → K → V → GoMap K V
  | [], key, v => [(key, v)]
  | (k, d) :: rest, key, v =>
    if k = key then (k, v) :: rest else (k, d) :: GoMap.insert rest key v

/-- The keys of the map. -/
def GoMap.keys {K V : Type} (m : GoMap K V) : List K := m.map Prod.fst

/-- A Go `map[string]*TableDependency`. -/
abbrev DepMap := GoMap String TableDependency

/-- Assignment `m[k] = v` on a `map[string]bool`. -/
def setFlag (m : String → Bool) (key : String) (v : Bool) : String → Bool :=
  fun k => if k = key then v else m k

/-! ## schema_service.go: topologicalSort -/

/-- The variables captured by the closure `calculateLevel`. -/
structure SortState where
  depMap : DepMap
  visited : String → Bool
  recStack : String → Bool

/-- The loop `for _, depTable := range dep.DependsOn` of `calculateLevel`, with the
recursive call passed in as `recur`; `maxDepLevel` is the running maximum. -/
def loopDeps (recur : String → SortState → Option (Nat × SortState)) :
    List String → Nat → SortState → Option (Nat × SortState)
  | [], maxDepLevel, st => some (maxDepLevel, st)
  | depTable :: rest, maxDepLevel, st =>
    match st.depMap.get? depTable with
    | none => loopDeps recur rest maxDepLevel st
    | some _ =>
      match recur depTable st with
      | none => none
      | some (depLevel, st1) =>
        loopDeps recur rest (if depLevel ≥ maxDepLevel then depLevel + 1 else maxDepLevel) st1

/-- The body of the closure `calculateLevel`. `recur` is the closure itself, present
as long as the recursion budget is not used up; it is asked for only when `table` is
visited for the first time. -/
def calculateLevelBody (recur : Option (String → SortState → Option (Nat × SortState)))
    (table : String) (st : SortState) : Option (Nat × SortState) :=
  if st.recStack table then
    match st.depMap.get? table with
    | none => none
    | some _ =>
      some (0, { st with depMap := st.depMap.modify table (fun d => { d with HasCircular := true }) })
  else if st.visited table then
    match st.depMap.get? table with
    | none => none
    | some d => some (d.Level, st)
  else
    match recur with
    | none => none
    | some recur =>
      let st1 : SortState :=
        { st with visited := setFlag st.visited table true
                  recStack := setFlag st.recStack table true }
      match st1.depMap.get? table with
      | none => none
      | some dep =>
        match loopDeps recur dep.DependsOn 0 st1 with
        | none => none
        | some (maxDepLevel, st2) =>
          some (maxDepLevel,
            { st2 with recStack := setFlag st2.recStack table false
                       depMap := st2.depMap.modify table (fun d => { d with Level := maxDepLevel }) })

/-- The closure `calculateLevel` of `topologicalSort`. The first argument bounds the
depth of the recursion. -/
def calculateLevel : Nat → String → SortState → Option (Nat × SortState)
  | 0 => calculateLevelBody none
  | fuel + 1 => calculateLevelBody (some (calculateLevel fuel))

/-- The loop `for table := range depMap` that computes every level; `order` is the
order in which the map is ranged over. -/
def calculateAll (fuel : Nat) : List String → SortState → Option SortState
  | [], st => some st
  | table :: rest, st =>
    if st.visited table then calculateAll fuel rest st
    else
      match calculateLevel fuel table st with
      | none => none
      | some (_, st1) => calculateAll fuel rest st1

/-- The body `if result[i].Level > result[j].Level { swap }` of the sorting loops. -/
def swapIfGreater (result : List TableDependency) (i j : Nat) : List TableDependency :=
  match result[i]?, result[j]? with
  | some a, some b => if a.Level > b.Level then (result.set i b).set j a else result
  | _, _ => result

/-- The inner loop `for j := ...; j < len(result); j++`, with `n` iterations left. -/
def sortInner (i : Nat) : Nat → Nat → List TableDependency → List TableDependency
  | 0, _, result => result
  | n + 1, j, result => sortInner i n (j + 1) (swapIfGreater result i j)

/-- The outer loop `for i := ...; i < len(result); i++`, with `n` iterations left. -/
def sortOuter : Nat → Nat → List TableDependency → List TableDependency
  | 0, _, result => result
  | n + 1, i, result =>
    sortOuter n (i + 1) (sortInner i (result.length - (i + 1)) (i + 1) result)

/-- The two nested loops that sort `result` by level. -/
def sortByLevel (result : List TableDependency) : List TableDependency :=
  sortOuter result.length 0 result

/-- The function `topologicalSort`. `order1` and `order2` are the orders in which the
two `range depMap` loops visit the keys. -/
def topologicalSort (depMap : DepMap) (order1 order2 : List String) :
    Option (List TableDependency) :=
  match calculateAll depMap.length order1
      { depMap := depMap, visited := fun _ => false, recStack := fun _ => false } with
  | none => none
  | some st => some (sortByLevel (order2.filterMap st.depMap.get?))

/-! ## schema_service.go: GetAllTablesWithDependencies -/

/-- The loop that creates one entry per table. -/
def initDepMap (tables : List String) : DepMap :=
  tables.foldl
    (fun m table => m.insert table
      { TableName := table, DependsOn := [], Level := 0, HasCircular := false }) []

/-- The loop over the foreign keys of one table. -/
def addForeignKeys (table : String) (fks : List ForeignKey) (depMap : DepMap) : DepMap :=
  fks.foldl
    (fun m fk =>
      if fk.ReferencedTableName = table then m
      else
        match m.get? table with
        | none => m
        | some _ => m.modify table
            (fun d => { d with DependsOn := d.DependsOn ++ [fk.ReferencedTableName] }))
    depMap

/-- The loop that reads the foreign keys of every table; `getForeignKeys` is the
result of the catalog query `GetForeignKeys` for each table. -/
def addAllForeignKeys (getForeignKeys : String → Except String (List ForeignKey))
    (tables : List String) (depMap : DepMap) : DepMap :=
  tables.foldl
    (fun m table =>
      match getForeignKeys table with
      | .error _ => m
      | .ok fks => addForeignKeys table fks m)
    depMap

/-- The function `GetAllTablesWithDependencies`, given the results of the catalog
queries `GetAllTables` and `GetForeignKeys`. A panic of the sort is reported as an
error here. -/
def GetAllTablesWithDependencies (getAllTables : Except String (List String))
    (getForeignKeys : String → Except String (List ForeignKey))
    (order1 order2 : List String) : Except String (List TableDependency) :=
  match getAllTables with
  | .error e => .error e
  | .ok tables =>
    match topologicalSort (addAllForeignKeys getForeignKeys tables (initDepMap tables))
        order1 order2 with
    | none => .error "panic"
    | some sorted => .ok sorted

/-! ## models/sync.go -/

/-- ColumnInfo of `models/sync.go`; `ColumnDefault` is a `*string` (nil is `none`). -/
structure ColumnInfo where
  ColumnName : String
  DataType : String
  ColumnType : String
  IsNullable : String
  ColumnKey : String
  ColumnDefault : Option String
  Extra : String
deriving DecidableEq, Repr

/-! ## schema_service.go: CompareSchemas -/

/-- The function `columnsDifferent`. -/
def columnsDifferent (col1 col2 : ColumnInfo) : Bool :=
  col1.ColumnType != col2.ColumnType ||
    col1.IsNullable != col2.IsNullable ||
    col1.Extra != col2.Extra

/-- The function `generateAddColumnStatement`. -/
def generateAddColumnStatement (tableName : String) (col : ColumnInfo) : String :=
  let parts : List String :=
    ["ALTER TABLE `" ++ tableName ++ "` ADD COLUMN `" ++ col.ColumnName ++ "` " ++ col.ColumnType]
  let parts := if col.IsNullable = "NO" then parts ++ ["NOT NULL"] else parts
  let parts :=
    match col.ColumnDefault with
    | some d => parts ++ ["DEFAULT " ++ d]
    | none => parts
  let parts := if col.Extra ≠ "" then parts ++ [col.Extra] else parts
  " ".intercalate parts

/-- The function `generateModifyColumnStatement`. -/
def generateModifyColumnStatement (tableName : String) (col : ColumnInfo) : String :=
  let parts : List String :=
    ["ALTER TABLE `" ++ tableName ++ "` MODIFY COLUMN `" ++ col.ColumnName ++ "` " ++ col.ColumnType]
  let parts := if col.IsNullable = "NO" then parts ++ ["NOT NULL"] else parts
  let parts :=
    match col.ColumnDefault with
    | some d => parts ++ ["DEFAULT " ++ d]
    | none => parts
  let parts := if col.Extra ≠ "" then parts ++ [col.Extra] else parts
  " ".intercalate parts

/-- The loop of `CompareSchemas` that fills `backupColMap`. -/
def buildColMap (backupColumns : List ColumnInfo) : GoMap String ColumnInfo :=
  backupColumns.foldl (fun m col => m.insert col.ColumnName col) []

/-- The function `CompareSchemas`, given the results of the two catalog queries
`GetTableSchema` (source) and `getBackupTableSchema` (target). -/
def CompareSchemas (tableName : String)
    (getTableSchema getBackupTableSchema : Except String (List ColumnInfo)) :
    Except String (List String) :=
  match getTableSchema with
  | .error e => .error ("failed to get master schema: " ++ e)
  | .ok masterColumns =>
    match getBackupTableSchema with
    | .error e => .error ("failed to get backup schema: " ++ e)
    | .ok backupColumns =>
      let backupColMap := buildColMap backupColumns
      .ok (masterColumns.foldl
        (fun alterStatements masterCol =>
          match backupColMap.get? masterCol.ColumnName with
          | none => alterStatements ++ [generateAddColumnStatement tableName masterCol]
          | some backupCol =>
            if columnsDifferent masterCol backupCol then
              alterStatements ++ [generateModifyColumnStatement tableName masterCol]
            else alterStatements)
        [])

/-! ## sync_service.go: values, rows and status -/

/-- A value of type `interface{}` as `database/sql` hands it over after the scan loops
have turned `[]byte` into `string`. One stored value has one such form, in every query. -/
inductive Value where
  | null
  | int (n : Int)
  | int64 (n : Int)
  | str (s : String)
  | other (tag : Nat)
deriving DecidableEq, Repr

/-- A row: the Go `map[string]interface{}` from column name to value. -/
abbrev Row := GoMap String Value

/-- SyncStatus of `models/sync.go`. `LastSyncTime` is an instant, 0 being the zero
`time.Time`. -/
structure SyncStatus where
  TableName : String
  LastSyncID : Int
  TotalSynced : Nat
  LastSyncTime : Nat
  Status : String
  ErrorMessage : String
deriving DecidableEq, Repr

/-! ## The two databases, as far as one table is concerned -/

/-- A row of the source table: the primary key and the `updated_at` instant as the
database orders and compares them, and the row as `SELECT *` hands it to Go. -/
structure SourceRow where
  key : Int
  updatedAt : Nat
  cols : Row
deriving DecidableEq, Repr

/-- A call the engine issues against one of the databases. -/
inductive DbCall where
  | getPrimaryKeyColumn
  | hasUpdatedAtColumn
  | fetchData (offset limit : Int)
  | fetchUpdated (since : Nat)
  | getTableColumns
  | checksumMaster
  | checksumBackup
  | upsert (query : String) (values : List Value)
deriving DecidableEq, Repr

/-- One table on both databases. `pkColumn` is empty when the table has no primary key;
`crc32` is the database function behind `CRC32(CONCAT_WS(...))`; `faults` tells, call by
call, which of the coming database calls fail and with what message (calls beyond the
list succeed); `log` records the calls issued so far. -/
structure TableDb where
  pkColumn : String
  hasUpdatedAt : Bool
  columns : List String
  source : List SourceRow
  targetExists : Bool
  target : List Row
  crc32 : List Value → Value
  faults : List (Option String)
  log : List DbCall

/-- Issue a database call: log it and take the next entry of `faults`. -/
def TableDb.call (db : TableDb) (c : DbCall) : Option String × TableDb :=
  match db.faults with
  | [] => (none, { db with log := db.log ++ [c] })
  | f :: rest => (f, { db with faults := rest, log := db.log ++ [c] })

/-- The order of `ORDER BY <pk>`. -/
def keyLe (a b : SourceRow) : Prop := a.key ≤ b.key

instance : DecidableRel keyLe := fun a b => inferInstanceAs (Decidable (a.key ≤ b.key))

/-- The order of `ORDER BY updated_at`. -/
def updatedLe (a b : SourceRow) : Prop := a.updatedAt ≤ b.updatedAt

instance : DecidableRel updatedLe :=
  fun a b => inferInstanceAs (Decidable (a.updatedAt ≤ b.updatedAt))

/-- What `ON DUPLICATE KEY UPDATE col = VALUES(col), ...` makes of the stored value `old`
of column `c`: the value of the new row, unless `c` is the key column or the new row has
no such column. -/
def mergeValue (pkColumn : String) (new : Row) (c : String) (old : Value) : Value :=
  if c = pkColumn then old
  else
    match new.get? c with
    | some v => v
    | none => old

/-- What `INSERT ... ON DUPLICATE KEY UPDATE col = VALUES(col), ...` does to a stored row
with the same key: every column of the new row other than the key column takes the new
value. -/
def mergeRow (pkColumn : String) (old new : Row) : Row :=
  old.map (fun e => (e.1, mergeValue pkColumn new e.1 e.2)) ++
    new.filter (fun e => decide (e.1 ≠ pkColumn) && (old.get? e.1).isNone)

/-- What the upsert statement does to the target table: a stored row with the same
primary-key value is updated, otherwise the row is inserted. -/
def upsertRow (pkColumn : String) (target : List Row) (row : Row) : List Row :=
  match row.get? pkColumn with
  | none => target ++ [row]
  | some k =>
    if target.any (fun r => decide (r.get? pkColumn = some k)) then
      target.map (fun r => if r.get? pkColumn = some k then mergeRow pkColumn r row else r)
    else target ++ [row]

/-! ## sync_service.go: the engine -/

/-- The fields of `SyncService` that the engine reads and writes. `enableChecksumSync` is
`config.Sync.EnableChecksumSync`; `clock` is the reading of `time.Now()`; `stopAfter`,
when present, is the number of further `IsRunning` checks after which a `StopSync` running
on another thread will have cleared the flag (as it can during the initial sync of
`StartSync`, a run that the scheduler has not started and `StopSync` does not wait for). -/
structure SyncService where
  isRunning : Bool
  cronSchedule : String
  batchSize : Int
  tableStatus : GoMap String SyncStatus
  syncSchema : Bool
  enableChecksumSync : Bool
  lastRunTime : Nat
  nextRunTime : Nat
  clock : Nat
  stopAfter : Option Nat

/-- The method `IsRunning`. -/
def SyncService.IsRunning (s : SyncService) : Bool × SyncService :=
  match s.stopAfter with
  | none => (s.isRunning, s)
  | some 0 => (false, { s with isRunning := false, stopAfter := none })
  | some (n + 1) => (s.isRunning, { s with stopAfter := some n })

/-- The method `updateTableStatus`. -/
def updateTableStatus (s : SyncService) (tableName status errMsg : String) (lastID : Int)
    (totalSynced : Nat) : SyncService :=
  let tableStatus :=
    match s.tableStatus.get? tableName with
    | none =>
      s.tableStatus.insert tableName
        { TableName := tableName, LastSyncID := 0, TotalSynced := 0, LastSyncTime := 0,
          Status := "", ErrorMessage := "" }
    | some _ => s.tableStatus
  { s with tableStatus := tableStatus.modify tableName (fun st =>
      { st with Status := status, LastSyncID := lastID, TotalSynced := totalSynced,
                LastSyncTime := s.clock, ErrorMessage := errMsg }) }

/-- The method `getPrimaryKeyColumn`: a failed query and a table without primary key both
give the empty name and no error. -/
def getPrimaryKeyColumn (db : TableDb) : Except String String × TableDb :=
  match db.call .getPrimaryKeyColumn with
  | (some _, db1) => (.ok "", db1)
  | (none, db1) => (.ok db1.pkColumn, db1)

/-- The method `hasUpdatedAtColumn`. -/
def hasUpdatedAtColumn (db : TableDb) : Bool × TableDb :=
  match db.call .hasUpdatedAtColumn with
  | (some _, db1) => (false, db1)
  | (none, db1) => (db1.hasUpdatedAt, db1)

/-- The method `fetchDataFromMaster`: `SELECT * ... WHERE pk >= ?` (offset 0) or
`pk > ?`, `ORDER BY pk LIMIT ?`. The database rejects a negative limit. -/
def fetchDataFromMaster (db : TableDb) (offset limit : Int) : Except String (List Row) × TableDb :=
  match db.call (.fetchData offset limit) with
  | (some e, db1) => (.error e, db1)
  | (none, db1) =>
    if limit < 0 then (.error "Incorrect arguments to LIMIT", db1)
    else
      let matching :=
        if offset = 0 then db1.source.filter (fun r => decide (r.key ≥ offset))
        else db1.source.filter (fun r => decide (r.key > offset))
      (.ok (((matching.insertionSort keyLe).take limit.toNat).map (fun r => r.cols)), db1)

/-- The method `fetchUpdatedDataFromMaster`: `WHERE updated_at > ? ORDER BY updated_at
LIMIT 1000`. -/
def fetchUpdatedDataFromMaster (db : TableDb) (lastSyncTime : Nat) :
    Except String (List Row) × TableDb :=
  match db.call (.fetchUpdated lastSyncTime) with
  | (some e, db1) => (.error e, db1)
  | (none, db1) =>
    (.ok ((((db1.source.filter (fun r => decide (r.updatedAt > lastSyncTime))).insertionSort
        updatedLe).take 1000).map (fun r => r.cols)), db1)

/-- The space runes of package `fmt`: its table `space`, which `SkipSpace` consults. -/
def isSpace (c : Char) : Bool :=
  (9 ≤ c.toNat && c.toNat ≤ 13) || c.toNat = 32 || c.toNat = 133 || c.toNat = 160 ||
    c.toNat = 5760 || (8192 ≤ c.toNat && c.toNat ≤ 8202) || c.toNat = 8232 ||
    c.toNat = 8233 || c.toNat = 8239 || c.toNat = 8287 || c.toNat = 12288

/-- The result of `fmt.Sscanf(v, "%d", &lastID)`: the integer stored, if one is. The
space runes of `fmt` are skipped, a newline among them ending the scan with an error;
then an optional sign and at least one decimal digit are read; a value outside the 64-bit
range stores nothing. -/
def sscanfD (v : String) : Option Int :=
  let cs := v.toList.dropWhile (fun c => isSpace c && c.toNat != 10)
  let signed : Bool × List Char :=
    match cs with
    | [] => (false, [])
    | c :: rest => if c.toNat = 45 then (true, rest) else if c.toNat = 43 then (false, rest) else (false, cs)
  let digits := signed.2.takeWhile (fun c => 48 ≤ c.toNat && c.toNat ≤ 57)
  if digits = [] then none
  else
    let n : Nat := digits.foldl (fun acc c => 10 * acc + (c.toNat - 48)) 0
    let i : Int := if signed.1 then -(n : Int) else (n : Int)
    if -(2 : Int) ^ 63 ≤ i ∧ i < (2 : Int) ^ 63 then some i else none

/-- The type switch of `upsertDataToBackup` that updates `lastID`. -/
def updateLastID (pkColumn : String) (row : Row) (lastID : Int) : Int :=
  match row.get? pkColumn with
  | some (.int v) => v
  | some (.int64 v) => v
  | some (.str v) =>
    match sscanfD v with
    | some i => i
    | none => lastID
  | _ => lastID

/-- The text of the upsert statement that `upsertDataToBackup` builds for a row; the
columns come in the order in which the row map is ranged over. -/
def upsertQuery (tableName pkColumn : String) (row : Row) : String :=
  let columns := row.map (fun e => "`" ++ e.1 ++ "`")
  let placeholders := row.map (fun _ => "?")
  let updates := (row.filter (fun e => decide (e.1 ≠ pkColumn))).map
    (fun e => "`" ++ e.1 ++ "` = VALUES(`" ++ e.1 ++ "`)")
  "INSERT INTO `" ++ tableName ++ "` (" ++ ", ".intercalate columns ++ ") VALUES ("
    ++ ", ".intercalate placeholders ++ ") ON DUPLICATE KEY UPDATE " ++ ", ".intercalate updates

/-- The loop `for _, row := range rows` of `upsertDataToBackup`; the result is
`(synced, lastID, err)` and the database. -/
def upsertLoop (tableName pkColumn : String) :
    List Row → Nat → Int → TableDb → (Nat × Int × Option String) × TableDb
  | [], synced, lastID, db => ((synced, lastID, none), db)
  | row :: rest, synced, lastID, db =>
    match db.call (.upsert (upsertQuery tableName pkColumn row) (row.map Prod.snd)) with
    | (some e, db1) => ((synced, lastID, some ("failed to upsert row: " ++ e)), db1)
    | (none, db1) =>
      if db1.targetExists then
        upsertLoop tableName pkColumn rest (synced + 1) (updateLastID pkColumn row lastID)
          { db1 with target := upsertRow pkColumn db1.target row }
      else ((synced, lastID, some "failed to upsert row: Table doesn't exist"), db1)

/-- The method `upsertDataToBackup`. -/
def upsertDataToBackup (db : TableDb) (tableName pkColumn : String) (rows : List Row) :
    (Nat × Int × Option String) × TableDb :=
  if rows.length = 0 then ((0, 0, none), db)
  else upsertLoop tableName pkColumn rows 0 0 db

/-- The column `row_checksum` that the checksum queries add to a row. -/
def withChecksum (db : TableDb) (row : Row) : Row :=
  row.insert "row_checksum"
    (db.crc32 (db.columns.map (fun c =>
      match row.get? c with
      | none => Value.str ""
      | some Value.null => Value.str ""
      | some v => v)))

/-- The loop of `fetchChangedDataByChecksum` that fills `backupChecksums`. -/
def buildBackupChecksums (pkColumn : String) (backupData : List Row) : GoMap Value Value :=
  backupData.foldl
    (fun m row =>
      match row.get? pkColumn with
      | none => m
      | some pkValue =>
        match row.get? "row_checksum" with
        | none => m
        | some checksum => m.insert pkValue checksum)
    []

/-- The comparison step of `fetchChangedDataByChecksum`: the loop over `masterData` that
collects `changedRows`. -/
def compareChecksums (pkColumn : String) (masterData backupData : List Row) : List Row :=
  let backupChecksums := buildBackupChecksums pkColumn backupData
  masterData.foldl
    (fun changedRows masterRow =>
      match masterRow.get? pkColumn with
      | none => changedRows
      | some pkValue =>
        match masterRow.get? "row_checksum" with
        | none => changedRows
        | some masterChecksum =>
          let rowCopy : Row := masterRow.filter (fun e => decide (e.1 ≠ "row_checksum"))
          match backupChecksums.get? pkValue with
          | none => changedRows ++ [rowCopy]
          | some backupChecksum =>
            if backupChecksum ≠ masterChecksum then changedRows ++ [rowCopy]
            else changedRows)
    []

/-- The test `strings.Contains(err.Error(), "doesn't exist")`. -/
def mentionsMissingTable (msg : String) : Bool :=
  decide ("doesn't exist".toList <:+: msg.toList)

/-- The method `getTableColumns`: the column names of the table in declaration order; a
failed query is reported under the name of the table. A fault of the call is a failure of
the query itself. -/
def getTableColumns (db : TableDb) (tableName : String) :
    Except String (List String) × TableDb :=
  match db.call .getTableColumns with
  | (some e, db1) => (.error ("failed to get columns for table " ++ tableName ++ ": " ++ e), db1)
  | (none, db1) => (.ok db1.columns, db1)

/-- The method `fetchChangedDataByChecksum`. The checksum expression of both queries is
built from the columns that `getTableColumns` returns, those of the table. -/
def fetchChangedDataByChecksum (db : TableDb) (tableName pkColumn : String) :
    Except String (List Row) × TableDb :=
  match getTableColumns db tableName with
  | (.error e, db1) => (.error ("failed to get table columns: " ++ e), db1)
  | (.ok _, db1) =>
    match db1.call .checksumMaster with
    | (some e, db2) => (.error ("failed to query master data: " ++ e), db2)
    | (none, db2) =>
      let masterData := (db2.source.insertionSort keyLe).map (fun r => withChecksum db2 r.cols)
      let backupQuery : Option String × TableDb :=
        match db2.call .checksumBackup with
        | (some e, db3) => (some e, db3)
        | (none, db3) => if db3.targetExists then (none, db3) else (some "Table doesn't exist", db3)
      match backupQuery with
      | (some e, db3) =>
        if mentionsMissingTable e then
          (.ok (masterData.map (fun r => r.filter (fun e => decide (e.1 ≠ "row_checksum")))), db3)
        else (.error ("failed to query backup data: " ++ e), db3)
      | (none, db3) =>
        let backupData := db3.target.map (withChecksum db3)
        (.ok (compareChecksums pkColumn masterData backupData), db3)

/-- How the loop of step 1 of `syncTable` ends: it falls through to step 2, or an error
makes `syncTable` return. -/
inductive LoopEnd where
  | done (currentOffset : Int) (totalSynced : Nat)
  | failed (errMsg : String) (currentOffset : Int) (totalSynced : Nat)
deriving DecidableEq, Repr

/-- Step 1 of `syncTable`: the loop `for s.IsRunning()` that copies new rows batch by
batch. The first argument bounds the number of iterations. -/
def phaseA (tableName pkColumn : String) :
    Nat → SyncService → TableDb → Int → Nat → Option (LoopEnd × SyncService × TableDb)
  | 0, _, _, _, _ => none
  | fuel + 1, s, db, currentOffset, totalSynced =>
    match s.IsRunning with
    | (false, s1) => some (.done currentOffset totalSynced, s1, db)
    | (true, s1) =>
      match fetchDataFromMaster db currentOffset s1.batchSize with
      | (.error e, db1) => some (.failed e currentOffset totalSynced, s1, db1)
      | (.ok rows, db1) =>
        if rows.length = 0 then some (.done currentOffset totalSynced, s1, db1)
        else
          match upsertDataToBackup db1 tableName pkColumn rows with
          | ((_, _, some e), db2) => some (.failed e currentOffset totalSynced, s1, db2)
          | ((synced, lastID, none), db2) =>
            if (rows.length : Int) < s1.batchSize then
              some (.done lastID (totalSynced + synced), s1, db2)
            else phaseA tableName pkColumn fuel s1 db2 lastID (totalSynced + synced)

/-- Step 2 of `syncTable`: updates by `updated_at` or by checksum. Errors are logged
only; the result is the new `totalSynced` and the database. -/
def phaseB (tableName pkColumn : String) (s : SyncService) (db : TableDb)
    (hasUpdatedAt : Bool) (lastSyncTime : Nat) (totalSynced : Nat) : Nat × TableDb :=
  if hasUpdatedAt && lastSyncTime != 0 then
    match fetchUpdatedDataFromMaster db lastSyncTime with
    | (.error _, db1) => (totalSynced, db1)
    | (.ok updatedRows, db1) =>
      if updatedRows.length > 0 then
        match upsertDataToBackup db1 tableName pkColumn updatedRows with
        | ((_, _, some _), db2) => (totalSynced, db2)
        | ((synced, _, none), db2) => (totalSynced + synced, db2)
      else (totalSynced, db1)
  else if s.enableChecksumSync then
    match fetchChangedDataByChecksum db tableName pkColumn with
    | (.error _, db1) => (totalSynced, db1)
    | (.ok changedRows, db1) =>
      if changedRows.length > 0 then
        match upsertDataToBackup db1 tableName pkColumn changedRows with
        | ((_, _, some _), db2) => (totalSynced, db2)
        | ((synced, _, none), db2) => (totalSynced + synced, db2)
      else (totalSynced, db1)
  else (totalSynced, db)

/-- The status record that the first lines of `syncTable` find or create for the table. -/
def statusOnEntry (s : SyncService) (tableName : String) : SyncStatus :=
  match s.tableStatus.get? tableName with
  | none =>
    { TableName := tableName, LastSyncID := 0, TotalSynced := 0, LastSyncTime := 0,
      Status := "syncing", ErrorMessage := "" }
  | some status => status

/-- The first lines of `syncTable`: create the status on first encounter and mark it
`syncing`. -/
def beginSync (s : SyncService) (tableName : String) : SyncService :=
  let tableStatus :=
    match s.tableStatus.get? tableName with
    | none => s.tableStatus.insert tableName (statusOnEntry s tableName)
    | some _ => s.tableStatus
  { s with tableStatus := tableStatus.modify tableName (fun st => { st with Status := "syncing" }) }

/-- The method `syncTable`. The first argument bounds the number of iterations of the
loop of step 1; `none` means that the loop has not ended within the bound. -/
def syncTable (fuel : Nat) (tableName : String) (s : SyncService) (db : TableDb) :
    Option (SyncService × TableDb) :=
  let status := statusOnEntry s tableName
  let s0 := beginSync s tableName
  let totalSynced := 0
  let currentOffset := status.LastSyncID
  let lastSyncTime := status.LastSyncTime
  match getPrimaryKeyColumn db with
  | (.error e, db1) => some (updateTableStatus s0 tableName "error" e currentOffset totalSynced, db1)
  | (.ok pkColumn, db1) =>
    if pkColumn = "" then
      some (updateTableStatus s0 tableName "skipped" "no primary key" currentOffset totalSynced, db1)
    else
      match hasUpdatedAtColumn db1 with
      | (hasUpdatedAt, db2) =>
        match phaseA tableName pkColumn fuel s0 db2 currentOffset totalSynced with
        | none => none
        | some (.failed e offset total, s1, db3) =>
          some (updateTableStatus s1 tableName "error" e offset total, db3)
        | some (.done offset total, s1, db3) =>
          match phaseB tableName pkColumn s1 db3 hasUpdatedAt lastSyncTime total with
          | (total2, db4) =>
            some (updateTableStatus s1 tableName "success" "" offset total2, db4)

/-- Assignment `w[k] = db` on the tables of the two databases. -/
def setTable (world : String → TableDb) (key : String) (db : TableDb) : String → TableDb :=
  fun k => if k = key then db else world k

/-- The loop `for _, dep := range tableDeps` of `syncAllTables`; `world` gives the two
databases table by table. -/
def syncTables (fuel : Nat) :
    List TableDependency → SyncService → (String → TableDb) →
      Option (SyncService × (String → TableDb))
  | [], s, world => some (s, world)
  | dep :: rest, s, world =>
    match s.IsRunning with
    | (false, s1) => some (s1, world)
    | (true, s1) =>
      match syncTable fuel dep.TableName s1 (world dep.TableName) with
      | none => none
      | some (s2, db) => syncTables fuel rest s2 (setTable world dep.TableName db)

/-- The method `syncAllTables`, given the results of the catalog queries behind
`GetAllTablesWithDependencies`. -/
def syncAllTables (fuel : Nat) (getAllTables : Except String (List String))
    (getForeignKeys : String → Except String (List ForeignKey)) (order1 order2 : List String)
    (s : SyncService) (world : String → TableDb) :
    Option (SyncService × (String → TableDb)) :=
  match GetAllTablesWithDependencies getAllTables getForeignKeys order1 order2 with
  | .error _ => some (s, world)
  | .ok tableDeps => syncTables fuel tableDeps s world

/-! ## schema_service.go: SyncSchema and SyncAllSchemas -/

/-- A call the schema service issues against one of the databases. -/
inductive SchemaCall where
  | tableExists (tableName : String)
  | showCreateTable (tableName : String)
  | getTableSchema (tableName : String)
  | getBackupTableSchema (tableName : String)
  | exec (statement : String)
deriving DecidableEq, Repr

/-- The two databases as the schema service sees them. `masterColumns` and
`createStatement` are what the source answers to the column query and to
`SHOW CREATE TABLE`; `backup` holds the tables of the target with their columns;
`execute` is what the target makes of a statement; `faults` tells, call by call, which of
the coming calls fail and with what message; `log` records the calls issued so far. -/
structure SchemaDb where
  masterColumns : String → List ColumnInfo
  createStatement : String → String
  backup : GoMap String (List ColumnInfo)
  execute : String → GoMap String (List ColumnInfo) → GoMap String (List ColumnInfo)
  faults : List (Option String)
  log : List SchemaCall

/-- Issue a call: log it and take the next entry of `faults`. -/
def SchemaDb.call (db : SchemaDb) (c : SchemaCall) : Option String × SchemaDb :=
  match db.faults with
  | [] => (none, { db with log := db.log ++ [c] })
  | f :: rest => (f, { db with faults := rest, log := db.log ++ [c] })

/-- The method `TableExists`. -/
def SchemaDb.TableExists (db : SchemaDb) (tableName : String) : Except String Bool × SchemaDb :=
  match db.call (.tableExists tableName) with
  | (some e, db1) => (.error e, db1)
  | (none, db1) => (.ok (db1.backup.get? tableName).isSome, db1)

/-- The method `GetTableCreateStatement`. -/
def SchemaDb.GetTableCreateStatement (db : SchemaDb) (tableName : String) :
    Except String String × SchemaDb :=
  match db.call (.showCreateTable tableName) with
  | (some e, db1) => (.error ("failed to get create statement: " ++ e), db1)
  | (none, db1) => (.ok (db1.createStatement tableName), db1)

/-- The method `CreateTable`; the result is the error, if any. -/
def SchemaDb.CreateTable (db : SchemaDb) (tableName : String) : Option String × SchemaDb :=
  match db.GetTableCreateStatement tableName with
  | (.error e, db1) => (some e, db1)
  | (.ok createStmt, db1) =>
    match db1.call (.exec createStmt) with
    | (some e, db2) => (some ("failed to create table " ++ tableName ++ ": " ++ e), db2)
    | (none, db2) => (none, { db2 with backup := db2.execute createStmt db2.backup })

/-- The method `GetTableSchema`. -/
def SchemaDb.GetTableSchema (db : SchemaDb) (tableName : String) :
    Except String (List ColumnInfo) × SchemaDb :=
  match db.call (.getTableSchema tableName) with
  | (some e, db1) => (.error ("failed to get table schema: " ++ e), db1)
  | (none, db1) => (.ok (db1.masterColumns tableName), db1)

/-- The method `getBackupTableSchema`. -/
def SchemaDb.getBackupTableSchema (db : SchemaDb) (tableName : String) :
    Except String (List ColumnInfo) × SchemaDb :=
  match db.call (.getBackupTableSchema tableName) with
  | (some e, db1) => (.error e, db1)
  | (none, db1) => (.ok ((db1.backup.get? tableName).getD []), db1)

/-- The method `CompareSchemas` with its two catalog queries: the target is asked only
when the source has answered. -/
def SchemaDb.CompareSchemas (db : SchemaDb) (tableName : String) :
    Except String (List String) × SchemaDb :=
  match db.GetTableSchema tableName with
  | (.error e, db1) => (DbSync.CompareSchemas tableName (.error e) (.ok []), db1)
  | (.ok masterColumns, db1) =>
    match db1.getBackupTableSchema tableName with
    | (backupColumns, db2) =>
      (DbSync.CompareSchemas tableName (.ok masterColumns) backupColumns, db2)

/-- The loop `for _, stmt := range alterStatements` of `SyncSchema`. -/
def SchemaDb.execAll : List String → SchemaDb → Option String × SchemaDb
  | [], db => (none, db)
  | stmt :: rest, db =>
    match db.call (.exec stmt) with
    | (some e, db1) => (some ("failed to execute alter statement: " ++ e), db1)
    | (none, db1) => SchemaDb.execAll rest { db1 with backup := db1.execute stmt db1.backup }

/-- The method `SyncSchema`; the result is the error, if any. -/
def SchemaDb.SyncSchema (db : SchemaDb) (tableName : String) : Option String × SchemaDb :=
  match db.TableExists tableName with
  | (.error e, db1) => (some e, db1)
  | (.ok false, db1) => db1.CreateTable tableName
  | (.ok true, db1) =>
    match db1.CompareSchemas tableName with
    | (.error e, db2) => (some e, db2)
    | (.ok alterStatements, db2) =>
      if alterStatements.length = 0 then (none, db2)
      else SchemaDb.execAll alterStatements db2

/-- The loop `for _, dep := range tableDeps` of `SyncAllSchemas`: an error of `SyncSchema`
is logged and the loop goes on. -/
def SchemaDb.syncSchemas : List TableDependency → SchemaDb → SchemaDb
  | [], db => db
  | dep :: rest, db =>
    match db.SyncSchema dep.TableName with
    | (some _, db1) => SchemaDb.syncSchemas rest db1
    | (none, db1) => SchemaDb.syncSchemas rest db1

/-- The method `SyncAllSchemas`, given the results of the catalog queries behind
`GetAllTablesWithDependencies`; the result is the error, if any. -/
def SchemaDb.SyncAllSchemas (db : SchemaDb) (getAllTables : Except String (List String))
    (getForeignKeys : String → Except String (List ForeignKey)) (order1 order2 : List String) :
    Option String × SchemaDb :=
  match GetAllTablesWithDependencies getAllTables getForeignKeys order1 order2 with
  | .error e => (some e, db)
  | .ok tableDeps => (none, SchemaDb.syncSchemas tableDeps db)

/-- The method `TriggerSchemaSync` of the sync service. -/
def TriggerSchemaSync (db : SchemaDb) (getAllTables : Except String (List String))
    (getForeignKeys : String → Except String (List ForeignKey)) (order1 order2 : List String) :
    Option String × SchemaDb :=
  db.SyncAllSchemas getAllTables getForeignKeys order1 order2

/-! ## sync_service.go: NewSyncService, StartSync and StopSync -/

/-- An entry of the scheduler: a registered job with its cron expression and its next
activation time (0 is the zero time). Every job registered here is the tick function of
`StartSync`. -/
structure CronEntry where
  ID : Nat
  Schedule : String
  Next : Nat
deriving DecidableEq, Repr

/-- A run of the tick function of `StartSync` that the scheduler has started on a thread
of its own and that has not ended; `entry` is the entry it was started for. `needsMutex`
tells whether the run has still to take the engine's mutex before it ends: it takes it in
its first lines, in every `IsRunning`, in the first lines of `syncTable` and in
`updateTableStatus`. -/
structure TickJob where
  entry : Nat
  needsMutex : Bool
deriving DecidableEq, Repr

/-- Modelled from the spec: the scheduler type `cron.Cron` of the library
`github.com/robfig/cron/v3`, which the repository imports and does not contain. The
scheduler keeps the registered jobs (`entries`), whether it is started (`running`), the
last entry id handed out (`nextID`) and the jobs it has started that have not ended
(`jobs`, what its `jobWaiter` counts); `parse` is the error, if any, that its parser
reports for a cron expression, and `nextAfter` is the first match of an expression after
an instant. -/
structure Cron where
  parse : String → Option String
  nextAfter : String → Nat → Nat
  entries : List CronEntry
  running : Bool
  nextID : Nat
  jobs : List TickJob

/-- Modelled from the spec: the library call `cron.New()`, a scheduler without jobs that
is not started. -/
def Cron.New (parse : String → Option String) (nextAfter : String → Nat → Nat) : Cron :=
  { parse := parse, nextAfter := nextAfter, entries := [], running := false, nextID := 0,
    jobs := [] }

/-- Modelled from the spec: the library call `AddFunc(spec, cmd)`, which registers a job.
An expression that the parser rejects gives an error and registers nothing; otherwise the
job is appended to the entries under a fresh id (with its next activation time, when the
scheduler is started). -/
def Cron.AddFunc (c : Cron) (spec : String) (now : Nat) : Except String Nat × Cron :=
  match c.parse spec with
  | some e => (.error e, c)
  | none =>
    (.ok (c.nextID + 1),
      { c with
        nextID := c.nextID + 1,
        entries := c.entries ++
          [{ ID := c.nextID + 1, Schedule := spec,
             Next := if c.running then c.nextAfter spec now else 0 }] })

/-- Modelled from the spec: the library call `Start()`, which starts the scheduler (if it
is not started) and gives every entry its next activation time. -/
def Cron.Start (c : Cron) (now : Nat) : Cron :=
  if c.running then c
  else
    { c with
      running := true,
      entries := c.entries.map (fun e => { e with Next := c.nextAfter e.Schedule now }) }

/-- Modelled from the spec: the library call `Stop()`, which stops the scheduler. The
registered jobs stay registered, and the jobs that have been started go on; the context
that the call returns is done when the last of them has ended. -/
def Cron.Stop (c : Cron) : Cron :=
  { c with running := false }

/-- Modelled from the spec: what the run loop of a started scheduler does when the
instant `now` has come: it starts the job of every entry whose activation time has come,
each on a thread of its own, and gives the entry its next activation time. A run of the
tick function begins by taking the engine's mutex. -/
def Cron.fire (c : Cron) (now : Nat) : Cron :=
  if c.running then
    { c with
      jobs := c.jobs ++
        (c.entries.filter (fun e => decide (e.Next ≠ 0 ∧ e.Next ≤ now))).map
          (fun e => { entry := e.ID, needsMutex := true }),
      entries := c.entries.map (fun e =>
        if e.Next ≠ 0 ∧ e.Next ≤ now then { e with Next := c.nextAfter e.Schedule now }
        else e) }
  else c

/-- The order of the entries by next activation time. -/
def nextLe (a b : CronEntry) : Prop := a.Next ≤ b.Next

instance : DecidableRel nextLe := fun a b => inferInstanceAs (Decidable (a.Next ≤ b.Next))

/-- Modelled from the spec: the library call `Entries()`, a snapshot of the entries; a
started scheduler keeps them ordered by next activation time. -/
def Cron.Entries (c : Cron) : List CronEntry :=
  if c.running then c.entries.insertionSort nextLe else c.entries

/-- The function `NewSyncService`; `enableChecksumSync` is read from `cfg`, and `clock` is
the reading of `time.Now()` that the model carries. -/
def NewSyncService (cronSchedule : String) (batchSize : Int) (autoSchemaSync : Bool)
    (enableChecksumSync : Bool) (clock : Nat) : SyncService :=
  { isRunning := false, cronSchedule := cronSchedule, batchSize := batchSize,
    tableStatus := [], syncSchema := autoSchemaSync,
    enableChecksumSync := enableChecksumSync, lastRunTime := 0, nextRunTime := 0,
    clock := clock, stopAfter := none }

/-- The method `StartSync`, up to its return: the result is the error, if any, and the
engine and its scheduler. The initial sync that it leaves running on a thread of its own
is not part of the result. -/
def StartSync (s : SyncService) (c : Cron) : Option String × SyncService × Cron :=
  if s.isRunning then (some "sync already running", s, c)
  else
    match c.AddFunc s.cronSchedule s.clock with
    | (.error e, c1) => (some ("failed to add cron job: " ++ e), s, c1)
    | (.ok _, c1) =>
      let c2 := c1.Start s.clock
      let s1 := { s with isRunning := true }
      match c2.Entries with
      | [] => (none, s1, c2)
      | e :: _ => (none, { s1 with nextRunTime := e.Next }, c2)

/-- The method `StopSync`: the result is the error, if any, and the engine and its
scheduler, or `none` when the call never returns. `StopSync` takes the engine's mutex and
holds it while it waits on `ctx.Done()` for the jobs that the scheduler has started. A job
that has still to take the mutex cannot go on, so the wait is never over; jobs that are
past their last use of the mutex run to their end, and the call returns. -/
def StopSync (s : SyncService) (c : Cron) : Option (Option String × SyncService × Cron) :=
  if !s.isRunning then some (some "sync is not running", s, c)
  else
    let c1 := c.Stop
    if c1.jobs.any (fun j => j.needsMutex) then none
    else some (none, { s with isRunning := false }, { c1 with jobs := [] })

/-! ## Auxiliary definitions used in the statements and proofs -/

/-- One pass of the inner sorting loop seen on lists: `x` is the element at the fixed
position, the list holds the elements after it. -/
def passMin : TableDependency → List TableDependency → TableDependency × List TableDependency
  | x, [] => (x, [])
  | x, y :: ys =>
    if x.Level > y.Level then ((passMin y ys).1, x :: (passMin y ys).2)
    else ((passMin x ys).1, y :: (passMin x ys).2)

/-- The part of a dependency map that the sort never changes: keys, names and
dependency lists. -/
def skeleton (m : DepMap) : List (String × String × List String) :=
  m.map (fun e => (e.1, e.2.TableName, e.2.DependsOn))

/-- Number of keys of the map that `calculateLevel` has not visited yet. -/
def unvisited (st : SortState) : Nat :=
  st.depMap.keys.countP (fun k => !st.visited k)

/-- The dependencies of `t` that are keys of the map (the ones the sort follows). -/
def DepMap.deps (m : DepMap) (t : String) : List String :=
  match m.get? t with
  | none => []
  | some d => d.DependsOn.filter (fun r => (m.get? r).isSome)

/-- The table `a` depends on the table `b`, a key of the map. -/
def DepMap.edge (m : DepMap) (a b : String) : Prop := b ∈ m.deps a

/-- No table reaches itself along dependencies. -/
def DepMap.Acyclic (m : DepMap) : Prop := ∀ a, ¬ Relation.TransGen m.edge a a

/-- The level stored for `t` (0 when `t` is not a key). -/
def DepMap.levelOf (m : DepMap) (t : String) : Nat :=
  match m.get? t with
  | none => 0
  | some d => d.Level

/-- The running maximum of `calculateLevel` over a list of dependencies. -/
def maxLevel (lv : String → Nat) (ds : List String) (m0 : Nat) : Nat :=
  ds.foldl (fun acc d => max acc (lv d + 1)) m0

/-- The table has been visited and has left the recursion stack. -/
def finished (st : SortState) (k : String) : Prop :=
  st.visited k = true ∧ st.recStack k = false

/-- Every finished table has finished dependencies and the level the recurrence
gives it. -/
def LevelInv (m0 : DepMap) (st : SortState) : Prop :=
  ∀ k, finished st k →
    (∀ d ∈ m0.deps k, finished st d) ∧
    st.depMap.levelOf k = maxLevel st.depMap.levelOf (m0.deps k) 0

/-- What one call of `calculateLevel` on an acyclic map guarantees. -/
def LevelCall (m0 : DepMap) (r : String → SortState → Option (Nat × SortState))
    (fuel : Nat) : Prop :=
  ∀ d st, skeleton st.depMap = skeleton m0 → (m0.get? d).isSome →
    unvisited st ≤ fuel → (∀ s, st.recStack s = true → Relation.TransGen m0.edge s d) →
    LevelInv m0 st →
    ∃ l st', r d st = some (l, st') ∧ skeleton st'.depMap = skeleton m0 ∧
      (∀ k, st'.recStack k = st.recStack k) ∧
      (∀ k, st.visited k = true → st'.visited k = true) ∧
      finished st' d ∧ st'.depMap.levelOf d = l ∧ LevelInv m0 st' ∧
      (∀ k, finished st k → st'.depMap.levelOf k = st.depMap.levelOf k)

/-- The table names that the foreign keys read for `t` point to. -/
def referencedTables (getForeignKeys : String → Except String (List ForeignKey))
    (t : String) : List String :=
  match getForeignKeys t with
  | .ok fks => fks.map (fun fk => fk.ReferencedTableName)
  | .error _ => []

/-- The in-catalog tables, other than `t` itself, that `t` references. -/
def catalogRefs (tables : List String)
    (getForeignKeys : String → Except String (List ForeignKey)) (t : String) : List String :=
  (referencedTables getForeignKeys t).filter (fun r => decide (r ∈ tables) && decide (r ≠ t))

/-- An edge of the foreign-key graph of the catalog, self-references and references
to tables outside the catalog set aside. -/
def catalogEdge (tables : List String)
    (getForeignKeys : String → Except String (List ForeignKey)) (a b : String) : Prop :=
  a ∈ tables ∧ b ∈ catalogRefs tables getForeignKeys a

/-- The foreign-key graph of the catalog has no cycle. -/
def CatalogAcyclic (tables : List String)
    (getForeignKeys : String → Except String (List ForeignKey)) : Prop :=
  ∀ a, ¬ Relation.TransGen (catalogEdge tables getForeignKeys) a a

/-- The level the plan gives the table named `t` (0 when the plan has no such node). -/
def planLevel : List TableDependency → String → Nat
  | [], _ => 0
  | d :: rest, t => if d.TableName = t then d.Level else planLevel rest t

/-- The entry that `GetAllTablesWithDependencies` creates for a table. -/
def newEntry (table : String) : TableDependency :=
  { TableName := table, DependsOn := [], Level := 0, HasCircular := false }

/-- The effect of the foreign keys of one table on an entry. -/
def withRefs (table : String) (refs : List String) (k : String) (d : TableDependency) :
    TableDependency :=
  if k = table then { d with DependsOn := d.DependsOn ++ refs.filter (fun r => decide (r ≠ table)) }
  else d

/-- Scenario D: `a` has no foreign key, `b` references `a`, `c` references `b`. -/
def scenarioD : String → Except String (List ForeignKey)
  | "b" => .ok [⟨"b", "a_id", "a", "id", "fk_b_a"⟩]
  | "c" => .ok [⟨"c", "b_id", "b", "id", "fk_c_b"⟩]
  | _ => .ok []

/-- A two-table cycle as a dependency map. -/
def cycleMap : DepMap :=
  [("a", ⟨"a", ["b"], 0, false⟩), ("b", ⟨"b", ["a"], 0, false⟩)]

/-- The target column named `name`: the last one of that name, were the list to hold
several. -/
def targetColumn : List ColumnInfo → String → Option ColumnInfo
  | [], _ => none
  | b :: rest, name =>
    match targetColumn rest name with
    | some x => some x
    | none => if b.ColumnName = name then some b else none

/-- The statement the schema diff owes a source column `c`, if any. -/
def schemaStatement (tableName : String) (target : List ColumnInfo) (c : ColumnInfo) :
    Option String :=
  match targetColumn target c.ColumnName with
  | none => some (generateAddColumnStatement tableName c)
  | some b =>
    if c.ColumnType ≠ b.ColumnType ∨ c.IsNullable ≠ b.IsNullable ∨ c.Extra ≠ b.Extra then
      some (generateModifyColumnStatement tableName c)
    else none

/-- The two kinds of statement that `CompareSchemas` emits. -/
inductive AlterKind where
  | add
  | modify
deriving DecidableEq, Repr

/-- An emitted statement in structured form: its kind and the source column it carries. -/
structure Alter where
  kind : AlterKind
  col : ColumnInfo
deriving DecidableEq, Repr

/-- The text of a structured statement. -/
def Alter.text (tableName : String) (a : Alter) : String :=
  match a.kind with
  | .add => generateAddColumnStatement tableName a.col
  | .modify => generateModifyColumnStatement tableName a.col

/-- The structured statement the schema diff owes a source column `c`, if any. -/
def schemaAlter (target : List ColumnInfo) (c : ColumnInfo) : Option Alter :=
  match targetColumn target c.ColumnName with
  | none => some ⟨.add, c⟩
  | some b =>
    if c.ColumnType ≠ b.ColumnType ∨ c.IsNullable ≠ b.IsNullable ∨ c.Extra ≠ b.Extra then
      some ⟨.modify, c⟩
    else none

/-- The effect of an applied statement on the column list of the target: ADD COLUMN
appends a column with the name, type, nullability, default and extra qualifiers of the
source column; MODIFY COLUMN gives the target column of that name the type, nullability,
default and extra qualifiers of the source column. -/
def applyAlter (target : List ColumnInfo) (a : Alter) : List ColumnInfo :=
  match a.kind with
  | .add => target ++ [{ a.col with ColumnKey := "" }]
  | .modify =>
    target.map (fun b =>
      if b.ColumnName = a.col.ColumnName then
        { b with ColumnType := a.col.ColumnType, IsNullable := a.col.IsNullable,
                 ColumnDefault := a.col.ColumnDefault, Extra := a.col.Extra }
      else b)

/-- The optional parts that follow the column type in an ADD or MODIFY statement. -/
def optionalParts (col : ColumnInfo) : List String :=
  (if col.IsNullable = "NO" then ["NOT NULL"] else []) ++
    (match col.ColumnDefault with
      | some d => ["DEFAULT " ++ d]
      | none => []) ++
    (if col.Extra = "" then [] else [col.Extra])

/-- Scenario E: column `phone VARCHAR(20) NOT NULL DEFAULT ''`, no extra qualifiers. -/
def phoneColumn : ColumnInfo :=
  { ColumnName := "phone", DataType := "varchar", ColumnType := "VARCHAR(20)",
    IsNullable := "NO", ColumnKey := "", ColumnDefault := some "''", Extra := "" }

/-- The target column named like `c` agrees with `c` in type, nullability and extra. -/
def Reconciled (target : List ColumnInfo) (c : ColumnInfo) : Prop :=
  ∃ b, targetColumn target c.ColumnName = some b ∧
    b.ColumnType = c.ColumnType ∧ b.IsNullable = c.IsNullable ∧ b.Extra = c.Extra

/-- The checksum the target holds for the primary-key value `k`: that of the last target
row with this key that carries a checksum. -/
def targetChecksum (pkColumn : String) : List Row → Value → Option Value
  | [], _ => none
  | row :: rest, k =>
    match targetChecksum pkColumn rest k with
    | some c => some c
    | none =>
      match row.get? pkColumn, row.get? "row_checksum" with
      | some k', some c => if k' = k then some c else none
      | _, _ => none

/-- The copy of a row without its `row_checksum` entry. -/
def stripChecksum (row : Row) : Row := row.filter (fun e => decide (e.1 ≠ "row_checksum"))

/-- A source row counts as changed: its key has no checksum on the target, or a different
one. -/
def rowChanged (pkColumn : String) (backupData : List Row) (masterRow : Row) : Bool :=
  match masterRow.get? pkColumn with
  | none => false
  | some k => decide (targetChecksum pkColumn backupData k ≠ masterRow.get? "row_checksum")

instance : IsTotal SourceRow keyLe := ⟨fun a b => Int.le_total a.key b.key⟩

instance : IsTrans SourceRow keyLe := ⟨fun _ _ _ h1 h2 => Int.le_trans h1 h2⟩

/-- The strict order of the primary keys. -/
def keyLt (a b : SourceRow) : Prop := a.key < b.key

instance : IsAntisymm SourceRow keyLt :=
  ⟨fun _ _ h1 h2 => absurd (Int.lt_trans h1 h2) (Int.lt_irrefl _)⟩

/-- The source rows above the watermark `offset`, in key order. -/
def rowsAbove (db : TableDb) (offset : Int) : List SourceRow :=
  (db.source.filter (fun r => decide (r.key > offset))).insertionSort keyLe

/-- The key of the last row of a batch, or the old watermark when the batch is empty. -/
def lastKey (rows : List SourceRow) (offset : Int) : Int :=
  match rows.getLast? with
  | none => offset
  | some r => r.key

/-- The database after a run of calls that neither failed nor touched the source:
only the target rows and the log have changed. -/
def TableDb.after (db : TableDb) (target : List Row) (log : List DbCall) : TableDb :=
  { db with target := target, log := log }

/-- The log entries of the upserts of a batch. -/
def upsertCalls (tableName pkColumn : String) (rows : List Row) : List DbCall :=
  rows.map (fun r => DbCall.upsert (upsertQuery tableName pkColumn r) (r.map Prod.snd))

/-- A stand-in for the checksum function of the database in the worked scenarios. -/
def exampleCrc (vs : List Value) : Value :=
  .int64 (vs.foldl
    (fun acc v =>
      match v with
      | .int n => 31 * acc + n
      | .int64 n => 31 * acc + n
      | .str s => 31 * acc + s.length
      | _ => 31 * acc)
    7)

/-- A row of the table `items(id, name)`. -/
def itemRow (id : Int) (name : String) : SourceRow :=
  { key := id, updatedAt := 0, cols := [("id", .int64 id), ("name", .str name)] }

/-- Scenario A: source `items` holds (1,a), (2,b), (3,c); the target is empty. -/
def scenarioA : TableDb :=
  { pkColumn := "id", hasUpdatedAt := false, columns := ["id", "name"],
    source := [itemRow 1 "a", itemRow 2 "b", itemRow 3 "c"],
    targetExists := true, target := [], crc32 := exampleCrc, faults := [], log := [] }

/-- A freshly constructed engine with the given batch size, running. -/
def runningEngine (batchSize : Int) : SyncService :=
  { isRunning := true, cronSchedule := "*/1 * * * *", batchSize := batchSize,
    tableStatus := [], syncSchema := true, enableChecksumSync := true,
    lastRunTime := 0, nextRunTime := 0, clock := 1000, stopAfter := none }

/-- Source columns `id INT`, `phone VARCHAR(20)` for the schema scenarios. -/
def sourceColumns : List ColumnInfo :=
  [{ ColumnName := "id", DataType := "int", ColumnType := "int(11)", IsNullable := "NO",
     ColumnKey := "PRI", ColumnDefault := none, Extra := "auto_increment" },
   phoneColumn]

/-- Target columns: `id` declared as `bigint(20)`, no `phone`, one column of its own. -/
def targetColumns : List ColumnInfo :=
  [{ ColumnName := "id", DataType := "bigint", ColumnType := "bigint(20)", IsNullable := "NO",
     ColumnKey := "PRI", ColumnDefault := none, Extra := "auto_increment" },
   { ColumnName := "legacy", DataType := "text", ColumnType := "text", IsNullable := "YES",
     ColumnKey := "", ColumnDefault := none, Extra := "" }]

/-- Source rows with checksums for the comparison scenario. -/
def masterChecksummed : List Row :=
  [[("id", .int64 1), ("name", .str "A"), ("row_checksum", .int64 11)],
   [("id", .int64 2), ("name", .str "b"), ("row_checksum", .int64 20)],
   [("id", .int64 3), ("name", .str "c"), ("row_checksum", .int64 30)]]

/-- Target rows with checksums for the comparison scenario: row 1 differs, row 3 is
missing. -/
def backupChecksummed : List Row :=
  [[("id", .int64 1), ("name", .str "a"), ("row_checksum", .int64 10)],
   [("id", .int64 2), ("name", .str "b"), ("row_checksum", .int64 20)]]

/-- The checksum the database computes for a stored row. -/
def rowCrc (db : TableDb) (row : Row) : Value :=
  db.crc32 (db.columns.map (fun c =>
    match row.get? c with
    | none => Value.str ""
    | some Value.null => Value.str ""
    | some v => v))

/-- The checksum of the last row of the list whose primary key is `k`. -/
def lastCrc (pkColumn : String) (db : TableDb) : List Row → Value → Option Value
  | [], _ => none
  | row :: rest, k =>
    match lastCrc pkColumn db rest k with
    | some c => some c
    | none => if row.get? pkColumn = some k then some (rowCrc db row) else none

/-- The source rows that the checksum scan reports as changed: the rows, in key order,
whose checksum the target does not hold under their key. -/
def changedRows (pkColumn : String) (db : TableDb) : List Row :=
  (db.source.insertionSort keyLe).filterMap (fun r =>
    if lastCrc pkColumn db db.target (.int64 r.key) = some (rowCrc db r.cols) then none
    else some r.cols)

/-- The conventions of a source table that integer-keyed replication relies on: a
primary key, distinct non-zero keys that reach Go as `int64`, rows that carry every
column of the table, and no column named `row_checksum`. -/
structure WellKeyed (db : TableDb) : Prop where
  hasPk : db.pkColumn ≠ ""
  keysNodup : (db.source.map (fun r => r.key)).Nodup
  keysNonzero : ∀ r ∈ db.source, r.key ≠ 0
  intKeyed : ∀ r ∈ db.source, r.cols.get? db.pkColumn = some (.int64 r.key)
  allColumns : ∀ r ∈ db.source, ∀ c ∈ db.columns, (r.cols.get? c).isSome
  noChecksumColumn : ∀ r ∈ db.source, r.cols.get? "row_checksum" = none

/-- The table `items(id, name)` with the single row (0, z) on the source and an empty
target. -/
def zeroKeyTable : TableDb :=
  { scenarioA with source := [itemRow 0 "z"] }

/-- The table `items`: since the last tick, which left the watermark at 2, row 1 has been
renamed and row 3 added on the source. -/
def staleItems : TableDb :=
  { scenarioA with
    source := [itemRow 3 "c", itemRow 1 "aa", itemRow 2 "b"],
    target := [[("id", .int64 1), ("name", .str "a")], [("id", .int64 2), ("name", .str "b")]] }

/-- An engine with batch size 2 whose ledger has `items` at watermark 2. -/
def resumedEngine : SyncService :=
  { runningEngine 2 with
    tableStatus := [("items", ⟨"items", 2, 2, 900, "success", ""⟩)] }

/-- The table `items` with an unsigned 64-bit key: row 5 is on both sides, the row with
key 2^63 is new on the source. The driver hands keys above the signed range over in
decimal text. -/
def unsignedKeyTable : TableDb :=
  { scenarioA with
    source := [itemRow 5 "e",
      { key := 9223372036854775808, updatedAt := 0,
        cols := [("id", .str "9223372036854775808"), ("name", .str "f")] }],
    target := [[("id", .int64 5), ("name", .str "e")]] }

/-- An engine with batch size 100 whose ledger has `items` at watermark 5. -/
def engineAtFive : SyncService :=
  { runningEngine 100 with
    tableStatus := [("items", ⟨"items", 5, 1, 900, "success", ""⟩)] }

/-- The table `items` of scenario A when the catalog query for its primary key fails,
for instance by running into its 10-second deadline. -/
def probeTimeout : TableDb :=
  { scenarioA with faults := [some "context deadline exceeded"] }

/-- The table `items` of scenario A without a primary key. -/
def keylessTable : TableDb :=
  { scenarioA with pkColumn := "" }

/-- The table `items` of scenario A when the first fetch of step 1 fails. -/
def fetchRefused : TableDb :=
  { scenarioA with faults := [none, none, some "connection refused"] }

/-- Whether a logged call is an upsert. -/
def DbCall.isUpsert : DbCall → Bool
  | .upsert _ _ => true
  | _ => false

/-- The number of upserts among the logged calls. -/
def upsertCount (log : List DbCall) : Nat := (log.filter DbCall.isUpsert).length

/-- A checksum function for the worked scenarios that tells strings of equal length
apart. -/
def charCrc (vs : List Value) : Value :=
  .int64 (vs.foldl
    (fun acc v =>
      match v with
      | .int n => 31 * acc + n
      | .int64 n => 31 * acc + n
      | .str s => s.toList.foldl (fun a c => 131 * a + (c.toNat : Int)) (31 * acc)
      | _ => 31 * acc)
    7)

/-- Scenario B: source `items` holds (1, A) and (2, b) after row 1 has been updated; the
target still holds (1, a) and (2, b). -/
def scenarioB : TableDb :=
  { pkColumn := "id", hasUpdatedAt := false, columns := ["id", "name"],
    source := [itemRow 1 "A", itemRow 2 "b"],
    targetExists := true,
    target := [[("id", .int64 1), ("name", .str "a")], [("id", .int64 2), ("name", .str "b")]],
    crc32 := charCrc, faults := [], log := [] }

/-- An engine with batch size 2 whose ledger has `items` at watermark 2 with two rows
counted, as the first tick of scenario B leaves it. -/
def engineAfterFirstTick : SyncService :=
  { runningEngine 2 with
    tableStatus := [("items", ⟨"items", 2, 2, 900, "success", ""⟩)] }

/-- Scenario B with both rows updated on the source, when the second upsert of step 2
fails. -/
def lostInSecondUpsert : TableDb :=
  { scenarioB with
    source := [itemRow 1 "A", itemRow 2 "B"],
    faults := [none, none, none, none, none, none, none, some "connection lost"] }

/-- The state of the loop of step 1 at the top of an iteration: the engine, the
database, `currentOffset` and `totalSynced`. -/
abbrev LoopState := SyncService × TableDb × Int × Nat

/-- One iteration of the loop of step 1 that runs to its end and goes round again: the
engine is running, the fetch and every upsert succeed, and the batch is full. The result
is the state at the top of the next iteration; `none` when the iteration leaves the
loop. -/
def fullBatch (tableName pkColumn : String) (σ : LoopState) : Option LoopState :=
  match σ.1.IsRunning with
  | (false, _) => none
  | (true, s1) =>
    match fetchDataFromMaster σ.2.1 σ.2.2.1 s1.batchSize with
    | (.error _, _) => none
    | (.ok rows, db1) =>
      if rows.length = 0 then none
      else
        match upsertDataToBackup db1 tableName pkColumn rows with
        | ((_, _, some _), _) => none
        | ((synced, lastID, none), db2) =>
          if (rows.length : Int) < s1.batchSize then none
          else some (s1, db2, lastID, σ.2.2.2 + synced)

/-- The state after `n` such iterations. -/
def fullBatches (tableName pkColumn : String) : Nat → LoopState → Option LoopState
  | 0, σ => some σ
  | n + 1, σ =>
    match fullBatch tableName pkColumn σ with
    | none => none
    | some σ1 => fullBatches tableName pkColumn n σ1

/-- Scenario A when the connection is lost after the first batch: the second fetch of
step 1 fails. -/
def lostAfterBatch : TableDb :=
  { scenarioA with faults := [none, none, none, none, none, some "connection lost"] }

/-- Scenario A when the first call of the checksum scan of step 2 fails. -/
def lostInScan : TableDb :=
  { scenarioA with
    faults := [none, none, none, none, none, none, none, some "connection lost"] }

/-- The database of `lostAfterBatch` at the top of the second iteration of step 1: rows
1 and 2 are on the target, and the next call will fail. -/
def lostAfterBatchState : TableDb :=
  { scenarioA with
    target := [[("id", .int64 1), ("name", .str "a")], [("id", .int64 2), ("name", .str "b")]],
    faults := [some "connection lost"],
    log := [.getPrimaryKeyColumn, .hasUpdatedAtColumn, .fetchData 0 2] ++
      upsertCalls "items" "id"
        [[("id", .int64 1), ("name", .str "a")], [("id", .int64 2), ("name", .str "b")]] }

/-- The engine of scenario B after `StopSync`: the running flag is false. -/
def stoppedEngine : SyncService :=
  { engineAfterFirstTick with isRunning := false }

/-- The tables on which `SyncSchema` has been started, in order: every run of `SyncSchema`
begins with the query of `TableExists`, and nothing else issues that query. -/
def attempts (log : List SchemaCall) : List String :=
  log.filterMap (fun c =>
    match c with
    | .tableExists t => some t
    | _ => none)

/-- Scenario D as the schema service sees it: the tables `a`, `b`, `c` of the source each
have the columns of `sourceColumns`, the target has none of them yet, and the first call
(the `TableExists` query for `a`) fails. -/
def scenarioDSchemas : SchemaDb :=
  { masterColumns := fun _ => sourceColumns,
    createStatement := fun t => "CREATE TABLE `" ++ t ++ "` (...)",
    backup := [],
    execute := fun _ backup => backup,
    faults := [some "connection refused"],
    log := [] }

/-- The state in which `calculateLevel` leaves the closure variables when it is entered
at `a`, a table not visited yet that references only `b`, which is not visited yet and
references only `a`: the re-entry at `a` sets the flag of `a` and counts 0, `b` gets
level 1 and `a` level 2. -/
def afterCycle (a b : String) (st : SortState) : SortState :=
  { depMap := ((st.depMap.modify a (fun d => { d with HasCircular := true })).modify b
        (fun d => { d with Level := 1 })).modify a (fun d => { d with Level := 2 }),
    visited := setFlag (setFlag st.visited a true) b true,
    recStack := setFlag (setFlag (setFlag (setFlag st.recStack a true) b true) b false) a false }

/-- Neither table of the pair has been visited: the entries are as the catalog loop
left them. -/
def CycleFresh (a b : String) (st : SortState) : Prop :=
  ∃ ea eb, st.depMap.get? a = some ea ∧ st.depMap.get? b = some eb ∧
    ea.DependsOn = [b] ∧ eb.DependsOn = [a] ∧
    ea.HasCircular = false ∧ eb.HasCircular = false ∧
    st.visited a = false ∧ st.visited b = false ∧
    st.recStack a = false ∧ st.recStack b = false

/-- Both tables of the pair have their level: `x`, where the cycle was entered, has the
flag and level 2; `y` has no flag and level 1. -/
def CycleDone (x y : String) (st : SortState) : Prop :=
  ∃ ex ey, st.depMap.get? x = some ex ∧ st.depMap.get? y = some ey ∧
    ex.HasCircular = true ∧ ey.HasCircular = false ∧ ex.Level = 2 ∧ ey.Level = 1 ∧
    st.visited x = true ∧ st.visited y = true ∧
    st.recStack x = false ∧ st.recStack y = false

/-- The states of the pair between two calls of `calculateLevel`. -/
def CycleInv (a b : String) (st : SortState) : Prop :=
  CycleFresh a b st ∨ CycleDone a b st ∨ CycleDone b a st

/-- What a call of `calculateLevel` may do to the pair. -/
def CycleTrans (a b : String) (st st' : SortState) : Prop :=
  (CycleFresh a b st → CycleInv a b st') ∧ (CycleDone a b st → CycleDone a b st') ∧
    (CycleDone b a st → CycleDone b a st')

/-- The two states agree on the pair. -/
def SameAt (a b : String) (st st' : SortState) : Prop :=
  st'.depMap.get? a = st.depMap.get? a ∧ st'.depMap.get? b = st.depMap.get? b ∧
    st'.visited a = st.visited a ∧ st'.visited b = st.visited b ∧
    st'.recStack a = st.recStack a ∧ st'.recStack b = st.recStack b

/-- A catalog of two tables that reference each other. -/
def cycleCatalog : String → Except String (List ForeignKey)
  | "a" => .ok [⟨"a", "b_id", "b", "id", "fk_a_b"⟩]
  | "b" => .ok [⟨"b", "a_id", "a", "id", "fk_b_a"⟩]
  | _ => .ok []

/-- The two-table cycle together with a table `c` that references `a`. -/
def cycleWithTail : DepMap :=
  [("a", ⟨"a", ["b"], 0, false⟩), ("b", ⟨"b", ["a"], 0, false⟩), ("c", ⟨"c", ["a"], 0, false⟩)]

/-- A scheduler whose parser accepts the expression "every minute" and nothing else, on
a clock that counts seconds. -/
def everyMinute : Cron :=
  Cron.New (fun spec => if spec = "*/1 * * * *" then none else some "expected exactly 5 fields")
    (fun _ now => (now / 60 + 1) * 60)

/-- The engine as `NewSyncService` builds it, with the default schedule. -/
def freshEngine : SyncService := NewSyncService "*/1 * * * *" 100 true true 1000

/-- The engine and its scheduler after `StartSync`. -/
def startedOnce : Option String × SyncService × Cron := StartSync freshEngine everyMinute

/-- The engine and its scheduler after `StartSync` and `StopSync`, no cron match having
come in between. Were `StopSync` not to return, the first component would say so. -/
def stoppedAgain : Option String × SyncService × Cron :=
  match StopSync startedOnce.2.1 startedOnce.2.2 with
  | some r => r
  | none => (some "StopSync has not returned", startedOnce.2.1, startedOnce.2.2)

/-- The engine and its scheduler after `StartSync`, `StopSync` and `StartSync`. -/
def startedTwice : Option String × SyncService × Cron :=
  StartSync stoppedAgain.2.1 stoppedAgain.2.2

/-- A row of `orders(id, total, note)` as the fetch hands it over. -/
def orderRow : Row := [("note", .null), ("id", .int64 7), ("total", .str "12.50")]

/-- A name between backticks. -/
def quoted (name : String) : String := "`" ++ name ++ "`"

/-- The assignment `col = VALUES(col)` of the update clause. -/
def assignment (col : String) : String := "`" ++ col ++ "` = VALUES(`" ++ col ++ "`)"

/-- The table `items` with an unsigned 64-bit key at cold start: the source holds the rows
with keys 5 and 2^63, the target is empty. The driver hands keys above the signed range
over in decimal text. -/
def coldUnsigned : TableDb :=
  { scenarioA with
    source := [itemRow 5 "e",
      { key := 9223372036854775808, updatedAt := 0,
        cols := [("id", .str "9223372036854775808"), ("name", .str "f")] }] }

/-- The table `items` at cold start with the single row of key 2^63. -/
def coldSingleUnsigned : TableDb :=
  { scenarioA with
    source := [⟨9223372036854775808, 0,
      [("id", .str "9223372036854775808"), ("name", .str "f")]⟩] }

/-! # Theorems -/

theorem swapIfGreater_split (pre mid post : List TableDependency) (x y : TableDependency) :
    swapIfGreater (pre ++ x :: (mid ++ y :: post)) pre.length (pre.length + 1 + mid.length)
      = if x.Level > y.Level then pre ++ y :: (mid ++ x :: post)
        else pre ++ x :: (mid ++ y :: post) := by
  have h1 : (pre ++ x :: (mid ++ y :: post))[pre.length]? = some x := by
    rw [List.getElem?_append_right (le_refl _)]
    simp
  have h2 : (pre ++ x :: (mid ++ y :: post))[pre.length + 1 + mid.length]? = some y := by
    rw [List.getElem?_append_right (by omega)]
    have : pre.length + 1 + mid.length - pre.length = mid.length + 1 := by omega
    rw [this, List.getElem?_cons_succ, List.getElem?_append_right (by omega)]
    simp
  unfold swapIfGreater
  rw [h1, h2]
  simp only
  split
  · have e1 : (pre ++ x :: (mid ++ y :: post)).set pre.length y = pre ++ y :: (mid ++ y :: post) := by
      simp 
    rw [e1]
    have e2 : pre.length + 1 + mid.length = pre.length + (mid.length + 1) := by omega
    rw [e2, List.set_append_right _ _ (by omega)]
    simp
  · rfl

theorem sortInner_split (ys : List TableDependency) :
    ∀ (pre mid : List TableDependency) (x : TableDependency),
      sortInner pre.length ys.length (pre.length + 1 + mid.length) (pre ++ x :: (mid ++ ys))
        = pre ++ (passMin x ys).1 :: (mid ++ (passMin x ys).2) := by
  induction ys with
  | nil => intro pre mid x; simp [sortInner, passMin]
  | cons y ys ih =>
    intro pre mid x
    simp only [List.length_cons, sortInner]
    rw [swapIfGreater_split]
    have hlen : pre.length + 1 + mid.length + 1 = pre.length + 1 + (mid ++ [x]).length := by
      simp; omega
    have hlen2 : pre.length + 1 + mid.length + 1 = pre.length + 1 + (mid ++ [y]).length := by
      simp; omega
    by_cases h : x.Level > y.Level
    · have := ih pre (mid ++ [x]) y
      simp only [List.append_assoc, List.singleton_append] at this
      rw [if_pos h, hlen, this]
      simp [passMin, h]
    · have := ih pre (mid ++ [y]) x
      simp only [List.append_assoc, List.singleton_append] at this
      rw [if_neg h, hlen2, this]
      simp [passMin, h]

theorem passMin_perm (ys : List TableDependency) :
    ∀ x, ((passMin x ys).1 :: (passMin x ys).2).Perm (x :: ys) := by
  induction ys with
  | nil => intro x; simp [passMin]
  | cons y ys ih =>
    intro x
    by_cases h : x.Level > y.Level
    · simp only [passMin, h, if_true]
      exact ((List.Perm.swap _ _ _).trans ((ih y).cons x))
    · simp only [passMin, h, if_false]
      exact ((List.Perm.swap _ _ _).trans ((ih x).cons y)).trans (List.Perm.swap _ _ _)

theorem passMin_le_head (ys : List TableDependency) :
    ∀ x, (passMin x ys).1.Level ≤ x.Level := by
  induction ys with
  | nil => intro x; simp [passMin]
  | cons y ys ih =>
    intro x
    by_cases h : x.Level > y.Level
    · simp only [passMin, h, if_true]
      exact le_trans (ih y) (le_of_lt h)
    · simp only [passMin, h, if_false]
      exact ih x

theorem passMin_le (ys : List TableDependency) :
    ∀ x, ∀ z ∈ (passMin x ys).2, (passMin x ys).1.Level ≤ z.Level := by
  induction ys with
  | nil => intro x; simp [passMin]
  | cons y ys ih =>
    intro x z hz
    by_cases h : x.Level > y.Level
    · simp only [passMin, h, if_true] at hz ⊢
      rcases List.mem_cons.1 hz with rfl | hz
      · exact le_trans (passMin_le_head ys y) (le_of_lt h)
      · exact ih y z hz
    · simp only [passMin, h, if_false] at hz ⊢
      rcases List.mem_cons.1 hz with rfl | hz
      · exact le_trans (passMin_le_head ys x) (not_lt.1 h)
      · exact ih x z hz

theorem sortOuter_spec (n : Nat) :
    ∀ (pre rest : List TableDependency), rest.length = n →
      ∃ rest', sortOuter n pre.length (pre ++ rest) = pre ++ rest' ∧ rest'.Perm rest ∧
        rest'.Pairwise (fun a b => a.Level ≤ b.Level) := by
  induction n with
  | zero =>
    intro pre rest h
    have : rest = [] := List.length_eq_zero.1 h
    subst this
    exact ⟨[], by simp [sortOuter], List.Perm.refl _, List.Pairwise.nil⟩
  | succ n ih =>
    intro pre rest h
    match rest, h with
    | x :: xs, h =>
      have hxs : xs.length = n := by simpa using h
      have hinner : sortInner pre.length ((pre ++ x :: xs).length - (pre.length + 1))
          (pre.length + 1) (pre ++ x :: xs)
          = pre ++ (passMin x xs).1 :: (passMin x xs).2 := by
        have := sortInner_split xs pre [] x
        simp only [List.length_nil, Nat.add_zero, List.nil_append] at this
        rw [← this]
        congr 1
        simp
        omega
      have hlen2 : (passMin x xs).2.length = n := by
        have := (passMin_perm xs x).length_eq
        simp at this
        omega
      obtain ⟨r', hr, hperm, hsorted⟩ := ih (pre ++ [(passMin x xs).1]) (passMin x xs).2 hlen2
      refine ⟨(passMin x xs).1 :: r', ?_, ?_, ?_⟩
      · simp only [sortOuter]
        rw [hinner]
        simp only [List.length_append, List.length_singleton, List.append_assoc,
          List.singleton_append] at hr
        exact hr
      · exact (hperm.cons _).trans (passMin_perm xs x)
      · refine List.Pairwise.cons ?_ hsorted
        intro z hz
        exact passMin_le xs x z (hperm.subset hz)

theorem sortByLevel_perm (l : List TableDependency) : (sortByLevel l).Perm l := by
  obtain ⟨r, h, hp, _⟩ := sortOuter_spec l.length [] l rfl
  simp only [List.length_nil, List.nil_append] at h
  unfold sortByLevel
  rw [h]
  exact hp

theorem sortByLevel_sorted (l : List TableDependency) :
    (sortByLevel l).Pairwise (fun a b => a.Level ≤ b.Level) := by
  obtain ⟨r, h, _, hs⟩ := sortOuter_spec l.length [] l rfl
  simp only [List.length_nil, List.nil_append] at h
  unfold sortByLevel
  rw [h]
  exact hs

theorem GoMap.get?_modify {V : Type} (m : GoMap String V) (key k : String) (f : V → V) :
    (m.modify key f).get? k = (m.get? k).map (fun d => if k = key then f d else d) := by
  induction m with
  | nil => rfl
  | cons e rest ih =>
    obtain ⟨k0, d0⟩ := e
    by_cases h0 : k0 = key
    · by_cases h1 : k0 = k
      · subst h0; subst h1
        simp [GoMap.modify, GoMap.get?]
      · have h2 : ¬ key = k := fun h => h1 (h0.trans h)
        simp [GoMap.modify, GoMap.get?, h0, h2, ih]
    · by_cases h1 : k0 = k
      · subst h1
        simp [GoMap.modify, GoMap.get?, h0]
      · simp [GoMap.modify, GoMap.get?, h0, h1, ih]

theorem skeleton_modify (m : DepMap) (key : String) (f : TableDependency → TableDependency)
    (hf : ∀ d, (f d).TableName = d.TableName ∧ (f d).DependsOn = d.DependsOn) :
    skeleton (m.modify key f) = skeleton m := by
  induction m with
  | nil => rfl
  | cons e rest ih =>
    obtain ⟨k0, d0⟩ := e
    have ih' : List.map (fun e => (e.1, e.2.TableName, e.2.DependsOn)) (GoMap.modify rest key f)
        = List.map (fun e => (e.1, e.2.TableName, e.2.DependsOn)) rest := ih
    by_cases h0 : k0 = key
    · simp [skeleton, GoMap.modify, h0, (hf d0).1, (hf d0).2, ih']
    · simp [skeleton, GoMap.modify, h0, ih']

theorem keys_of_skeleton {m m' : DepMap} (h : skeleton m' = skeleton m) : m'.keys = m.keys := by
  have := congrArg (List.map Prod.fst) h
  simpa [skeleton, GoMap.keys, List.map_map, Function.comp_def] using this

theorem get?_of_skeleton : ∀ {m m' : DepMap}, skeleton m' = skeleton m → ∀ k,
    (m'.get? k).map (fun d => (d.TableName, d.DependsOn))
      = (m.get? k).map (fun d => (d.TableName, d.DependsOn))
  | [], [], _, _ => rfl
  | [], _ :: _, h, _ => by simp [skeleton] at h
  | _ :: _, [], h, _ => by simp [skeleton] at h
  | (k1, d1) :: r1, (k2, d2) :: r2, h, k => by
    simp only [skeleton, List.map_cons, List.cons.injEq, Prod.mk.injEq] at h
    obtain ⟨⟨hk, hn, hd⟩, hr⟩ := h
    have ih := @get?_of_skeleton r1 r2 hr k
    subst hk
    by_cases hkk : k2 = k
    · simp [GoMap.get?, hkk, hn, hd]
    · simpa [GoMap.get?, hkk] using ih

theorem isSome_of_skeleton {m m' : DepMap} (h : skeleton m' = skeleton m) (k : String) :
    (m'.get? k).isSome = (m.get? k).isSome := by
  have := congrArg Option.isSome (get?_of_skeleton h k)
  simpa using this

theorem GoMap.mem_keys_iff {V : Type} (m : GoMap String V) (k : String) :
    k ∈ m.keys ↔ (m.get? k).isSome := by
  induction m with
  | nil => simp [GoMap.keys, GoMap.get?]
  | cons e rest ih =>
    obtain ⟨k0, d0⟩ := e
    by_cases h : k0 = k
    · simp [GoMap.keys, GoMap.get?, h]
    · have ih' : k ∈ List.map Prod.fst rest ↔ (GoMap.get? rest k).isSome = true := ih
      simp only [GoMap.keys, List.map_cons, List.mem_cons, GoMap.get?, h, if_false, ih']
      constructor
      · rintro (h' | h')
        · exact absurd h'.symm h
        · exact h'
      · exact Or.inr

theorem unvisited_mono {st st' : SortState} (hs : skeleton st'.depMap = skeleton st.depMap)
    (hv : ∀ k, st.visited k = true → st'.visited k = true) : unvisited st' ≤ unvisited st := by
  unfold unvisited
  rw [keys_of_skeleton hs]
  apply List.countP_mono_left
  intro k _ hk
  simp only [Bool.not_eq_true'] at hk ⊢
  cases h : st.visited k with
  | false => rfl
  | true => rw [hv k h] at hk; cases hk

theorem countP_setFlag_lt (v : String → Bool) (table : String) (hv : v table = false) :
    ∀ keys : List String, table ∈ keys →
      keys.countP (fun k => !setFlag v table true k) < keys.countP (fun k => !v k) := by
  intro keys
  induction keys with
  | nil => intro h; cases h
  | cons k rest ih =>
    intro hmem
    have hle : rest.countP (fun k => !setFlag v table true k) ≤ rest.countP (fun k => !v k) := by
      apply List.countP_mono_left
      intro x _ hx
      simp only [setFlag, Bool.not_eq_true'] at hx ⊢
      by_cases hxt : x = table
      · simp [hxt] at hx
      · simpa [hxt] using hx
    rw [List.countP_cons, List.countP_cons]
    by_cases hk : k = table
    · subst hk
      have e1 : (!setFlag v k true k) = false := by simp [setFlag]
      have e2 : (!v k) = true := by simp [hv]
      rw [e1, e2]
      simp only [if_true, Bool.false_eq_true, if_false]
      omega
    · have hmem' : table ∈ rest := by
        rcases List.mem_cons.1 hmem with h | h
        · exact absurd h.symm hk
        · exact h
      have := ih hmem'
      have e1 : (!setFlag v table true k) = (!v k) := by simp [setFlag, hk]
      rw [e1]
      omega

theorem loopDeps_total (fuel : Nat) (recur : String → SortState → Option (Nat × SortState))
    (hrec : ∀ d st, (st.depMap.get? d).isSome → unvisited st ≤ fuel →
      ∃ l st', recur d st = some (l, st') ∧ skeleton st'.depMap = skeleton st.depMap ∧
        ∀ k, st.visited k = true → st'.visited k = true) :
    ∀ (ds : List String) (m : Nat) (st : SortState), unvisited st ≤ fuel →
      ∃ m' st', loopDeps recur ds m st = some (m', st') ∧
        skeleton st'.depMap = skeleton st.depMap ∧
        ∀ k, st.visited k = true → st'.visited k = true := by
  intro ds
  induction ds with
  | nil => intro m st _; exact ⟨m, st, rfl, rfl, fun _ h => h⟩
  | cons d rest ih =>
    intro m st hfuel
    cases hget : st.depMap.get? d with
    | none =>
      obtain ⟨m', st', h1, h2, h3⟩ := ih m st hfuel
      exact ⟨m', st', by simp [loopDeps, hget, h1], h2, h3⟩
    | some dep =>
      obtain ⟨l, st1, hr, hs1, hv1⟩ := hrec d st (by simp [hget]) hfuel
      obtain ⟨m', st', h1, h2, h3⟩ :=
        ih (if l ≥ m then l + 1 else m) st1 (le_trans (unvisited_mono hs1 hv1) hfuel)
      exact ⟨m', st', by simp [loopDeps, hget, hr, h1], h2.trans hs1, fun k hk => h3 k (hv1 k hk)⟩

theorem calculateLevelBody_total (recur : Option (String → SortState → Option (Nat × SortState)))
    (table : String) (st : SortState) (hsome : (st.depMap.get? table).isSome)
    (hrec : st.recStack table = false → st.visited table = false →
      ∃ r fuel, recur = some r ∧ unvisited st ≤ fuel + 1 ∧
        ∀ d st, (st.depMap.get? d).isSome → unvisited st ≤ fuel →
          ∃ l st', r d st = some (l, st') ∧ skeleton st'.depMap = skeleton st.depMap ∧
            ∀ k, st.visited k = true → st'.visited k = true) :
    ∃ l st', calculateLevelBody recur table st = some (l, st') ∧
      skeleton st'.depMap = skeleton st.depMap ∧
      ∀ k, st.visited k = true → st'.visited k = true := by
  obtain ⟨dep, hdep⟩ := Option.isSome_iff_exists.1 hsome
  unfold calculateLevelBody
  by_cases hrs : st.recStack table = true
  · simp only [hrs, if_true, hdep]
    exact ⟨_, _, rfl, skeleton_modify _ _ _ (fun d => ⟨rfl, rfl⟩), fun _ h => h⟩
  · by_cases hvis : st.visited table = true
    · simp only [hrs, hvis, if_true, hdep]
      exact ⟨_, _, rfl, rfl, fun _ h => h⟩
    · have hv : st.visited table = false := by simpa using hvis
      obtain ⟨r, fuel, hr, hfuel, hrt⟩ := hrec (by simpa using hrs) hv
      subst hr
      simp only [hrs, hvis, if_false, hdep]
      have hmem : table ∈ st.depMap.keys := (GoMap.mem_keys_iff _ _).2 hsome
      have hlt := countP_setFlag_lt st.visited table hv st.depMap.keys hmem
      obtain ⟨m', st2, h1, h2, h3⟩ := loopDeps_total fuel r hrt dep.DependsOn 0
        { st with visited := setFlag st.visited table true
                  recStack := setFlag st.recStack table true }
        (by unfold unvisited at hfuel ⊢; simp only at hlt ⊢; omega)
      rw [h1]
      refine ⟨_, _, rfl, ?_, ?_⟩
      · exact (skeleton_modify st2.depMap table (fun d => { d with Level := m' })
          (fun d => ⟨rfl, rfl⟩)).trans h2
      · intro k hk
        apply h3
        simp only [setFlag]
        split
        · rfl
        · exact hk

theorem calculateLevel_total (fuel : Nat) :
    ∀ (table : String) (st : SortState), (st.depMap.get? table).isSome → unvisited st ≤ fuel →
      ∃ l st', calculateLevel fuel table st = some (l, st') ∧
        skeleton st'.depMap = skeleton st.depMap ∧
        ∀ k, st.visited k = true → st'.visited k = true := by
  induction fuel with
  | zero =>
    intro table st hsome hfuel
    apply calculateLevelBody_total none table st hsome
    intro _ hv
    exfalso
    have hmem : table ∈ st.depMap.keys := (GoMap.mem_keys_iff _ _).2 hsome
    have : 0 < unvisited st := by
      unfold unvisited
      apply List.countP_pos_iff.2
      exact ⟨table, hmem, by simp [hv]⟩
    omega
  | succ fuel ih =>
    intro table st hsome hfuel
    apply calculateLevelBody_total (some (calculateLevel fuel)) table st hsome
    intro _ _
    exact ⟨_, fuel, rfl, hfuel, ih⟩

theorem calculateAll_total (fuel : Nat) (order : List String) :
    ∀ st : SortState, (∀ k ∈ order, (st.depMap.get? k).isSome) → unvisited st ≤ fuel →
      ∃ st', calculateAll fuel order st = some st' ∧
        skeleton st'.depMap = skeleton st.depMap := by
  induction order with
  | nil => intro st _ _; exact ⟨st, rfl, rfl⟩
  | cons t rest ih =>
    intro st hk hfuel
    unfold calculateAll
    have hrest : ∀ st' : SortState, skeleton st'.depMap = skeleton st.depMap →
        ∀ k ∈ rest, (st'.depMap.get? k).isSome := by
      intro st' hs k hkr
      rw [isSome_of_skeleton hs]
      exact hk k (List.mem_cons_of_mem _ hkr)
    by_cases hv : st.visited t = true
    · simp only [hv, if_true]
      exact ih st (hrest st rfl) hfuel
    · simp only [hv, if_false]
      obtain ⟨l, st1, h1, h2, h3⟩ := calculateLevel_total fuel t st (hk t (List.mem_cons_self _ _)) hfuel
      rw [h1]
      obtain ⟨st', h4, h5⟩ := ih st1 (hrest st1 h2) (le_trans (unvisited_mono h2 h3) hfuel)
      exact ⟨st', h4, h5.trans h2⟩

theorem maxLevel_congr (lv lv' : String → Nat) (ds : List String) :
    ∀ m0, (∀ d ∈ ds, lv d = lv' d) → maxLevel lv ds m0 = maxLevel lv' ds m0 := by
  induction ds with
  | nil => intro _ _; rfl
  | cons d rest ih =>
    intro m0 h
    simp only [maxLevel, List.foldl_cons]
    rw [h d (List.mem_cons_self _ _)]
    exact ih _ (fun x hx => h x (List.mem_cons_of_mem _ hx))

theorem deps_of_skeleton {m m' : DepMap} (h : skeleton m' = skeleton m) (t : String) :
    m'.deps t = m.deps t := by
  have h1 := get?_of_skeleton h t
  have h2 : (fun r => (m'.get? r).isSome) = (fun r => (m.get? r).isSome) := by
    funext r; exact isSome_of_skeleton h r
  unfold DepMap.deps
  cases hm : m.get? t with
  | none =>
    rw [hm] at h1
    cases hm' : m'.get? t with
    | none => rfl
    | some d' => rw [hm'] at h1; simp at h1
  | some d =>
    rw [hm] at h1
    cases hm' : m'.get? t with
    | none => rw [hm'] at h1; simp at h1
    | some d' =>
      rw [hm'] at h1
      simp only [Option.map_some', Option.some.injEq, Prod.mk.injEq] at h1
      simp only [h1.2, h2]

theorem levelOf_modify_level (m : DepMap) (table k : String) (n : Nat) :
    DepMap.levelOf (m.modify table (fun d => { d with Level := n })) k
      = if k = table ∧ (m.get? k).isSome then n else m.levelOf k := by
  unfold DepMap.levelOf
  rw [GoMap.get?_modify]
  cases hm : m.get? k with
  | none => simp
  | some d =>
    by_cases hk : k = table
    · simp [hk]
    · simp [hk]

theorem loopDeps_levels (m0 : DepMap) (fuel : Nat) (recur : String → SortState → Option (Nat × SortState))
    (table : String)
    (hrec : ∀ d st, skeleton st.depMap = skeleton m0 → (m0.get? d).isSome →
      unvisited st ≤ fuel → (∀ s, st.recStack s = true → Relation.TransGen m0.edge s d) →
      LevelInv m0 st →
      ∃ l st', recur d st = some (l, st') ∧ skeleton st'.depMap = skeleton m0 ∧
        (∀ k, st'.recStack k = st.recStack k) ∧
        (∀ k, st.visited k = true → st'.visited k = true) ∧
        finished st' d ∧ st'.depMap.levelOf d = l ∧ LevelInv m0 st' ∧
        (∀ k, finished st k → st'.depMap.levelOf k = st.depMap.levelOf k)) :
    ∀ (ds : List String) (m : Nat) (st : SortState), skeleton st.depMap = skeleton m0 →
      unvisited st ≤ fuel →
      (∀ s, st.recStack s = true → Relation.ReflTransGen m0.edge s table) →
      (∀ d ∈ ds, (m0.get? d).isSome → m0.edge table d) →
      LevelInv m0 st →
      ∃ m' st', loopDeps recur ds m st = some (m', st') ∧ skeleton st'.depMap = skeleton m0 ∧
        (∀ k, st'.recStack k = st.recStack k) ∧
        (∀ k, st.visited k = true → st'.visited k = true) ∧
        LevelInv m0 st' ∧
        (∀ k, finished st k → st'.depMap.levelOf k = st.depMap.levelOf k) ∧
        (∀ d ∈ ds, (m0.get? d).isSome → finished st' d) ∧
        m' = maxLevel st'.depMap.levelOf (ds.filter (fun r => (m0.get? r).isSome)) m := by
  intro ds
  induction ds with
  | nil =>
    intro m st hs _ _ _ hinv
    exact ⟨m, st, rfl, hs, fun _ => rfl, fun _ h => h, hinv, fun _ _ => rfl,
      fun d hd => absurd hd (List.not_mem_nil d), rfl⟩
  | cons d rest ih =>
    intro m st hs hfuel hstack hedge hinv
    have hedge' : ∀ x ∈ rest, (m0.get? x).isSome → m0.edge table x :=
      fun x hx => hedge x (List.mem_cons_of_mem _ hx)
    cases hget : m0.get? d with
    | none =>
      have hget' : st.depMap.get? d = none := by
        have := isSome_of_skeleton hs d
        rw [hget] at this
        simpa using this
      obtain ⟨m', st', h1, h2, h3, h4, h5, h6, h7, h8⟩ := ih m st hs hfuel hstack hedge' hinv
      refine ⟨m', st', by simp [loopDeps, hget', h1], h2, h3, h4, h5, h6, ?_, ?_⟩
      · intro x hx hxs
        rcases List.mem_cons.1 hx with rfl | hx
        · rw [hget] at hxs; cases hxs
        · exact h7 x hx hxs
      · rw [h8]; simp [List.filter_cons, hget]
    | some dep0 =>
      have hsome : (m0.get? d).isSome := by simp [hget]
      have hsome' : (st.depMap.get? d).isSome := by rw [isSome_of_skeleton hs d]; exact hsome
      obtain ⟨dep, hdep⟩ := Option.isSome_iff_exists.1 hsome'
      have hed : m0.edge table d := hedge d (List.mem_cons_self _ _) hsome
      obtain ⟨l, st1, hr, hs1, hrs1, hv1, hfin1, hl1, hinv1, hfr1⟩ :=
        hrec d st hs hsome hfuel (fun s hsr => Relation.TransGen.tail' (hstack s hsr) hed) hinv
      have hfuel1 : unvisited st1 ≤ fuel :=
        le_trans (unvisited_mono (hs1.trans hs.symm) hv1) hfuel
      obtain ⟨m', st', h1, h2, h3, h4, h5, h6, h7, h8⟩ :=
        ih (if l ≥ m then l + 1 else m) st1 hs1 hfuel1
          (fun s hsr => hstack s (by rw [← hrs1 s]; exact hsr)) hedge' hinv1
      have hfin' : finished st' d := ⟨h4 d hfin1.1, by rw [h3 d]; exact hfin1.2⟩
      refine ⟨m', st', by simp [loopDeps, hdep, hr, h1], h2, fun k => (h3 k).trans (hrs1 k),
        fun k hk => h4 k (hv1 k hk), h5, ?_, ?_, ?_⟩
      · intro k hk
        have hk1 : finished st1 k := ⟨hv1 k hk.1, by rw [hrs1 k]; exact hk.2⟩
        rw [h6 k hk1, hfr1 k hk]
      · intro x hx hxs
        rcases List.mem_cons.1 hx with rfl | hx
        · exact hfin'
        · exact h7 x hx hxs
      · rw [h8]
        have hld : st'.depMap.levelOf d = l := by rw [h6 d hfin1, hl1]
        simp only [List.filter_cons, hsome, if_true, maxLevel, List.foldl_cons, hld]
        congr 1
        by_cases hlm : l ≥ m
        · simp only [hlm, if_true]; omega
        · simp only [hlm, if_false]; omega

theorem calculateLevelBody_levels (m0 : DepMap) (hacyc : m0.Acyclic)
    (recur : Option (String → SortState → Option (Nat × SortState)))
    (table : String) (st : SortState) (hs : skeleton st.depMap = skeleton m0)
    (hsome : (m0.get? table).isSome)
    (hstack : ∀ s, st.recStack s = true → Relation.TransGen m0.edge s table)
    (hinv : LevelInv m0 st)
    (hrec : st.visited table = false →
      ∃ r fuel, recur = some r ∧ unvisited st ≤ fuel + 1 ∧ LevelCall m0 r fuel) :
    ∃ l st', calculateLevelBody recur table st = some (l, st') ∧
      skeleton st'.depMap = skeleton m0 ∧
      (∀ k, st'.recStack k = st.recStack k) ∧
      (∀ k, st.visited k = true → st'.visited k = true) ∧
      finished st' table ∧ st'.depMap.levelOf table = l ∧ LevelInv m0 st' ∧
      (∀ k, finished st k → st'.depMap.levelOf k = st.depMap.levelOf k) := by
  have hsome' : (st.depMap.get? table).isSome := by rw [isSome_of_skeleton hs]; exact hsome
  obtain ⟨dep, hdep⟩ := Option.isSome_iff_exists.1 hsome'
  have hrs : st.recStack table = false := by
    cases h : st.recStack table with
    | false => rfl
    | true => exact absurd (hstack table h) (hacyc table)
  unfold calculateLevelBody
  by_cases hvis : st.visited table = true
  · simp only [hrs, hvis, if_true, hdep, Bool.false_eq_true, if_false]
    refine ⟨_, _, rfl, hs, fun _ => rfl, fun _ h => h, ⟨hvis, hrs⟩, ?_, hinv, fun _ _ => rfl⟩
    simp [DepMap.levelOf, hdep]
  · have hv : st.visited table = false := by simpa using hvis
    obtain ⟨r, fuel, hr, hfuel, hrt⟩ := hrec hv
    subst hr
    simp only [hrs, hvis, if_false, hdep, Bool.false_eq_true]
    have hmem : table ∈ st.depMap.keys := (GoMap.mem_keys_iff _ _).2 hsome'
    have hlt := countP_setFlag_lt st.visited table hv st.depMap.keys hmem
    have hnoself : ∀ d ∈ m0.deps table, d ≠ table := by
      intro d hd hdt
      subst hdt
      exact hacyc d (Relation.TransGen.single hd)
    have hdeps : m0.deps table = dep.DependsOn.filter (fun r => (m0.get? r).isSome) := by
      rw [← deps_of_skeleton hs table]
      have h2 : (fun r => (st.depMap.get? r).isSome) = (fun r => (m0.get? r).isSome) := by
        funext r; exact isSome_of_skeleton hs r
      simp only [DepMap.deps, hdep, h2]
    -- the state on entry to the loop
    have hinv1 : LevelInv m0
        { st with visited := setFlag st.visited table true
                  recStack := setFlag st.recStack table true } := by
      intro k hk
      have hkt : k ≠ table := by
        intro h; subst h
        have := hk.2
        simp [setFlag] at this
      have hk0 : finished st k := by
        obtain ⟨h1, h2⟩ := hk
        simp only [setFlag, hkt, if_false] at h1 h2
        exact ⟨h1, h2⟩
      obtain ⟨h1, h2⟩ := hinv k hk0
      refine ⟨fun d hd => ?_, h2⟩
      have hdf := h1 d hd
      have hdt : d ≠ table := by
        intro h; subst h
        have := hdf.1
        rw [hv] at this
        cases this
      exact ⟨by simp only [setFlag, hdt, if_false]; exact hdf.1,
        by simp only [setFlag, hdt, if_false]; exact hdf.2⟩
    obtain ⟨m', st2, h1, h2, h3, h4, h5, h6, h7, h8⟩ :=
      loopDeps_levels m0 fuel r table hrt dep.DependsOn 0
        { st with visited := setFlag st.visited table true
                  recStack := setFlag st.recStack table true }
        hs (by unfold unvisited at hfuel ⊢; simp only at hlt ⊢; omega)
        (by
          intro s hsr
          simp only [setFlag] at hsr
          by_cases hst : s = table
          · subst hst; exact Relation.ReflTransGen.refl
          · simp only [hst, if_false] at hsr
            exact (hstack s hsr).to_reflTransGen)
        (by
          intro d hd hds
          show d ∈ m0.deps table
          rw [hdeps]
          exact List.mem_filter.2 ⟨hd, hds⟩)
        hinv1
    rw [h1]
    have hs2some : (st2.depMap.get? table).isSome := by
      rw [isSome_of_skeleton h2]; exact hsome
    have hrs2 : st2.recStack table = true := by
      rw [h3 table]; simp [setFlag]
    have hlev : ∀ k, k ≠ table →
        DepMap.levelOf (st2.depMap.modify table (fun d => { d with Level := m' })) k
          = st2.depMap.levelOf k := by
      intro k hk
      rw [levelOf_modify_level]
      simp [hk]
    have hlevt : DepMap.levelOf (st2.depMap.modify table (fun d => { d with Level := m' })) table = m' := by
      rw [levelOf_modify_level]
      simp [hs2some]
    refine ⟨_, _, rfl, ?_, ?_, ?_, ?_, hlevt, ?_, ?_⟩
    · exact (skeleton_modify st2.depMap table (fun d => { d with Level := m' })
          (fun d => ⟨rfl, rfl⟩)).trans h2
    · intro k
      simp only [setFlag]
      by_cases hk : k = table
      · simp [hk, hrs]
      · have := h3 k
        simp only [setFlag, hk, if_false] at this ⊢
        exact this
    · intro k hk
      apply h4
      simp only [setFlag]
      split
      · rfl
      · exact hk
    · exact ⟨h4 table (by simp [setFlag]), by simp [setFlag]⟩
    · -- the invariant after the level of `table` is stored
      intro k hk
      by_cases hkt : k = table
      · subst hkt
        have hfin_d : ∀ d ∈ m0.deps k, finished st2 d := by
          intro d hd
          rw [hdeps] at hd
          obtain ⟨hd1, hd2⟩ := List.mem_filter.1 hd
          exact h7 d hd1 hd2
        refine ⟨?_, ?_⟩
        · intro d hd
          have hdt := hnoself d hd
          obtain ⟨a, b⟩ := hfin_d d hd
          exact ⟨a, by simp only [setFlag, hdt, if_false]; exact b⟩
        · show DepMap.levelOf (st2.depMap.modify k (fun d => { d with Level := m' })) k = _
          refine hlevt.trans (h8.trans ?_)
          rw [← hdeps]
          apply maxLevel_congr
          intro d hd
          exact (hlev d (hnoself d hd)).symm
      · have hk2 : finished st2 k := by
          obtain ⟨a, b⟩ := hk
          simp only [setFlag, hkt, if_false] at b
          exact ⟨a, b⟩
        obtain ⟨a, b⟩ := h5 k hk2
        have hdne : ∀ d ∈ m0.deps k, d ≠ table := by
          intro d hd hdt
          subst hdt
          have := (a d hd).2
          rw [hrs2] at this
          cases this
        refine ⟨?_, ?_⟩
        · intro d hd
          obtain ⟨c, e⟩ := a d hd
          exact ⟨c, by simp only [setFlag, hdne d hd, if_false]; exact e⟩
        · show DepMap.levelOf (st2.depMap.modify table (fun d => { d with Level := m' })) k = _
          rw [hlev k hkt, b]
          apply maxLevel_congr
          intro d hd
          exact (hlev d (hdne d hd)).symm
    · intro k hk
      have hkt : k ≠ table := by
        intro h; subst h
        have := hk.1
        rw [hv] at this
        cases this
      show DepMap.levelOf (st2.depMap.modify table (fun d => { d with Level := m' })) k = _
      rw [hlev k hkt]
      apply h6
      exact ⟨by simp only [setFlag, hkt, if_false]; exact hk.1,
        by simp only [setFlag, hkt, if_false]; exact hk.2⟩

theorem calculateLevel_levels (m0 : DepMap) (hacyc : m0.Acyclic) (fuel : Nat) :
    LevelCall m0 (calculateLevel fuel) fuel := by
  induction fuel with
  | zero =>
    intro table st hs hsome hfuel hstack hinv
    apply calculateLevelBody_levels m0 hacyc none table st hs hsome hstack hinv
    intro hv
    exfalso
    have hsome' : (st.depMap.get? table).isSome := by rw [isSome_of_skeleton hs]; exact hsome
    have hmem : table ∈ st.depMap.keys := (GoMap.mem_keys_iff _ _).2 hsome'
    have : 0 < unvisited st := by
      unfold unvisited
      apply List.countP_pos_iff.2
      exact ⟨table, hmem, by simp [hv]⟩
    omega
  | succ fuel ih =>
    intro table st hs hsome hfuel hstack hinv
    apply calculateLevelBody_levels m0 hacyc (some (calculateLevel fuel)) table st hs hsome
      hstack hinv
    intro _
    exact ⟨_, fuel, rfl, hfuel, ih⟩

theorem calculateAll_levels (m0 : DepMap) (hacyc : m0.Acyclic) (fuel : Nat)
    (order : List String) :
    ∀ st : SortState, skeleton st.depMap = skeleton m0 →
      (∀ k ∈ order, (m0.get? k).isSome) → unvisited st ≤ fuel →
      (∀ s, st.recStack s = false) → LevelInv m0 st →
      ∃ st', calculateAll fuel order st = some st' ∧ skeleton st'.depMap = skeleton m0 ∧
        (∀ s, st'.recStack s = false) ∧ LevelInv m0 st' ∧
        (∀ k, st.visited k = true → st'.visited k = true) ∧
        ∀ k ∈ order, st'.visited k = true := by
  induction order with
  | nil =>
    intro st hs _ _ hrs hinv
    exact ⟨st, rfl, hs, hrs, hinv, fun _ h => h, fun k hk => absurd hk (List.not_mem_nil k)⟩
  | cons t rest ih =>
    intro st hs hk hfuel hrs hinv
    unfold calculateAll
    have hk' : ∀ k ∈ rest, (m0.get? k).isSome := fun k h => hk k (List.mem_cons_of_mem _ h)
    by_cases hv : st.visited t = true
    · simp only [hv, if_true]
      obtain ⟨st', h1, h2, h3, h4, h5, h6⟩ := ih st hs hk' hfuel hrs hinv
      refine ⟨st', h1, h2, h3, h4, h5, ?_⟩
      intro k hk
      rcases List.mem_cons.1 hk with rfl | hk
      · exact h5 k hv
      · exact h6 k hk
    · simp only [hv, if_false]
      obtain ⟨l, st1, h1, h2, h3, h4, h5, _, h7, _⟩ :=
        calculateLevel_levels m0 hacyc fuel t st hs (hk t (List.mem_cons_self _ _)) hfuel
          (fun s hsr => by rw [hrs s] at hsr; cases hsr) hinv
      rw [h1]
      obtain ⟨st', g1, g2, g3, g4, g5, g6⟩ := ih st1 h2 hk'
        (le_trans (unvisited_mono (h2.trans hs.symm) h4) hfuel)
        (fun s => by rw [h3 s]; exact hrs s) h7
      refine ⟨st', g1, g2, g3, g4, fun k hk => g5 k (h4 k hk), ?_⟩
      intro k hk
      rcases List.mem_cons.1 hk with rfl | hk
      · exact g5 k h5.1
      · exact g6 k hk

theorem keys_filterMap_get? : ∀ m : DepMap, m.keys.Nodup →
    m.keys.filterMap m.get? = m.map Prod.snd
  | [], _ => rfl
  | (k, d) :: rest, h => by
    have hnd : k ∉ GoMap.keys rest ∧ (GoMap.keys rest).Nodup := by
      simpa [GoMap.keys] using h
    have ih := keys_filterMap_get? rest hnd.2
    have hcongr : (GoMap.keys rest).filterMap (GoMap.get? ((k, d) :: rest))
        = (GoMap.keys rest).filterMap (GoMap.get? rest) := by
      apply List.filterMap_congr
      intro x hx
      have : k ≠ x := fun h => hnd.1 (h ▸ hx)
      simp [GoMap.get?, this]
    show List.filterMap (GoMap.get? ((k, d) :: rest)) (k :: GoMap.keys rest) = d :: rest.map Prod.snd
    have hk : GoMap.get? ((k, d) :: rest) k = some d := by simp [GoMap.get?]
    rw [List.filterMap_cons, hk, hcongr, ih]

theorem unvisited_le_length (st : SortState) : unvisited st ≤ st.depMap.length := by
  unfold unvisited
  have := List.countP_le_length (fun k => !st.visited k) (l := st.depMap.keys)
  simpa [GoMap.keys] using this

/-- The sort returns, whatever the graph: its result is the sorted list of the final
entries, and the final map has the keys, names and dependencies of the input. -/
theorem topologicalSort_total (depMap : DepMap) (order1 order2 : List String)
    (h1 : ∀ k ∈ order1, k ∈ depMap.keys) :
    ∃ final : DepMap, skeleton final = skeleton depMap ∧
      topologicalSort depMap order1 order2
        = some (sortByLevel (order2.filterMap final.get?)) := by
  obtain ⟨st', h, hs⟩ := calculateAll_total depMap.length order1
    { depMap := depMap, visited := fun _ => false, recStack := fun _ => false }
    (fun k hk => (GoMap.mem_keys_iff _ _).1 (h1 k hk)) (unvisited_le_length _)
  exact ⟨st'.depMap, hs, by simp [topologicalSort, h]⟩

theorem entries_perm (final : DepMap) (order2 : List String) (hnd : final.keys.Nodup)
    (h2 : order2.Perm final.keys) :
    (sortByLevel (order2.filterMap final.get?)).Perm (final.map Prod.snd) := by
  have := (h2.filterMap final.get?)
  rw [keys_filterMap_get? final hnd] at this
  exact (sortByLevel_perm _).trans this

theorem names_of_skeleton {m m' : DepMap} (h : skeleton m' = skeleton m) :
    m'.map (fun e => e.2.TableName) = m.map (fun e => e.2.TableName) := by
  have := congrArg (List.map (fun e : String × String × List String => e.2.1)) h
  simpa [skeleton, List.map_map, Function.comp_def] using this

/-- On an acyclic map the sort returns and every key gets the level of the recurrence. -/
theorem topologicalSort_levels (m0 : DepMap) (hacyc : m0.Acyclic) (order1 order2 : List String)
    (h1 : order1.Perm m0.keys) :
    ∃ final : DepMap, skeleton final = skeleton m0 ∧
      topologicalSort m0 order1 order2 = some (sortByLevel (order2.filterMap final.get?)) ∧
      ∀ k ∈ m0.keys, final.levelOf k = maxLevel final.levelOf (m0.deps k) 0 := by
  obtain ⟨st', h, hs, hrs, hinv, _, hvis⟩ := calculateAll_levels m0 hacyc m0.length order1
    { depMap := m0, visited := fun _ => false, recStack := fun _ => false } rfl
    (fun k hk => (GoMap.mem_keys_iff _ _).1 (h1.subset hk)) (unvisited_le_length _)
    (fun _ => rfl)
    (fun k hk => by have := hk.1; cases this)
  refine ⟨st'.depMap, hs, by simp [topologicalSort, h], ?_⟩
  intro k hk
  exact (hinv k ⟨hvis k (h1.symm.subset hk), hrs k⟩).2

/-- The level recurrence has one solution only. -/
theorem level_unique (m0 : DepMap) (L L' : String → Nat)
    (hL : ∀ k ∈ m0.keys, L k = maxLevel L (m0.deps k) 0)
    (hL' : ∀ k ∈ m0.keys, L' k = maxLevel L' (m0.deps k) 0) :
    ∀ k ∈ m0.keys, L' k = L k := by
  have hlt : ∀ (lv : String → Nat) (ds : List String) (m : Nat), ∀ d ∈ ds,
      lv d < maxLevel lv ds m := by
    intro lv ds
    induction ds with
    | nil => intro _ d hd; exact absurd hd (List.not_mem_nil d)
    | cons x rest ih =>
      intro m d hd
      have hmono : ∀ (r : List String) (a : Nat), a ≤ maxLevel lv r a := by
        intro r
        induction r with
        | nil => intro a; exact le_refl _
        | cons y r ihr =>
          intro a
          exact le_trans (le_max_left _ _) (ihr (max a (lv y + 1)))
      rcases List.mem_cons.1 hd with rfl | hd
      · have := hmono rest (max m (lv d + 1))
        simp only [maxLevel, List.foldl_cons] at this ⊢
        have h2 : lv d + 1 ≤ max m (lv d + 1) := le_max_right _ _
        omega
      · exact ih _ d hd
  have hdepkey : ∀ k, ∀ d ∈ m0.deps k, d ∈ m0.keys := by
    intro k d hd
    unfold DepMap.deps at hd
    cases hk : m0.get? k with
    | none => rw [hk] at hd; exact absurd hd (List.not_mem_nil d)
    | some e =>
      rw [hk] at hd
      exact (GoMap.mem_keys_iff _ _).2 (List.mem_filter.1 hd).2
  have main : ∀ n, ∀ k ∈ m0.keys, L k = n → L' k = L k := by
    intro n
    induction n using Nat.strong_induction_on with
    | _ n ih =>
      intro k hk hn
      rw [hL' k hk, hL k hk]
      apply maxLevel_congr
      intro d hd
      have hdn : L d < n := by
        rw [← hn, hL k hk]
        exact hlt L _ 0 d hd
      exact ih (L d) hdn d (hdepkey k d hd) rfl
  intro k hk
  exact main (L k) k hk rfl

theorem GoMap.insert_of_not_mem {V : Type} (m : GoMap String V) (k : String) (v : V)
    (h : k ∉ m.keys) : m.insert k v = m ++ [(k, v)] := by
  induction m with
  | nil => rfl
  | cons e rest ih =>
    obtain ⟨k0, d0⟩ := e
    have h' : k0 ≠ k ∧ k ∉ GoMap.keys rest := by
      simp only [GoMap.keys, List.map_cons, List.mem_cons, not_or] at h
      exact ⟨fun e => h.1 e.symm, h.2⟩
    simp [GoMap.insert, h'.1, ih h'.2]

theorem initDepMap_fold (ts : List String) : ∀ m : DepMap, ts.Nodup →
    (∀ t ∈ ts, t ∉ m.keys) →
    ts.foldl (fun m table => m.insert table
      { TableName := table, DependsOn := [], Level := 0, HasCircular := false }) m
      = m ++ ts.map (fun t => (t, newEntry t)) := by
  induction ts with
  | nil => intro m _ _; simp
  | cons t rest ih =>
    intro m hnd hm
    have hnd' := List.nodup_cons.1 hnd
    rw [List.foldl_cons, GoMap.insert_of_not_mem m t _ (hm t (List.mem_cons_self _ _))]
    rw [ih _ hnd'.2]
    · simp [newEntry]
    · intro x hx
      have := hm x (List.mem_cons_of_mem _ hx)
      simp only [GoMap.keys, List.map_append, List.map_cons, List.map_nil, List.mem_append,
        List.mem_singleton, not_or] at this ⊢
      exact ⟨this, fun e => hnd'.1 (e ▸ hx)⟩

theorem initDepMap_eq (tables : List String) (hnd : tables.Nodup) :
    initDepMap tables = tables.map (fun t => (t, newEntry t)) := by
  have := initDepMap_fold tables [] hnd (fun _ _ h => by simp [GoMap.keys] at h)
  simpa [initDepMap] using this

theorem get?_map_newEntry (tables : List String) (t : String) (ht : t ∈ tables) :
    GoMap.get? (tables.map (fun t => (t, newEntry t))) t = some (newEntry t) := by
  induction tables with
  | nil => exact absurd ht (List.not_mem_nil t)
  | cons x rest ih =>
    by_cases hx : x = t
    · simp [GoMap.get?, hx]
    · have : t ∈ rest := by
        rcases List.mem_cons.1 ht with h | h
        · exact absurd h.symm hx
        · exact h
      simp [GoMap.get?, hx, ih this]

theorem GoMap.keys_modify (m : DepMap) (key : String) (f : TableDependency → TableDependency) :
    (m.modify key f).keys = m.keys := by
  induction m with
  | nil => rfl
  | cons e rest ih =>
    obtain ⟨k0, d0⟩ := e
    have ih' : List.map Prod.fst (GoMap.modify rest key f) = List.map Prod.fst rest := ih
    by_cases h0 : k0 = key
    · simp [GoMap.keys, GoMap.modify, h0, ih']
    · simp [GoMap.keys, GoMap.modify, h0, ih']

theorem withRefs_nil (table k : String) : withRefs table [] k = id := by
  funext d
  simp [withRefs]

theorem withRefs_self (table k : String) (refs : List String) :
    withRefs table (table :: refs) k = withRefs table refs k := by
  funext d
  simp [withRefs, List.filter_cons]

theorem withRefs_cons (table k r : String) (refs : List String) (hr : r ≠ table) (d : TableDependency) :
    withRefs table refs k
        (if k = table then { d with DependsOn := d.DependsOn ++ [r] } else d)
      = withRefs table (r :: refs) k d := by
  by_cases hk : k = table
  · simp [withRefs, hk, List.filter_cons, hr]
  · simp [withRefs, hk]

theorem addForeignKeys_spec (table : String) (fks : List ForeignKey) :
    ∀ m : DepMap, (addForeignKeys table fks m).keys = m.keys ∧
      ∀ k, (addForeignKeys table fks m).get? k
        = (m.get? k).map (withRefs table (fks.map (fun fk => fk.ReferencedTableName)) k) := by
  induction fks with
  | nil =>
    intro m
    refine ⟨rfl, fun k => ?_⟩
    simp only [addForeignKeys, List.foldl_nil, List.map_nil, withRefs_nil]
    cases m.get? k <;> simp
  | cons fk rest ih =>
    intro m
    by_cases hself : fk.ReferencedTableName = table
    · have h := ih m
      have e : addForeignKeys table (fk :: rest) m = addForeignKeys table rest m := by
        simp [addForeignKeys, hself]
      rw [e]
      refine ⟨h.1, fun k => ?_⟩
      rw [h.2 k, List.map_cons, hself, withRefs_self]
    · cases hget : m.get? table with
      | none =>
        have h := ih m
        have e : addForeignKeys table (fk :: rest) m = addForeignKeys table rest m := by
          simp [addForeignKeys, hself, hget]
        rw [e]
        refine ⟨h.1, fun k => ?_⟩
        rw [h.2 k]
        by_cases hk : k = table
        · subst hk; rw [hget]; rfl
        · congr 1
          funext d
          simp [withRefs, hk]
      | some d0 =>
        have h := ih (m.modify table
          (fun d => { d with DependsOn := d.DependsOn ++ [fk.ReferencedTableName] }))
        have e : addForeignKeys table (fk :: rest) m = addForeignKeys table rest (m.modify table
            (fun d => { d with DependsOn := d.DependsOn ++ [fk.ReferencedTableName] })) := by
          simp [addForeignKeys, hself, hget]
        rw [e]
        refine ⟨h.1.trans (GoMap.keys_modify _ _ _), fun k => ?_⟩
        rw [h.2 k, GoMap.get?_modify, Option.map_map, List.map_cons]
        congr 1
        funext d
        exact withRefs_cons table k fk.ReferencedTableName _ hself d

theorem addAllForeignKeys_spec (getForeignKeys : String → Except String (List ForeignKey))
    (ts : List String) : ∀ m : DepMap, ts.Nodup →
    (addAllForeignKeys getForeignKeys ts m).keys = m.keys ∧
      ∀ k, (addAllForeignKeys getForeignKeys ts m).get? k
        = (m.get? k).map (fun d =>
            if k ∈ ts then withRefs k (referencedTables getForeignKeys k) k d else d) := by
  induction ts with
  | nil =>
    intro m _
    refine ⟨rfl, fun k => ?_⟩
    simp only [addAllForeignKeys, List.foldl_nil, List.not_mem_nil, if_false]
    cases m.get? k <;> simp
  | cons t rest ih =>
    intro m hnd
    have hnd' := List.nodup_cons.1 hnd
    have hstep : ∃ m1 : DepMap, addAllForeignKeys getForeignKeys (t :: rest) m
        = addAllForeignKeys getForeignKeys rest m1 ∧ m1.keys = m.keys ∧
        ∀ k, m1.get? k = (m.get? k).map (withRefs t (referencedTables getForeignKeys t) k) := by
      cases hg : getForeignKeys t with
      | error e =>
        refine ⟨m, by simp [addAllForeignKeys, hg], rfl, fun k => ?_⟩
        have : referencedTables getForeignKeys t = [] := by simp [referencedTables, hg]
        rw [this, withRefs_nil]
        cases m.get? k <;> simp
      | ok fks =>
        refine ⟨addForeignKeys t fks m, by simp [addAllForeignKeys, hg],
          (addForeignKeys_spec t fks m).1, fun k => ?_⟩
        rw [(addForeignKeys_spec t fks m).2 k]
        simp [referencedTables, hg]
    obtain ⟨m1, e, hk1, hg1⟩ := hstep
    rw [e]
    have h := ih m1 hnd'.2
    refine ⟨h.1.trans hk1, fun k => ?_⟩
    rw [h.2 k, hg1 k, Option.map_map]
    congr 1
    funext d
    by_cases hk : k = t
    · subst hk
      simp [hnd'.1]
    · simp [withRefs, hk]

/-- The dependency map that `GetAllTablesWithDependencies` hands to the sort. -/
theorem catalog_depMap (tables : List String)
    (getForeignKeys : String → Except String (List ForeignKey)) (hnd : tables.Nodup) :
    (addAllForeignKeys getForeignKeys tables (initDepMap tables)).keys = tables ∧
    (∀ t ∈ tables, (addAllForeignKeys getForeignKeys tables (initDepMap tables)).get? t
      = some { TableName := t
               DependsOn := (referencedTables getForeignKeys t).filter (fun r => decide (r ≠ t))
               Level := 0, HasCircular := false }) := by
  have h := addAllForeignKeys_spec getForeignKeys tables (initDepMap tables) hnd
  rw [initDepMap_eq tables hnd] at h ⊢
  refine ⟨?_, fun t ht => ?_⟩
  · rw [h.1]; simp [GoMap.keys, Function.comp_def]
  · rw [h.2 t, get?_map_newEntry tables t ht]
    simp [ht, withRefs, newEntry]

theorem catalog_deps (tables : List String)
    (getForeignKeys : String → Except String (List ForeignKey)) (hnd : tables.Nodup)
    (t : String) (ht : t ∈ tables) :
    (addAllForeignKeys getForeignKeys tables (initDepMap tables)).deps t
      = catalogRefs tables getForeignKeys t := by
  obtain ⟨hk, hg⟩ := catalog_depMap tables getForeignKeys hnd
  have hsome : ∀ r, ((addAllForeignKeys getForeignKeys tables (initDepMap tables)).get? r).isSome
      = decide (r ∈ tables) := by
    intro r
    have := GoMap.mem_keys_iff (addAllForeignKeys getForeignKeys tables (initDepMap tables)) r
    rw [hk] at this
    by_cases hr : r ∈ tables
    · simp [hr, this.1 hr]
    · have h2 : ¬ ((addAllForeignKeys getForeignKeys tables (initDepMap tables)).get? r).isSome = true :=
        fun h => hr (this.2 h)
      simp [hr, h2]
  unfold DepMap.deps catalogRefs
  rw [hg t ht]
  simp only [List.filter_filter, hsome]

theorem catalog_acyclic (tables : List String)
    (getForeignKeys : String → Except String (List ForeignKey)) (hnd : tables.Nodup)
    (hacyc : CatalogAcyclic tables getForeignKeys) :
    (addAllForeignKeys getForeignKeys tables (initDepMap tables)).Acyclic := by
  intro a hcyc
  apply hacyc a
  refine Relation.TransGen.mono ?_ hcyc
  intro x y hxy
  have hx : x ∈ tables := by
    by_contra hx
    have hk := (catalog_depMap tables getForeignKeys hnd).1
    have hn : (addAllForeignKeys getForeignKeys tables (initDepMap tables)).get? x = none := by
      cases h : (addAllForeignKeys getForeignKeys tables (initDepMap tables)).get? x with
      | none => rfl
      | some d =>
        exfalso; apply hx
        rw [← hk]
        exact (GoMap.mem_keys_iff _ _).2 (by simp [h])
    have hxy' : y ∈ (addAllForeignKeys getForeignKeys tables (initDepMap tables)).deps x := hxy
    simp [DepMap.deps, hn] at hxy'
  refine ⟨hx, ?_⟩
  rw [← catalog_deps tables getForeignKeys hnd x hx]
  exact hxy

theorem catalogAcyclic_of_rank (tables : List String)
    (getForeignKeys : String → Except String (List ForeignKey)) (rank : String → Nat)
    (h : ∀ a ∈ tables, ∀ b ∈ catalogRefs tables getForeignKeys a, rank b < rank a) :
    CatalogAcyclic tables getForeignKeys := by
  have key : ∀ a b, Relation.TransGen (catalogEdge tables getForeignKeys) a b → rank b < rank a := by
    intro a b hab
    induction hab with
    | single hab => exact h _ hab.1 _ hab.2
    | tail _ hbc ih => exact lt_trans (h _ hbc.1 _ hbc.2) ih
  intro a ha
  exact lt_irrefl _ (key a a ha)

theorem planLevel_of_mem : ∀ (plan : List TableDependency),
    (plan.map (fun d => d.TableName)).Nodup → ∀ d ∈ plan, planLevel plan d.TableName = d.Level
  | [], _, d, hd => absurd hd (List.not_mem_nil d)
  | x :: rest, hnd, d, hd => by
    have hnd' := List.nodup_cons.1 (by simpa using hnd : (x.TableName :: rest.map (fun d => d.TableName)).Nodup)
    rcases List.mem_cons.1 hd with rfl | hd
    · simp [planLevel]
    · have hne : x.TableName ≠ d.TableName := by
        intro e
        apply hnd'.1
        rw [e]
        exact List.mem_map_of_mem _ hd
      simp only [planLevel, hne, if_false]
      exact planLevel_of_mem rest hnd'.2 d hd

theorem maxLevel_eq (lv : String → Nat) (ds : List String) :
    maxLevel lv ds 0 = if ds = [] then 0 else 1 + (ds.map lv).foldr max 0 := by
  have gen : ∀ (ds : List String) (m : Nat),
      maxLevel lv ds m = max m ((ds.map (fun d => lv d + 1)).foldr max 0) := by
    intro ds
    induction ds with
    | nil => intro m; simp [maxLevel]
    | cons d rest ih =>
      intro m
      simp only [maxLevel, List.foldl_cons, List.map_cons, List.foldr_cons]
      have := ih (max m (lv d + 1))
      simp only [maxLevel] at this
      rw [this]
      omega
  have shift : ∀ ds : List String, ds ≠ [] →
      (ds.map (fun d => lv d + 1)).foldr max 0 = 1 + (ds.map lv).foldr max 0 := by
    intro ds
    induction ds with
    | nil => intro h; exact absurd rfl h
    | cons d rest ih =>
      intro _
      by_cases hr : rest = []
      · subst hr; simp; omega
      · simp only [List.map_cons, List.foldr_cons, ih hr]; omega
  rw [gen]
  by_cases h : ds = []
  · simp [h]
  · simp [h, shift ds h]

theorem get?_of_mem : ∀ (m : DepMap), m.keys.Nodup → ∀ e ∈ m, m.get? e.1 = some e.2
  | [], _, e, he => absurd he (List.not_mem_nil e)
  | x :: rest, hn, e, he => by
    have hn' := List.nodup_cons.1 (by simpa [GoMap.keys] using hn :
      (x.1 :: rest.map Prod.fst).Nodup)
    rcases List.mem_cons.1 he with rfl | he
    · simp [GoMap.get?]
    · have hne : x.1 ≠ e.1 := by
        intro h; apply hn'.1; rw [h]; exact List.mem_map_of_mem _ he
      simp only [GoMap.get?, hne, if_false]
      exact get?_of_mem rest hn'.2 e he

theorem names_eq_keys (m : DepMap) (hnd : m.keys.Nodup)
    (h : ∀ t ∈ m.keys, ∃ d, m.get? t = some d ∧ d.TableName = t) :
    m.map (fun e => e.2.TableName) = m.keys := by
  apply List.map_congr_left
  intro e he
  obtain ⟨d, hd, hn⟩ := h e.1 (List.mem_map_of_mem _ he)
  rw [get?_of_mem m hnd e he] at hd
  simp only [Option.some.injEq] at hd
  rw [hd, hn]

/-- Everything the planner guarantees on an acyclic catalog. -/
theorem planner_acyclic (tables : List String)
    (getForeignKeys : String → Except String (List ForeignKey)) (order1 order2 : List String)
    (hnd : tables.Nodup) (hacyc : CatalogAcyclic tables getForeignKeys)
    (h1 : order1.Perm tables) (h2 : order2.Perm tables) :
    ∃ plan, GetAllTablesWithDependencies (.ok tables) getForeignKeys order1 order2 = .ok plan ∧
      (plan.map (fun d => d.TableName)).Perm tables ∧
      plan.Pairwise (fun a b => a.Level ≤ b.Level) ∧
      ∀ t ∈ tables, planLevel plan t
        = maxLevel (planLevel plan) (catalogRefs tables getForeignKeys t) 0 := by
  obtain ⟨hk, hg⟩ := catalog_depMap tables getForeignKeys hnd
  have hac := catalog_acyclic tables getForeignKeys hnd hacyc
  obtain ⟨final, hs, hres, hlev⟩ := topologicalSort_levels _ hac order1 order2 (by rw [hk]; exact h1)
  have hkf : final.keys = tables := (keys_of_skeleton hs).trans hk
  have hperm := entries_perm final order2 (by rw [hkf]; exact hnd) (by rw [hkf]; exact h2)
  have hnames : final.map (fun e => e.2.TableName) = tables := by
    rw [names_of_skeleton hs]
    refine (names_eq_keys _ (by rw [hk]; exact hnd) ?_).trans hk
    intro t ht
    rw [hk] at ht
    exact ⟨_, hg t ht, rfl⟩
  have hpn : ((sortByLevel (order2.filterMap final.get?)).map (fun d => d.TableName)).Perm tables := by
    have := hperm.map (fun d => d.TableName)
    rw [List.map_map] at this
    rw [← hnames]
    exact this
  have hplev : ∀ t ∈ tables,
      planLevel (sortByLevel (order2.filterMap final.get?)) t = final.levelOf t := by
    intro t ht
    have hsome : (final.get? t).isSome := (GoMap.mem_keys_iff _ _).1 (by rw [hkf]; exact ht)
    obtain ⟨d, hd⟩ := Option.isSome_iff_exists.1 hsome
    have hname : d.TableName = t := by
      have := get?_of_skeleton hs t
      rw [hd, hg t ht] at this
      simp only [Option.map_some', Option.some.injEq, Prod.mk.injEq] at this
      exact this.1
    have hmem : d ∈ sortByLevel (order2.filterMap final.get?) := by
      apply (sortByLevel_perm _).symm.subset
      exact List.mem_filterMap.2 ⟨t, h2.symm.subset ht, hd⟩
    have := planLevel_of_mem _ (hpn.nodup_iff.2 hnd) d hmem
    rw [hname] at this
    rw [this]
    simp [DepMap.levelOf, hd]
  refine ⟨sortByLevel (order2.filterMap final.get?), by simp [GetAllTablesWithDependencies, hres],
    hpn, sortByLevel_sorted _, ?_⟩
  intro t ht
  rw [hplev t ht, hlev t (by rw [hk]; exact ht), catalog_deps tables getForeignKeys hnd t ht]
  apply maxLevel_congr
  intro d hd
  have hdt : d ∈ tables := by
    have := (List.mem_filter.1 hd).2
    simp only [Bool.and_eq_true, decide_eq_true_eq] at this
    exact this.1
  exact (hplev d hdt).symm

theorem le_maxLevel (lv : String → Nat) : ∀ (r : List String) (a : Nat), a ≤ maxLevel lv r a
  | [], a => le_refl a
  | y :: r, a => le_trans (le_max_left _ _) (le_maxLevel lv r (max a (lv y + 1)))

theorem lt_maxLevel (lv : String → Nat) : ∀ (ds : List String) (m : Nat), ∀ d ∈ ds,
    lv d < maxLevel lv ds m
  | [], _, d, hd => absurd hd (List.not_mem_nil d)
  | x :: rest, m, d, hd => by
    rcases List.mem_cons.1 hd with rfl | hd
    · have := le_maxLevel lv rest (max m (lv d + 1))
      simp only [maxLevel, List.foldl_cons] at this ⊢
      have h2 : lv d + 1 ≤ max m (lv d + 1) := le_max_right _ _
      omega
    · exact lt_maxLevel lv rest _ d hd

theorem planLevel_eq_of_name : ∀ (plan : List TableDependency) (t : String),
    t ∈ plan.map (fun d => d.TableName) → ∃ d ∈ plan, d.TableName = t ∧ planLevel plan t = d.Level
  | [], t, h => absurd h (List.not_mem_nil t)
  | x :: rest, t, h => by
    by_cases hx : x.TableName = t
    · exact ⟨x, List.mem_cons_self _ _, hx, by simp [planLevel, hx]⟩
    · have ht : t ∈ rest.map (fun d => d.TableName) := by
        rcases List.mem_cons.1 (by simpa using h : t ∈ x.TableName :: rest.map (fun d => d.TableName)) with h | h
        · exact absurd h.symm hx
        · exact h
      obtain ⟨d, hd, hn, hl⟩ := planLevel_eq_of_name rest t ht
      exact ⟨d, List.mem_cons_of_mem _ hd, hn, by simp [planLevel, hx, hl]⟩

theorem indexOf_lt_of_level_lt : ∀ (plan : List TableDependency),
    plan.Pairwise (fun a b => a.Level ≤ b.Level) → ∀ a b : String,
    a ∈ plan.map (fun d => d.TableName) → b ∈ plan.map (fun d => d.TableName) →
    planLevel plan b < planLevel plan a →
    (plan.map (fun d => d.TableName)).indexOf b < (plan.map (fun d => d.TableName)).indexOf a
  | [], _, a, _, ha, _, _ => absurd ha (List.not_mem_nil a)
  | x :: rest, hs, a, b, ha, hb, hlt => by
    have hs' := List.pairwise_cons.1 hs
    rw [List.map_cons] at ha hb ⊢
    by_cases hxb : x.TableName = b
    · have hba : b ≠ a := by
        intro h
        rw [h] at hlt
        exact lt_irrefl _ hlt
      rw [hxb, List.indexOf_cons_self, List.indexOf_cons_ne _ hba]
      exact Nat.succ_pos _
    · have hb' : b ∈ rest.map (fun d => d.TableName) := by
        rcases List.mem_cons.1 hb with h | h
        · exact absurd h.symm hxb
        · exact h
      by_cases hxa : x.TableName = a
      · exfalso
        obtain ⟨d, hd, _, hl⟩ := planLevel_eq_of_name rest b hb'
        have h1 := hs'.1 d hd
        have e1 : planLevel (x :: rest) b = d.Level := by simp [planLevel, hxb, hl]
        have e2 : planLevel (x :: rest) a = x.Level := by simp [planLevel, hxa]
        omega
      · have ha' : a ∈ rest.map (fun d => d.TableName) := by
          rcases List.mem_cons.1 ha with h | h
          · exact absurd h.symm hxa
          · exact h
        rw [List.indexOf_cons_ne _ hxb, List.indexOf_cons_ne _ hxa]
        apply Nat.succ_lt_succ
        apply indexOf_lt_of_level_lt rest hs'.2 a b ha' hb'
        simpa [planLevel, hxa, hxb] using hlt

/-- C1. On a catalog with distinct table names whose foreign-key graph (self-references
and references to tables outside the catalog set aside) has no cycle, the planner returns
a plan, and in it every in-catalog table that another table references stands strictly
before that table, for every order in which the two loops range over the dependency map. -/
theorem planner_referenced_before_referencing (tables : List String)
    (getForeignKeys : String → Except String (List ForeignKey)) (order1 order2 : List String)
    (hnd : tables.Nodup) (hacyc : CatalogAcyclic tables getForeignKeys)
    (h1 : order1.Perm tables) (h2 : order2.Perm tables) :
    ∃ plan, GetAllTablesWithDependencies (.ok tables) getForeignKeys order1 order2 = .ok plan ∧
      ∀ a ∈ tables, ∀ b ∈ tables, a ≠ b → b ∈ referencedTables getForeignKeys a →
        (plan.map (fun d => d.TableName)).indexOf b
          < (plan.map (fun d => d.TableName)).indexOf a := by
  obtain ⟨plan, hp, hperm, hsorted, hlev⟩ :=
    planner_acyclic tables getForeignKeys order1 order2 hnd hacyc h1 h2
  refine ⟨plan, hp, ?_⟩
  intro a ha b hb hab href
  apply indexOf_lt_of_level_lt plan hsorted a b (hperm.symm.subset ha) (hperm.symm.subset hb)
  rw [hlev a ha]
  apply lt_maxLevel
  exact List.mem_filter.2 ⟨href, by simpa [hb] using fun h : b = a => hab h.symm⟩

/-- C2. On a catalog with distinct table names whose foreign-key graph is acyclic once
self-references are removed, the planner returns a plan in which every table has level 0
when it references no in-catalog table other than itself and otherwise 1 + the maximum
level of the in-catalog tables other than itself that it references; and the levels are
the same for every other order of ranging over the dependency map. -/
theorem planner_level_recurrence (tables : List String)
    (getForeignKeys : String → Except String (List ForeignKey)) (order1 order2 : List String)
    (hnd : tables.Nodup) (hacyc : CatalogAcyclic tables getForeignKeys)
    (h1 : order1.Perm tables) (h2 : order2.Perm tables) :
    ∃ plan, GetAllTablesWithDependencies (.ok tables) getForeignKeys order1 order2 = .ok plan ∧
      (∀ t ∈ tables, planLevel plan t
        = if catalogRefs tables getForeignKeys t = [] then 0
          else 1 + ((catalogRefs tables getForeignKeys t).map (planLevel plan)).foldr max 0) ∧
      ∀ order1' order2' : List String, order1'.Perm tables → order2'.Perm tables →
        ∃ plan', GetAllTablesWithDependencies (.ok tables) getForeignKeys order1' order2'
            = .ok plan' ∧
          ∀ t ∈ tables, planLevel plan' t = planLevel plan t := by
  obtain ⟨plan, hp, _, _, hlev⟩ :=
    planner_acyclic tables getForeignKeys order1 order2 hnd hacyc h1 h2
  obtain ⟨hk, _⟩ := catalog_depMap tables getForeignKeys hnd
  refine ⟨plan, hp, ?_, ?_⟩
  · intro t ht
    rw [hlev t ht, maxLevel_eq]
  · intro o1 o2 g1 g2
    obtain ⟨plan', hp', _, _, hlev'⟩ :=
      planner_acyclic tables getForeignKeys o1 o2 hnd hacyc g1 g2
    refine ⟨plan', hp', ?_⟩
    have := level_unique (addAllForeignKeys getForeignKeys tables (initDepMap tables))
      (planLevel plan) (planLevel plan')
      (by
        intro k hk'
        rw [hk] at hk'
        rw [catalog_deps tables getForeignKeys hnd k hk']
        exact hlev k hk')
      (by
        intro k hk'
        rw [hk] at hk'
        rw [catalog_deps tables getForeignKeys hnd k hk']
        exact hlev' k hk')
    intro t ht
    exact this t (by rw [hk]; exact ht)

/-- C3. For every dependency map (distinct keys), cyclic or not, and every order of ranging
over it, `topologicalSort` returns a list that holds the entries of the map exactly once
each (their names and dependency lists form a permutation of those of the map) and whose
levels are non-decreasing from the first element to the last. -/
theorem topologicalSort_complete_and_sorted (depMap : DepMap) (order1 order2 : List String)
    (hkeys : depMap.keys.Nodup) (h1 : order1.Perm depMap.keys) (h2 : order2.Perm depMap.keys) :
    ∃ result, topologicalSort depMap order1 order2 = some result ∧
      (result.map (fun d => (d.TableName, d.DependsOn))).Perm
        (depMap.map (fun e => (e.2.TableName, e.2.DependsOn))) ∧
      (result.map (fun d => d.Level)).Sorted (· ≤ ·) := by
  obtain ⟨final, hs, hres⟩ := topologicalSort_total depMap order1 order2 (fun k hk => h1.subset hk)
  have hkf : final.keys = depMap.keys := keys_of_skeleton hs
  have hperm := entries_perm final order2 (by rw [hkf]; exact hkeys) (by rw [hkf]; exact h2)
  refine ⟨_, hres, ?_, ?_⟩
  · have := hperm.map (fun d => (d.TableName, d.DependsOn))
    rw [List.map_map] at this
    have e : final.map ((fun d : TableDependency => (d.TableName, d.DependsOn)) ∘ Prod.snd)
        = depMap.map (fun e => (e.2.TableName, e.2.DependsOn)) := by
      have := congrArg (List.map (fun e : String × String × List String => e.2)) hs
      simpa [skeleton, List.map_map, Function.comp_def] using this
    rw [e] at this
    exact this
  · exact List.pairwise_map.2 (sortByLevel_sorted _)

theorem scenarioD_acyclic : CatalogAcyclic ["a", "b", "c"] scenarioD :=
  catalogAcyclic_of_rank _ _ (fun t => if t = "a" then 0 else if t = "b" then 1 else 2)
    (by decide)

theorem planner_referenced_before_referencing_witness :
    ∃ plan, GetAllTablesWithDependencies (.ok ["a", "b", "c"]) scenarioD
        ["c", "a", "b"] ["b", "c", "a"] = .ok plan ∧
      ∀ a ∈ ["a", "b", "c"], ∀ b ∈ ["a", "b", "c"], a ≠ b → b ∈ referencedTables scenarioD a →
        (plan.map (fun d => d.TableName)).indexOf b
          < (plan.map (fun d => d.TableName)).indexOf a :=
  planner_referenced_before_referencing ["a", "b", "c"] scenarioD ["c", "a", "b"] ["b", "c", "a"]
    (by decide) scenarioD_acyclic (by decide) (by decide)

theorem topologicalSort_complete_and_sorted_witness :
    ∃ result, topologicalSort cycleMap ["b", "a"] ["a", "b"] = some result ∧
      (result.map (fun d => (d.TableName, d.DependsOn))).Perm
        (cycleMap.map (fun e => (e.2.TableName, e.2.DependsOn))) ∧
      (result.map (fun d => d.Level)).Sorted (· ≤ ·) :=
  topologicalSort_complete_and_sorted cycleMap ["b", "a"] ["a", "b"]
    (by decide) (by decide) (by decide)

theorem GoMap.get?_insert {K V : Type} [DecidableEq K] (m : GoMap K V) (k k' : K) (v : V) :
    (m.insert k v).get? k' = if k = k' then some v else m.get? k' := by
  induction m with
  | nil => simp [GoMap.insert, GoMap.get?]
  | cons e rest ih =>
    obtain ⟨k0, d0⟩ := e
    by_cases h0 : k0 = k
    · subst h0
      by_cases h1 : k0 = k'
      · simp [GoMap.insert, GoMap.get?, h1]
      · simp [GoMap.insert, GoMap.get?, h1]
    · by_cases h1 : k0 = k'
      · subst h1
        have : ¬ k = k0 := fun h => h0 h.symm
        simp [GoMap.insert, GoMap.get?, h0, this]
      · simp [GoMap.insert, GoMap.get?, h0, h1, ih]

theorem colMap_fold (cols : List ColumnInfo) : ∀ (m : GoMap String ColumnInfo) (name : String),
    (cols.foldl (fun m col => m.insert col.ColumnName col) m).get? name
      = match targetColumn cols name with
        | some x => some x
        | none => m.get? name := by
  induction cols with
  | nil => intro m name; rfl
  | cons b rest ih =>
    intro m name
    rw [List.foldl_cons, ih]
    cases h : targetColumn rest name with
    | some x => simp [targetColumn, h]
    | none =>
      simp only [targetColumn, h, GoMap.get?_insert]
      split <;> rfl

theorem buildColMap_get? (cols : List ColumnInfo) (name : String) :
    (buildColMap cols).get? name = targetColumn cols name := by
  unfold buildColMap
  rw [colMap_fold]
  cases targetColumn cols name <;> rfl

theorem columnsDifferent_iff (c b : ColumnInfo) :
    columnsDifferent c b = true
      ↔ (c.ColumnType ≠ b.ColumnType ∨ c.IsNullable ≠ b.IsNullable ∨ c.Extra ≠ b.Extra) := by
  simp [columnsDifferent, or_assoc]

theorem foldl_append_filterMap {α β : Type} (g : α → Option β) (f : List β → α → List β)
    (hf : ∀ acc x, f acc x = match g x with | none => acc | some y => acc ++ [y]) :
    ∀ (l : List α) (init : List β), l.foldl f init = init ++ l.filterMap g := by
  intro l
  induction l with
  | nil => intro init; simp
  | cons x rest ih =>
    intro init
    rw [List.foldl_cons, ih, hf]
    cases h : g x with
    | none => simp [List.filterMap_cons, h]
    | some y => simp [List.filterMap_cons, h]

theorem CompareSchemas_eq (tableName : String) (source target : List ColumnInfo) :
    CompareSchemas tableName (.ok source) (.ok target)
      = .ok (source.filterMap (schemaStatement tableName target)) := by
  unfold CompareSchemas
  simp only
  congr 1
  rw [foldl_append_filterMap (schemaStatement tableName target)]
  · simp
  · intro acc c
    simp only [buildColMap_get?, schemaStatement]
    cases h : targetColumn target c.ColumnName with
    | none => rfl
    | some b =>
      by_cases hd : columnsDifferent c b = true
      · have := (columnsDifferent_iff c b).1 hd
        simp [hd, this]
      · have := fun h => hd ((columnsDifferent_iff c b).2 h)
        simp only [if_neg hd, if_neg this]

theorem targetColumn_none_iff (target : List ColumnInfo) (name : String) :
    targetColumn target name = none ↔ ∀ b ∈ target, b.ColumnName ≠ name := by
  induction target with
  | nil => simp [targetColumn]
  | cons b rest ih =>
    cases h : targetColumn rest name with
    | some x =>
      have : ¬ ∀ b ∈ rest, b.ColumnName ≠ name := fun hh => by
        have := ih.2 hh
        rw [h] at this
        cases this
      simp only [targetColumn, h, List.mem_cons, forall_eq_or_imp]
      constructor
      · intro hh; cases hh
      · intro hh; exact absurd hh.2 this
    | none =>
      have hr := ih.1 h
      by_cases hb : b.ColumnName = name
      · simp [targetColumn, h, hb]
      · simp only [targetColumn, h, hb, if_false, List.mem_cons, forall_eq_or_imp, true_iff]
        exact ⟨hb, hr⟩

theorem targetColumn_some (target : List ColumnInfo) (name : String) (b : ColumnInfo)
    (h : targetColumn target name = some b) : b ∈ target ∧ b.ColumnName = name := by
  induction target with
  | nil => simp [targetColumn] at h
  | cons x rest ih =>
    cases hr : targetColumn rest name with
    | some y =>
      simp only [targetColumn, hr, Option.some.injEq] at h
      subst h
      exact ⟨List.mem_cons_of_mem _ (ih hr).1, (ih hr).2⟩
    | none =>
      simp only [targetColumn, hr] at h
      by_cases hx : x.ColumnName = name
      · simp only [hx, if_true, Option.some.injEq] at h
        subst h
        exact ⟨List.mem_cons_self _ _, hx⟩
      · simp [hx] at h

theorem targetColumn_of_nodup (target : List ColumnInfo)
    (hnd : (target.map (fun b => b.ColumnName)).Nodup) (b : ColumnInfo) (hb : b ∈ target) :
    targetColumn target b.ColumnName = some b := by
  induction target with
  | nil => exact absurd hb (List.not_mem_nil b)
  | cons x rest ih =>
    have hnd' := List.nodup_cons.1 (by simpa using hnd :
      (x.ColumnName :: rest.map (fun b => b.ColumnName)).Nodup)
    rcases List.mem_cons.1 hb with rfl | hb
    · have : targetColumn rest b.ColumnName = none := by
        rw [targetColumn_none_iff]
        intro y hy hyn
        apply hnd'.1
        rw [← hyn]
        exact List.mem_map_of_mem _ hy
      simp [targetColumn, this]
    · simp [targetColumn, ih hnd'.2 hb]

theorem targetColumn_append_single (target : List ColumnInfo) (x : ColumnInfo) (name : String) :
    targetColumn (target ++ [x]) name
      = if x.ColumnName = name then some x else targetColumn target name := by
  induction target with
  | nil => simp [targetColumn]
  | cons b rest ih =>
    rw [List.cons_append, targetColumn, ih]
    by_cases hx : x.ColumnName = name
    · simp [hx]
    · simp [hx, targetColumn]

theorem targetColumn_map (target : List ColumnInfo) (f : ColumnInfo → ColumnInfo)
    (hf : ∀ b, (f b).ColumnName = b.ColumnName) (name : String) :
    targetColumn (target.map f) name = (targetColumn target name).map f := by
  induction target with
  | nil => rfl
  | cons b rest ih =>
    simp only [List.map_cons, targetColumn, ih, hf]
    cases targetColumn rest name with
    | some x => rfl
    | none =>
      by_cases hb : b.ColumnName = name
      · simp [hb]
      · simp [hb]

theorem applyAlter_other (target : List ColumnInfo) (a : Alter) (name : String)
    (h : a.col.ColumnName ≠ name) :
    targetColumn (applyAlter target a) name = targetColumn target name := by
  unfold applyAlter
  cases hk : a.kind with
  | add =>
    simp only
    rw [targetColumn_append_single]
    simp [h]
  | modify =>
    simp only
    rw [targetColumn_map _ _ (by intro b; split <;> rfl)]
    cases ht : targetColumn target name with
    | none => rfl
    | some b =>
      have hb := (targetColumn_some target name b ht).2
      have : ¬ b.ColumnName = a.col.ColumnName := fun e => h (e.symm.trans hb)
      simp [this]

theorem applyAlter_foldl_other (alters : List Alter) (name : String)
    (h : ∀ a ∈ alters, a.col.ColumnName ≠ name) : ∀ target : List ColumnInfo,
    targetColumn (alters.foldl applyAlter target) name = targetColumn target name := by
  induction alters with
  | nil => intro target; rfl
  | cons a rest ih =>
    intro target
    rw [List.foldl_cons, ih (fun x hx => h x (List.mem_cons_of_mem _ hx)),
      applyAlter_other target a name (h a (List.mem_cons_self _ _))]

theorem schemaAlter_col (target : List ColumnInfo) (c : ColumnInfo) (a : Alter)
    (h : schemaAlter target c = some a) : a.col = c := by
  unfold schemaAlter at h
  cases ht : targetColumn target c.ColumnName with
  | none => rw [ht] at h; simp only [Option.some.injEq] at h; rw [← h]
  | some b =>
    rw [ht] at h
    simp only at h
    split at h
    · simp only [Option.some.injEq] at h; rw [← h]
    · cases h

theorem applyAlter_reconciles (original target : List ColumnInfo) (c : ColumnInfo) (a : Alter)
    (ha : schemaAlter original c = some a)
    (hsame : targetColumn target c.ColumnName = targetColumn original c.ColumnName) :
    Reconciled (applyAlter target a) c := by
  unfold schemaAlter at ha
  cases ht : targetColumn original c.ColumnName with
  | none =>
    rw [ht] at ha
    simp only [Option.some.injEq] at ha
    subst ha
    refine ⟨{ c with ColumnKey := "" }, ?_, rfl, rfl, rfl⟩
    simp [applyAlter, targetColumn_append_single]
  | some b =>
    rw [ht] at ha hsame
    simp only at ha
    split at ha
    · simp only [Option.some.injEq] at ha
      subst ha
      have hb := (targetColumn_some target _ b hsame).2
      refine ⟨{ b with ColumnType := c.ColumnType, IsNullable := c.IsNullable,
                       ColumnDefault := c.ColumnDefault, Extra := c.Extra }, ?_, rfl, rfl, rfl⟩
      simp only [applyAlter]
      rw [targetColumn_map _ _ (by intro b; split <;> rfl), hsame]
      simp [hb]
    · cases ha

theorem reconciled_of_no_alter (original target : List ColumnInfo) (c : ColumnInfo)
    (ha : schemaAlter original c = none)
    (hsame : targetColumn target c.ColumnName = targetColumn original c.ColumnName) :
    Reconciled target c := by
  unfold schemaAlter at ha
  cases ht : targetColumn original c.ColumnName with
  | none => rw [ht] at ha; cases ha
  | some b =>
    rw [ht] at ha hsame
    simp only at ha
    split at ha
    · cases ha
    · rename_i hne
      have h1 : c.ColumnType = b.ColumnType := by
        by_contra h; exact hne (Or.inl h)
      have h2 : c.IsNullable = b.IsNullable := by
        by_contra h; exact hne (Or.inr (Or.inl h))
      have h3 : c.Extra = b.Extra := by
        by_contra h; exact hne (Or.inr (Or.inr h))
      exact ⟨b, hsame, h1.symm, h2.symm, h3.symm⟩

theorem reconciled_all (original : List ColumnInfo) (cs : List ColumnInfo) :
    (cs.map (fun c => c.ColumnName)).Nodup → ∀ target : List ColumnInfo,
    (∀ c ∈ cs, targetColumn target c.ColumnName = targetColumn original c.ColumnName) →
    ∀ c ∈ cs, Reconciled ((cs.filterMap (schemaAlter original)).foldl applyAlter target) c := by
  induction cs with
  | nil => intro _ _ _ c hc; exact absurd hc (List.not_mem_nil c)
  | cons x rest ih =>
    intro hnd target hsame c hc
    have hnd' := List.nodup_cons.1 (by simpa using hnd :
      (x.ColumnName :: rest.map (fun c => c.ColumnName)).Nodup)
    have hrest_ne : ∀ a ∈ rest.filterMap (schemaAlter original), a.col.ColumnName ≠ x.ColumnName := by
      intro a ha hn
      obtain ⟨y, hy, hya⟩ := List.mem_filterMap.1 ha
      rw [schemaAlter_col original y a hya] at hn
      apply hnd'.1
      rw [← hn]
      exact List.mem_map_of_mem _ hy
    have hx_ne : ∀ y ∈ rest, x.ColumnName ≠ y.ColumnName := by
      intro y hy hn
      apply hnd'.1
      rw [hn]
      exact List.mem_map_of_mem _ hy
    cases hx : schemaAlter original x with
    | none =>
      rw [List.filterMap_cons, hx]
      rcases List.mem_cons.1 hc with rfl | hc
      · obtain ⟨b, hb, hrest⟩ := reconciled_of_no_alter original target c hx
          (hsame c (List.mem_cons_self _ _))
        exact ⟨b, by rw [applyAlter_foldl_other _ _ hrest_ne]; exact hb, hrest⟩
      · exact ih hnd'.2 target (fun y hy => hsame y (List.mem_cons_of_mem _ hy)) c hc
    | some a =>
      rw [List.filterMap_cons, hx, List.foldl_cons]
      have hacol := schemaAlter_col original x a hx
      rcases List.mem_cons.1 hc with rfl | hc
      · obtain ⟨b, hb, hrest⟩ := applyAlter_reconciles original target c a hx
          (hsame c (List.mem_cons_self _ _))
        exact ⟨b, by rw [applyAlter_foldl_other _ _ hrest_ne]; exact hb, hrest⟩
      · apply ih hnd'.2 (applyAlter target a) _ c hc
        intro y hy
        rw [applyAlter_other target a y.ColumnName (by rw [hacol]; exact hx_ne y hy)]
        exact hsame y (List.mem_cons_of_mem _ hy)

theorem schemaStatement_eq_text (tableName : String) (target : List ColumnInfo) (c : ColumnInfo) :
    schemaStatement tableName target c = (schemaAlter target c).map (Alter.text tableName) := by
  unfold schemaStatement schemaAlter
  cases targetColumn target c.ColumnName with
  | none => rfl
  | some b =>
    simp only
    split <;> rfl

theorem CompareSchemas_of_reconciled (tableName : String) (source target : List ColumnInfo)
    (h : ∀ c ∈ source, Reconciled target c) :
    CompareSchemas tableName (.ok source) (.ok target) = .ok [] := by
  rw [CompareSchemas_eq]
  congr 1
  apply List.filterMap_eq_nil_iff.2
  intro c hc
  obtain ⟨b, hb, h1, h2, h3⟩ := h c hc
  simp [schemaStatement, hb, h1, h2, h3]

theorem generateAdd_parts (tableName : String) (col : ColumnInfo) :
    generateAddColumnStatement tableName col
      = " ".intercalate
          (("ALTER TABLE `" ++ tableName ++ "` ADD COLUMN `" ++ col.ColumnName ++ "` "
              ++ col.ColumnType) :: optionalParts col) := by
  unfold generateAddColumnStatement optionalParts
  cases col.ColumnDefault <;> by_cases h1 : col.IsNullable = "NO" <;>
    by_cases h2 : col.Extra = "" <;> simp [h1, h2]

theorem generateModify_parts (tableName : String) (col : ColumnInfo) :
    generateModifyColumnStatement tableName col
      = " ".intercalate
          (("ALTER TABLE `" ++ tableName ++ "` MODIFY COLUMN `" ++ col.ColumnName ++ "` "
              ++ col.ColumnType) :: optionalParts col) := by
  unfold generateModifyColumnStatement optionalParts
  cases col.ColumnDefault <;> by_cases h1 : col.IsNullable = "NO" <;>
    by_cases h2 : col.Extra = "" <;> simp [h1, h2]

/-- C7. For all source and target column lists, `CompareSchemas` returns, in source order,
for each source column: when no target column has its name, the statement
`ALTER TABLE` + table name + `ADD COLUMN` + column name and full column type, followed by
the optional parts (`NOT NULL`, `DEFAULT <expr>`, the extra qualifiers) of the source
column; when the target column of its name differs in full column type, nullability or
extra qualifiers, the same text with `MODIFY COLUMN` in the place of `ADD COLUMN`; and
nothing otherwise. In particular a column that differs from its target counterpart only
in default, key role or data type produces no statement, and columns that exist only on
the target produce none. -/
theorem CompareSchemas_diff (tableName : String) (source target : List ColumnInfo) :
    CompareSchemas tableName (.ok source) (.ok target)
        = .ok (source.filterMap (fun c =>
            match targetColumn target c.ColumnName with
            | none =>
              some (" ".intercalate
                (("ALTER TABLE `" ++ tableName ++ "` ADD COLUMN `" ++ c.ColumnName ++ "` "
                    ++ c.ColumnType)
                  :: ((if c.IsNullable = "NO" then ["NOT NULL"] else []) ++
                      (match c.ColumnDefault with
                        | some d => ["DEFAULT " ++ d]
                        | none => []) ++
                      (if c.Extra = "" then [] else [c.Extra]))))
            | some b =>
              if c.ColumnType ≠ b.ColumnType ∨ c.IsNullable ≠ b.IsNullable ∨ c.Extra ≠ b.Extra
              then
                some (" ".intercalate
                  (("ALTER TABLE `" ++ tableName ++ "` MODIFY COLUMN `" ++ c.ColumnName ++ "` "
                      ++ c.ColumnType)
                    :: ((if c.IsNullable = "NO" then ["NOT NULL"] else []) ++
                        (match c.ColumnDefault with
                          | some d => ["DEFAULT " ++ d]
                          | none => []) ++
                        (if c.Extra = "" then [] else [c.Extra]))))
              else none)) ∧
      (∀ name, targetColumn target name = none ↔ ∀ b ∈ target, b.ColumnName ≠ name) ∧
      (∀ name b, targetColumn target name = some b → b ∈ target ∧ b.ColumnName = name) ∧
      ((target.map (fun b => b.ColumnName)).Nodup →
        ∀ b ∈ target, targetColumn target b.ColumnName = some b) ∧
      (∀ c b : ColumnInfo, b.ColumnName = c.ColumnName → b.ColumnType = c.ColumnType →
        b.IsNullable = c.IsNullable → b.Extra = c.Extra →
        CompareSchemas tableName (.ok [c]) (.ok [b]) = .ok []) ∧
      CompareSchemas tableName (.ok []) (.ok target) = .ok [] := by
  refine ⟨?_, targetColumn_none_iff target,
    targetColumn_some target, fun hnd b hb => targetColumn_of_nodup target hnd b hb, ?_, ?_⟩
  · rw [CompareSchemas_eq]
    congr 1
    apply List.filterMap_congr
    intro c _
    unfold schemaStatement
    rw [generateAdd_parts, generateModify_parts]
    rfl
  · intro c b hn h1 h2 h3
    apply CompareSchemas_of_reconciled
    intro x hx
    rw [List.mem_singleton] at hx
    subst hx
    exact ⟨b, by simp [targetColumn, hn], h1, h2, h3⟩
  · rw [CompareSchemas_eq]; rfl

/-- C8, the claim as stated fails: for the column `phone VARCHAR(20) NOT NULL DEFAULT ''`
the ADD statement does not end in the text with the bare column name, because the
statement wraps the column name in backticks. -/
theorem addStatement_phone_not_bare :
    generateAddColumnStatement "users" phoneColumn
        = "ALTER TABLE `users` ADD COLUMN `phone` VARCHAR(20) NOT NULL DEFAULT ''" ∧
      ¬ ("ADD COLUMN phone VARCHAR(20) NOT NULL DEFAULT ''".data
          <:+ (generateAddColumnStatement "users" phoneColumn).data) := by
  decide

/-- C8, amended. The ADD (resp. MODIFY) statement is the parts below joined by single
spaces: the prefix `ALTER TABLE` + table name in backticks + `ADD COLUMN` (resp.
`MODIFY COLUMN`) + column name in backticks + the full column type, then `NOT NULL`
exactly when nullability is `NO`, then `DEFAULT <expr>` exactly when a default is present,
then the extra qualifiers exactly when they are non-empty. For the column
`phone VARCHAR(20) NOT NULL DEFAULT ''` the ADD statement ends in
ADD COLUMN, the name phone in backticks, `VARCHAR(20) NOT NULL DEFAULT ''`. -/
theorem alterStatement_format (tableName : String) (col : ColumnInfo) :
    generateAddColumnStatement tableName col
        = " ".intercalate
            (("ALTER TABLE `" ++ tableName ++ "` ADD COLUMN `" ++ col.ColumnName ++ "` "
                ++ col.ColumnType)
              :: ((if col.IsNullable = "NO" then ["NOT NULL"] else []) ++
                  (match col.ColumnDefault with
                    | some d => ["DEFAULT " ++ d]
                    | none => []) ++
                  (if col.Extra = "" then [] else [col.Extra]))) ∧
      generateModifyColumnStatement tableName col
        = " ".intercalate
            (("ALTER TABLE `" ++ tableName ++ "` MODIFY COLUMN `" ++ col.ColumnName ++ "` "
                ++ col.ColumnType)
              :: ((if col.IsNullable = "NO" then ["NOT NULL"] else []) ++
                  (match col.ColumnDefault with
                    | some d => ["DEFAULT " ++ d]
                    | none => []) ++
                  (if col.Extra = "" then [] else [col.Extra]))) ∧
      generateAddColumnStatement tableName phoneColumn
        = "ALTER TABLE `" ++ tableName ++ "` "
            ++ "ADD COLUMN `phone` VARCHAR(20) NOT NULL DEFAULT ''" := by
  refine ⟨generateAdd_parts tableName col, generateModify_parts tableName col, ?_⟩
  rw [generateAdd_parts]
  simp [optionalParts, phoneColumn, String.intercalate, String.intercalate.go, String.append_assoc]

/-- C9. When the column names of the source list are distinct: the statements that
`CompareSchemas` emits are the texts of the structured statements `schemaAlter`; once
these have been applied to the target (`applyAlter`: ADD appends the column, MODIFY gives
the target column the type, nullability, default and extra of the source column),
`CompareSchemas` emits no statement; and diffing a column list against itself emits
none. -/
theorem CompareSchemas_idempotent (tableName : String) (source target : List ColumnInfo)
    (hnd : (source.map (fun c => c.ColumnName)).Nodup) :
    CompareSchemas tableName (.ok source) (.ok target)
        = .ok ((source.filterMap (schemaAlter target)).map (Alter.text tableName)) ∧
      CompareSchemas tableName (.ok source)
          (.ok ((source.filterMap (schemaAlter target)).foldl applyAlter target)) = .ok [] ∧
      CompareSchemas tableName (.ok source) (.ok source) = .ok [] := by
  refine ⟨?_, ?_, ?_⟩
  · rw [CompareSchemas_eq]
    congr 1
    rw [List.map_filterMap]
    apply List.filterMap_congr
    intro c _
    exact schemaStatement_eq_text tableName target c
  · exact CompareSchemas_of_reconciled _ _ _
      (reconciled_all target source hnd target (fun _ _ => rfl))
  · apply CompareSchemas_of_reconciled
    intro c hc
    exact ⟨c, targetColumn_of_nodup source hnd c hc, rfl, rfl, rfl⟩

theorem backupChecksums_fold (pkColumn : String) (backupData : List Row) :
    ∀ (m : GoMap Value Value) (k : Value),
    (backupData.foldl
      (fun m row =>
        match row.get? pkColumn with
        | none => m
        | some pkValue =>
          match row.get? "row_checksum" with
          | none => m
          | some checksum => m.insert pkValue checksum) m).get? k
      = match targetChecksum pkColumn backupData k with
        | some c => some c
        | none => m.get? k := by
  induction backupData with
  | nil => intro m k; rfl
  | cons row rest ih =>
    intro m k
    rw [List.foldl_cons, ih]
    cases h : targetChecksum pkColumn rest k with
    | some c => simp [targetChecksum, h]
    | none =>
      simp only [targetChecksum, h]
      cases hp : row.get? pkColumn with
      | none => rfl
      | some k' =>
        cases hc : row.get? "row_checksum" with
        | none => rfl
        | some c =>
          simp only [GoMap.get?_insert]
          split <;> rfl

theorem buildBackupChecksums_get? (pkColumn : String) (backupData : List Row) (k : Value) :
    (buildBackupChecksums pkColumn backupData).get? k = targetChecksum pkColumn backupData k := by
  have h := backupChecksums_fold pkColumn backupData [] k
  cases ht : targetChecksum pkColumn backupData k with
  | none => rw [ht] at h; exact h
  | some c => rw [ht] at h; exact h

theorem compareChecksums_eq (pkColumn : String) (masterData backupData : List Row) :
    compareChecksums pkColumn masterData backupData
      = masterData.filterMap (fun m =>
          match m.get? pkColumn, m.get? "row_checksum" with
          | some k, some c =>
            if targetChecksum pkColumn backupData k = some c then none else some (stripChecksum m)
          | _, _ => none) := by
  unfold compareChecksums
  simp only
  rw [foldl_append_filterMap (fun m =>
          match m.get? pkColumn, m.get? "row_checksum" with
          | some k, some c =>
            if targetChecksum pkColumn backupData k = some c then none else some (stripChecksum m)
          | _, _ => none)]
  · simp
  · intro acc m
    cases hp : m.get? pkColumn with
    | none => rfl
    | some k =>
      cases hc : m.get? "row_checksum" with
      | none => rfl
      | some c =>
        simp only [buildBackupChecksums_get?]
        cases ht : targetChecksum pkColumn backupData k with
        | none => simp [stripChecksum]
        | some bc =>
          by_cases hbc : bc = c
          · simp [hbc]
          · simp [hbc, stripChecksum]

theorem targetChecksum_none_iff (pkColumn : String) (backupData : List Row)
    (hb : ∀ t ∈ backupData, (t.get? pkColumn).isSome ∧ (t.get? "row_checksum").isSome)
    (k : Value) :
    targetChecksum pkColumn backupData k = none ↔ ∀ t ∈ backupData, t.get? pkColumn ≠ some k := by
  induction backupData with
  | nil => simp [targetChecksum]
  | cons row rest ih =>
    have ih' := ih (fun t ht => hb t (List.mem_cons_of_mem _ ht))
    obtain ⟨hp, hc⟩ := hb row (List.mem_cons_self _ _)
    obtain ⟨k', hk'⟩ := Option.isSome_iff_exists.1 hp
    obtain ⟨c, hc'⟩ := Option.isSome_iff_exists.1 hc
    cases h : targetChecksum pkColumn rest k with
    | some x =>
      simp only [targetChecksum, h, List.mem_cons, forall_eq_or_imp]
      constructor
      · intro hh; cases hh
      · intro hh
        have := ih'.2 hh.2
        rw [h] at this
        cases this
    | none =>
      have hr := ih'.1 h
      simp only [targetChecksum, h, hk', hc', List.mem_cons, forall_eq_or_imp]
      by_cases hkk : k' = k
      · simp [hkk]
      · simp only [hkk, if_false, true_iff]
        exact ⟨fun e => hkk (Option.some.inj e), hr⟩

theorem targetChecksum_some_mem (pkColumn : String) (k : Value) :
    ∀ (rows : List Row) (x : Value), targetChecksum pkColumn rows k = some x →
      ∃ r ∈ rows, r.get? pkColumn = some k ∧ r.get? "row_checksum" = some x
  | [], x, h => by simp [targetChecksum] at h
  | r :: rs, x, h => by
    cases h2 : targetChecksum pkColumn rs k with
    | some y =>
      simp only [targetChecksum, h2, Option.some.injEq] at h
      subst h
      obtain ⟨r', hr', hrk⟩ := targetChecksum_some_mem pkColumn k rs y h2
      exact ⟨r', List.mem_cons_of_mem _ hr', hrk⟩
    | none =>
      simp only [targetChecksum, h2] at h
      cases hp : r.get? pkColumn with
      | none => simp [hp] at h
      | some k2 =>
        cases hcs : r.get? "row_checksum" with
        | none => simp [hp, hcs] at h
        | some c2 =>
          simp only [hp, hcs] at h
          by_cases hk2 : k2 = k
          · simp only [hk2, if_true, Option.some.injEq] at h
            exact ⟨r, List.mem_cons_self _ _, by rw [hp, hk2], by rw [hcs, h]⟩
          · simp [hk2] at h

theorem targetChecksum_of_nodup (pkColumn : String) (backupData : List Row)
    (hnd : (backupData.map (fun t => t.get? pkColumn)).Nodup)
    (t : Row) (ht : t ∈ backupData) (k c : Value) (hk : t.get? pkColumn = some k)
    (hc : t.get? "row_checksum" = some c) :
    targetChecksum pkColumn backupData k = some c := by
  induction backupData with
  | nil => exact absurd ht (List.not_mem_nil t)
  | cons row rest ih =>
    have hnd' := List.nodup_cons.1 (by simpa using hnd :
      (row.get? pkColumn :: rest.map (fun t => t.get? pkColumn)).Nodup)
    rcases List.mem_cons.1 ht with rfl | ht
    · have hnone : targetChecksum pkColumn rest k = none := by
        cases h : targetChecksum pkColumn rest k with
        | none => rfl
        | some x =>
          exfalso
          obtain ⟨r, hr, hrk, _⟩ := targetChecksum_some_mem pkColumn k rest x h
          apply hnd'.1
          rw [hk, ← hrk]
          exact List.mem_map_of_mem _ hr
      simp [targetChecksum, hnone, hk, hc]
    · simp [targetChecksum, ih hnd'.2 ht]

theorem filterMap_eq_map_filter {α β : Type} (g : α → Option β) (p : α → Bool) (f : α → β)
    (l : List α) (h : ∀ x ∈ l, g x = if p x then some (f x) else none) :
    l.filterMap g = (l.filter p).map f := by
  induction l with
  | nil => rfl
  | cons x rest ih =>
    have hx := h x (List.mem_cons_self _ _)
    have ih' := ih (fun y hy => h y (List.mem_cons_of_mem _ hy))
    by_cases hp : p x = true
    · simp [List.filterMap_cons, hx, hp, ih', List.filter_cons]
    · simp [List.filterMap_cons, hx, hp, ih', List.filter_cons]

/-- C6. When every source row and every target row carries a primary key and a
`row_checksum`, the comparison step returns the source rows, in source order and without
their `row_checksum` entry, for which the target holds no checksum under their key or a
different one; the target holds no checksum under a key exactly when no target row has
that key, and with distinct target keys it holds, under the key of a target row, the
checksum of that row. -/
theorem compareChecksums_changed_rows (pkColumn : String) (masterData backupData : List Row)
    (hm : ∀ m ∈ masterData, (m.get? pkColumn).isSome ∧ (m.get? "row_checksum").isSome)
    (hb : ∀ t ∈ backupData, (t.get? pkColumn).isSome ∧ (t.get? "row_checksum").isSome) :
    compareChecksums pkColumn masterData backupData
        = (masterData.filter (fun m =>
            match m.get? pkColumn with
            | none => false
            | some k =>
              decide (targetChecksum pkColumn backupData k ≠ m.get? "row_checksum"))).map
          (fun m => m.filter (fun e => decide (e.1 ≠ "row_checksum"))) ∧
      (∀ k, targetChecksum pkColumn backupData k = none
        ↔ ∀ t ∈ backupData, t.get? pkColumn ≠ some k) ∧
      ((backupData.map (fun t => t.get? pkColumn)).Nodup →
        ∀ t ∈ backupData, ∀ k, t.get? pkColumn = some k →
          targetChecksum pkColumn backupData k = t.get? "row_checksum") := by
  refine ⟨?_, targetChecksum_none_iff pkColumn backupData hb, ?_⟩
  · rw [compareChecksums_eq]
    apply filterMap_eq_map_filter
    intro m hmem
    obtain ⟨hp, hc⟩ := hm m hmem
    obtain ⟨k, hk⟩ := Option.isSome_iff_exists.1 hp
    obtain ⟨c, hc'⟩ := Option.isSome_iff_exists.1 hc
    simp only [hk, hc']
    by_cases h : targetChecksum pkColumn backupData k = some c
    · simp [h]
    · simp [h, stripChecksum]
  · intro hnd t ht k hk
    obtain ⟨c, hc⟩ := Option.isSome_iff_exists.1 (hb t ht).2
    rw [hc]
    exact targetChecksum_of_nodup pkColumn backupData hnd t ht k c hk hc

theorem call_ok (db : TableDb) (c : DbCall) (h : db.faults = []) :
    db.call c = (none, { db with log := db.log ++ [c] }) := by
  unfold TableDb.call
  rw [h]

theorem sorted_keyLt_of_nodup (l : List SourceRow) (hs : l.Sorted keyLe)
    (hnd : (l.map (fun r => r.key)).Nodup) : l.Sorted keyLt := by
  induction l with
  | nil => exact List.sorted_nil
  | cons a rest ih =>
    have hs' := List.sorted_cons.1 hs
    have hnd' := List.nodup_cons.1 (by simpa using hnd : (a.key :: rest.map (fun r => r.key)).Nodup)
    refine List.sorted_cons.2 ⟨?_, ih hs'.2 hnd'.2⟩
    intro b hb
    have h1 : a.key ≤ b.key := hs'.1 b hb
    have h2 : a.key ≠ b.key := by
      intro e
      apply hnd'.1
      rw [e]
      exact List.mem_map_of_mem _ hb
    exact lt_of_le_of_ne h1 h2

theorem rowsAbove_sorted (db : TableDb) (offset : Int)
    (hnd : (db.source.map (fun r => r.key)).Nodup) : (rowsAbove db offset).Sorted keyLt := by
  apply sorted_keyLt_of_nodup _ (List.sorted_insertionSort keyLe _)
  have hp := (List.perm_insertionSort keyLe
    (db.source.filter (fun r => decide (r.key > offset)))).map (fun r => r.key)
  rw [hp.nodup_iff]
  exact (List.Nodup.sublist ((List.filter_sublist _).map _) hnd)

theorem rowsAbove_perm (db : TableDb) (offset : Int) :
    (rowsAbove db offset).Perm (db.source.filter (fun r => decide (r.key > offset))) :=
  List.perm_insertionSort keyLe _

theorem mem_rowsAbove (db : TableDb) (offset : Int) (r : SourceRow) :
    r ∈ rowsAbove db offset ↔ r ∈ db.source ∧ r.key > offset := by
  rw [(rowsAbove_perm db offset).mem_iff, List.mem_filter]
  simp

theorem lastKey_concat (init : List SourceRow) (last : SourceRow) (offset : Int) :
    lastKey (init ++ [last]) offset = last.key := by
  simp [lastKey]

theorem lastKey_nil (offset : Int) : lastKey [] offset = offset := rfl

theorem lastKey_of_ne_nil (l : List SourceRow) (offset offset' : Int) (h : l ≠ []) :
    lastKey l offset = lastKey l offset' := by
  rcases List.eq_nil_or_concat' l with h' | ⟨init, last, rfl⟩
  · exact absurd h' h
  · rw [lastKey_concat, lastKey_concat]

theorem lastKey_mem (l : List SourceRow) (offset : Int) (h : l ≠ []) :
    ∃ r ∈ l, r.key = lastKey l offset := by
  rcases List.eq_nil_or_concat' l with h' | ⟨init, last, rfl⟩
  · exact absurd h' h
  · exact ⟨last, by simp, (lastKey_concat init last offset).symm⟩

theorem le_lastKey (l : List SourceRow) (offset : Int) (hs : l.Sorted keyLt) :
    ∀ r ∈ l, r.key ≤ lastKey l offset := by
  rcases List.eq_nil_or_concat' l with h' | ⟨init, last, rfl⟩
  · subst h'; intro r hr; exact absurd hr (List.not_mem_nil r)
  · intro r hr
    rw [lastKey_concat]
    have hp := List.pairwise_append.1 hs
    rcases List.mem_append.1 hr with h | h
    · exact le_of_lt (hp.2.2 r h last (List.mem_singleton_self _))
    · rw [List.mem_singleton.1 h]

theorem filter_split {α : Type} (p : α → Bool) (l1 l2 : List α)
    (h1 : ∀ r ∈ l1, p r = false) (h2 : ∀ r ∈ l2, p r = true) :
    (l1 ++ l2).filter p = l2 := by
  rw [List.filter_append, List.filter_eq_nil_iff.2 (fun r hr => by simp [h1 r hr]),
    List.filter_eq_self.2 h2]
  rfl

/-- In a strictly sorted list the rows above the key of the last row of the first `n`
are the rows after the first `n`. -/
theorem filter_above_take (n : Nat) (l : List SourceRow) (hs : l.Sorted keyLt) (hpos : 0 < n)
    (hlen : n ≤ l.length) (offset : Int) :
    l.filter (fun r => decide (r.key > lastKey (l.take n) offset)) = l.drop n := by
  have hne : l.take n ≠ [] := by
    intro e
    have := congrArg List.length e
    rw [List.length_take, List.length_nil] at this
    omega
  have hsplit : l = l.take n ++ l.drop n := (List.take_append_drop n l).symm
  have hp : (l.take n ++ l.drop n).Pairwise keyLt := by rw [← hsplit]; exact hs
  have hp' := List.pairwise_append.1 hp
  obtain ⟨last, hlast, hkey⟩ := lastKey_mem (l.take n) offset hne
  have hle := le_lastKey (l.take n) offset hp'.1
  generalize lastKey (l.take n) offset = k at hkey hle ⊢
  have := filter_split (fun r : SourceRow => decide (r.key > k)) (l.take n) (l.drop n)
    (by
      intro r hr
      simp only [gt_iff_lt, decide_eq_false_iff_not, not_lt]
      exact hle r hr)
    (by
      intro r hr
      have := hp'.2.2 last hlast r hr
      simp only [gt_iff_lt, decide_eq_true_eq]
      rw [← hkey]
      exact this)
  rw [← hsplit] at this
  exact this

/-- After a full batch the rows above the new watermark are the rows after the batch. -/
theorem rowsAbove_next (db : TableDb) (offset : Int) (n : Nat)
    (hnd : (db.source.map (fun r => r.key)).Nodup) (hpos : 0 < n)
    (hlen : n ≤ (rowsAbove db offset).length) :
    rowsAbove db (lastKey ((rowsAbove db offset).take n) offset) = (rowsAbove db offset).drop n := by
  have hs := rowsAbove_sorted db offset hnd
  have hs2 := rowsAbove_sorted db (lastKey ((rowsAbove db offset).take n) offset) hnd
  apply List.eq_of_perm_of_sorted ?_ hs2 (hs.sublist (List.drop_sublist _ _))
  rw [← filter_above_take n _ hs hpos hlen offset]
  refine (rowsAbove_perm db _).trans ?_
  have hne : (rowsAbove db offset).take n ≠ [] := by
    intro e
    have := congrArg List.length e
    rw [List.length_take, List.length_nil] at this
    omega
  obtain ⟨last, hlast, hkey⟩ := lastKey_mem _ offset hne
  have hgt : offset < lastKey ((rowsAbove db offset).take n) offset := by
    rw [← hkey]
    exact ((mem_rowsAbove db offset last).1 (List.mem_of_mem_take hlast)).2
  have : db.source.filter (fun r => decide (r.key > lastKey ((rowsAbove db offset).take n) offset))
      = (db.source.filter (fun r => decide (r.key > offset))).filter
          (fun r => decide (r.key > lastKey ((rowsAbove db offset).take n) offset)) := by
    rw [List.filter_filter]
    apply List.filter_congr
    intro r _
    by_cases h : r.key > lastKey ((rowsAbove db offset).take n) offset
    · have : r.key > offset := lt_trans hgt h
      simp [h, this]
    · simp [h]
  rw [this]
  exact (rowsAbove_perm db offset).symm.filter _

theorem fetchDataFromMaster_ok (db : TableDb) (offset limit : Int) (hf : db.faults = [])
    (hl : 0 ≤ limit) (h0 : ∀ r ∈ db.source, r.key ≠ 0) :
    fetchDataFromMaster db offset limit
      = (.ok (((rowsAbove db offset).take limit.toNat).map (fun r => r.cols)),
          db.after db.target (db.log ++ [.fetchData offset limit])) := by
  unfold fetchDataFromMaster
  rw [call_ok db _ hf]
  have hl' : ¬ limit < 0 := not_lt.2 hl
  simp only [hl', if_false]
  have hfilter : (if offset = 0 then db.source.filter (fun r => decide (r.key ≥ offset))
      else db.source.filter (fun r => decide (r.key > offset)))
      = db.source.filter (fun r => decide (r.key > offset)) := by
    split
    · rename_i ho
      subst ho
      apply List.filter_congr
      intro r hr
      have := h0 r hr
      by_cases h : r.key > 0
      · simp [h, le_of_lt h]
      · have : ¬ r.key ≥ 0 := fun hge => h (lt_of_le_of_ne hge (Ne.symm this))
        simp [h, this]
    · rfl
  rw [hfilter]
  rfl

theorem upsertLoop_ok (tableName pkColumn : String) (rows : List Row) :
    ∀ (synced : Nat) (lastID : Int) (db : TableDb), db.faults = [] → db.targetExists = true →
    upsertLoop tableName pkColumn rows synced lastID db
      = ((synced + rows.length, rows.foldl (fun l r => updateLastID pkColumn r l) lastID, none),
          db.after (rows.foldl (upsertRow pkColumn) db.target)
            (db.log ++ upsertCalls tableName pkColumn rows)) := by
  induction rows with
  | nil =>
    intro synced lastID db _ _
    simp [upsertLoop, upsertCalls, TableDb.after]
  | cons row rest ih =>
    intro synced lastID db hf ht
    unfold upsertLoop
    rw [call_ok db _ hf]
    simp only
    rw [if_pos (show db.targetExists = true from ht)]
    rw [ih (synced + 1) (updateLastID pkColumn row lastID)
      { db with log := db.log ++ [DbCall.upsert (upsertQuery tableName pkColumn row)
                  (row.map Prod.snd)],
                target := upsertRow pkColumn db.target row } hf ht]
    simp only [TableDb.after, List.length_cons, List.foldl_cons, upsertCalls, List.map_cons,
      List.append_assoc, List.singleton_append]
    congr 2
    omega

theorem upsertDataToBackup_ok (db : TableDb) (tableName pkColumn : String) (rows : List Row)
    (hf : db.faults = []) (ht : db.targetExists = true) (hne : rows ≠ []) :
    upsertDataToBackup db tableName pkColumn rows
      = ((rows.length, rows.foldl (fun l r => updateLastID pkColumn r l) 0, none),
          db.after (rows.foldl (upsertRow pkColumn) db.target)
            (db.log ++ upsertCalls tableName pkColumn rows)) := by
  unfold upsertDataToBackup
  have : ¬ rows.length = 0 := fun h => hne (List.length_eq_zero.1 h)
  simp only [this, if_false]
  rw [upsertLoop_ok _ _ _ _ _ _ hf ht]
  simp

/-- The type switch of `upsertDataToBackup` stores the key of a row that carries it as an
`int64`. -/
theorem updateLastID_of_int64 (pkColumn : String) (row : Row) (k : Int)
    (h : row.get? pkColumn = some (.int64 k)) (lastID : Int) :
    updateLastID pkColumn row lastID = k := by
  unfold updateLastID
  rw [h]

/-- The type switch of `upsertDataToBackup` stores the key of a row, whatever `lastID` was
before, exactly when the row carries the key as an `int`, as an `int64`, or as text that
`Sscanf` reads as the key. -/
theorem updateLastID_reads_key (pkColumn : String) (row : Row) (k : Int) :
    (∀ lastID : Int, updateLastID pkColumn row lastID = k)
      ↔ (row.get? pkColumn = some (.int k) ∨ row.get? pkColumn = some (.int64 k) ∨
          ∃ v, row.get? pkColumn = some (.str v) ∧ sscanfD v = some k) := by
  constructor
  · intro h
    have h1 := h k
    have h2 := h (k + 1)
    unfold updateLastID at h1 h2
    cases hg : row.get? pkColumn with
    | none =>
      rw [hg] at h2
      simp only at h2
      omega
    | some val =>
      rw [hg] at h1 h2
      cases val with
      | null => simp only at h2; omega
      | int n => simp only at h1; subst h1; exact Or.inl rfl
      | int64 n => simp only at h1; subst h1; exact Or.inr (Or.inl rfl)
      | str v =>
        simp only at h1 h2
        cases hs : sscanfD v with
        | none => rw [hs] at h2; simp only at h2; omega
        | some i =>
          rw [hs] at h1
          simp only at h1
          subst h1
          exact Or.inr (Or.inr ⟨v, rfl, hs⟩)
      | other tag => simp only at h2; omega
  · intro h lastID
    unfold updateLastID
    rcases h with h | h | ⟨v, h, hs⟩
    · rw [h]
    · rw [h]
    · rw [h]
      simp only
      rw [hs]

theorem lastID_of_keyRead (pkColumn : String) (batch : List SourceRow)
    (hkey : ∀ r ∈ batch, ∀ lastID : Int, updateLastID pkColumn r.cols lastID = r.key)
    (lastID : Int) :
    (batch.map (fun r => r.cols)).foldl (fun l r => updateLastID pkColumn r l) lastID
      = lastKey batch lastID := by
  rcases List.eq_nil_or_concat' batch with h | ⟨init, last, rfl⟩
  · subst h; rfl
  · rw [lastKey_concat, List.map_append, List.foldl_append]
    simp only [List.map_cons, List.map_nil, List.foldl_cons, List.foldl_nil]
    exact hkey last (by simp) _

theorem lastID_of_intKeyed (pkColumn : String) (batch : List SourceRow)
    (hint : ∀ r ∈ batch, r.cols.get? pkColumn = some (.int64 r.key)) (lastID : Int) :
    (batch.map (fun r => r.cols)).foldl (fun l r => updateLastID pkColumn r l) lastID
      = lastKey batch lastID :=
  lastID_of_keyRead pkColumn batch
    (fun r hr l => updateLastID_of_int64 pkColumn r.cols r.key (hint r hr) l) lastID

/-- Step 1 on a healthy table whose keys are distinct and non-zero and are read back from
the fetched rows by the type switch of `upsertDataToBackup`: with the engine running and a
batch size of at least 1 the loop ends, having upserted the source rows above the
watermark in key order and moved the watermark to the last of them. -/
theorem phaseA_spec (tableName pkColumn : String) (s : SyncService) (B : Nat) (hB : 1 ≤ B)
    (hrun : s.isRunning = true) (hstop : s.stopAfter = none) (hbs : s.batchSize = (B : Int)) :
    ∀ (n fuel : Nat) (db : TableDb) (offset : Int) (total : Nat),
      db.faults = [] → db.targetExists = true →
      (db.source.map (fun r => r.key)).Nodup → (∀ r ∈ db.source, r.key ≠ 0) →
      (∀ r ∈ db.source, ∀ lastID : Int, updateLastID pkColumn r.cols lastID = r.key) →
      (rowsAbove db offset).length = n → n + 1 ≤ fuel →
      ∃ log, phaseA tableName pkColumn fuel s db offset total
        = some (.done (lastKey (rowsAbove db offset) offset) (total + n), s,
            db.after (((rowsAbove db offset).map (fun r => r.cols)).foldl (upsertRow pkColumn)
              db.target) log) := by
  have hisr : s.IsRunning = (true, s) := by
    unfold SyncService.IsRunning
    rw [hstop, hrun]
  intro n
  induction n using Nat.strong_induction_on with
  | _ n ih =>
    intro fuel db offset total hf ht hnd h0 hint hn hfuel
    match fuel, hfuel with
    | fuel + 1, hfuel =>
      unfold phaseA
      rw [hisr]
      simp only
      rw [fetchDataFromMaster_ok db offset _ hf (by rw [hbs]; exact Int.natCast_nonneg B) h0, hbs]
      simp only [Int.toNat_ofNat, List.length_map]
      by_cases hempty : ((rowsAbove db offset).take B).length = 0
      · have hnil : rowsAbove db offset = [] := by
          have := List.length_eq_zero.1 hempty
          rcases List.take_eq_nil_iff.1 this with h | h
          · omega
          · exact h
        simp only [hempty, if_true]
        rw [hnil] at hn ⊢
        simp only [List.length_nil] at hn
        subst hn
        exact ⟨_, rfl⟩
      · simp only [hempty, if_false]
        have hne : ((rowsAbove db offset).take B).map (fun r => r.cols) ≠ [] := by
          intro e
          apply hempty
          have := congrArg List.length e
          simpa using this
        rw [upsertDataToBackup_ok (db.after db.target (db.log ++ [DbCall.fetchData offset B]))
          tableName pkColumn _ hf ht hne]
        simp only [List.length_map]
        have hintB : ∀ r ∈ (rowsAbove db offset).take B, ∀ lastID : Int,
            updateLastID pkColumn r.cols lastID = r.key :=
          fun r hr => hint r ((mem_rowsAbove db offset r).1 (List.mem_of_mem_take hr)).1
        rw [lastID_of_keyRead pkColumn _ hintB 0]
        have hneB : (rowsAbove db offset).take B ≠ [] := fun e => hempty (by rw [e]; rfl)
        rw [lastKey_of_ne_nil _ 0 offset hneB]
        by_cases hshort : (((rowsAbove db offset).take B).length : Int) < (B : Int)
        · simp only [hshort, if_true]
          have hlt : (rowsAbove db offset).length < B := by
            have h1 : ((rowsAbove db offset).take B).length < B := by exact_mod_cast hshort
            rw [List.length_take] at h1
            omega
          have htake : (rowsAbove db offset).take B = rowsAbove db offset :=
            List.take_of_length_le (le_of_lt hlt)
          rw [htake, hn]
          exact ⟨_, rfl⟩
        · simp only [hshort, if_false]
          have hge : B ≤ (rowsAbove db offset).length := by
            by_contra hlt
            apply hshort
            have : ((rowsAbove db offset).take B).length < B := by
              rw [List.length_take]; omega
            exact_mod_cast this
          have hlenB : ((rowsAbove db offset).take B).length = B := by
            rw [List.length_take]; omega
          have hnext := rowsAbove_next db offset B hnd (by omega) hge
          obtain ⟨log, hrec⟩ := ih (n - B) (by omega) fuel
            (db.after ((((rowsAbove db offset).take B).map (fun r => r.cols)).foldl
              (upsertRow pkColumn) db.target)
              (db.log ++ [DbCall.fetchData offset B] ++ upsertCalls tableName pkColumn
                (((rowsAbove db offset).take B).map (fun r => r.cols))))
            (lastKey ((rowsAbove db offset).take B) offset) (total + B)
            hf ht hnd h0 hint
            (by
              show (rowsAbove db (lastKey ((rowsAbove db offset).take B) offset)).length = n - B
              rw [hnext, List.length_drop, hn])
            (by omega)
          have hrw : rowsAbove (db.after ((((rowsAbove db offset).take B).map (fun r => r.cols)).foldl
              (upsertRow pkColumn) db.target)
              (db.log ++ [DbCall.fetchData offset B] ++ upsertCalls tableName pkColumn
                (((rowsAbove db offset).take B).map (fun r => r.cols))))
              (lastKey ((rowsAbove db offset).take B) offset)
              = (rowsAbove db offset).drop B := hnext
          rw [hrw] at hrec
          refine ⟨log, ?_⟩
          rw [hlenB]
          simp only [TableDb.after] at hrec ⊢
          rw [hrec]
          have hlast : lastKey ((rowsAbove db offset).drop B)
              (lastKey ((rowsAbove db offset).take B) offset)
              = lastKey (rowsAbove db offset) offset := by
            by_cases hd : (rowsAbove db offset).drop B = []
            · rw [hd, lastKey_nil]
              have : (rowsAbove db offset).take B = rowsAbove db offset := by
                have := List.take_append_drop B (rowsAbove db offset)
                rw [hd, List.append_nil] at this
                exact this
              rw [this]
            · rcases List.eq_nil_or_concat' ((rowsAbove db offset).drop B) with h | ⟨init, last, hl⟩
              · exact absurd h hd
              · have h2 : rowsAbove db offset = (rowsAbove db offset).take B ++ init ++ [last] := by
                  rw [List.append_assoc, ← hl, List.take_append_drop]
                rw [hl, lastKey_concat]
                conv_rhs => rw [h2]
                rw [lastKey_concat]
          have hfold : ((rowsAbove db offset).drop B |>.map (fun r => r.cols)).foldl
              (upsertRow pkColumn)
              ((((rowsAbove db offset).take B).map (fun r => r.cols)).foldl
                (upsertRow pkColumn) db.target)
              = ((rowsAbove db offset).map (fun r => r.cols)).foldl (upsertRow pkColumn)
                  db.target := by
            rw [← List.foldl_append, ← List.map_append, List.take_append_drop]
          rw [hlast, hfold]
          have : total + B + (n - B) = total + n := by omega
          rw [this]

theorem getPrimaryKeyColumn_ok (db : TableDb) (hf : db.faults = []) :
    getPrimaryKeyColumn db
      = (.ok db.pkColumn, db.after db.target (db.log ++ [DbCall.getPrimaryKeyColumn])) := by
  unfold getPrimaryKeyColumn
  rw [call_ok db _ hf]
  rfl

theorem hasUpdatedAtColumn_ok (db : TableDb) (hf : db.faults = []) :
    hasUpdatedAtColumn db
      = (db.hasUpdatedAt, db.after db.target (db.log ++ [DbCall.hasUpdatedAtColumn])) := by
  unfold hasUpdatedAtColumn
  rw [call_ok db _ hf]
  rfl

theorem upsertRow_fresh (pkColumn : String) (target : List Row) (row : Row) (k : Value)
    (hk : row.get? pkColumn = some k) (hfresh : ∀ r ∈ target, r.get? pkColumn ≠ some k) :
    upsertRow pkColumn target row = target ++ [row] := by
  unfold upsertRow
  rw [hk]
  have : target.any (fun r => decide (r.get? pkColumn = some k)) = false := by
    rw [List.any_eq_false]
    intro r hr
    simpa using hfresh r hr
  simp only [this, Bool.false_eq_true, if_false]

theorem upsert_all_fresh (pkColumn : String) (rows : List Row) :
    ∀ target : List Row,
      (∀ r ∈ target ++ rows, (r.get? pkColumn).isSome) →
      ((target ++ rows).map (fun r => r.get? pkColumn)).Nodup →
      rows.foldl (upsertRow pkColumn) target = target ++ rows := by
  induction rows with
  | nil => intro target _ _; simp
  | cons row rest ih =>
    intro target hsome hnd
    obtain ⟨k, hk⟩ := Option.isSome_iff_exists.1 (hsome row (by simp))
    have hfresh : ∀ r ∈ target, r.get? pkColumn ≠ some k := by
      intro r hr e
      rw [List.map_append, List.map_cons, List.nodup_append] at hnd
      apply hnd.2.2 (List.mem_map_of_mem _ hr)
      rw [e, ← hk]
      exact List.mem_cons_self _ _
    rw [List.foldl_cons, upsertRow_fresh pkColumn target row k hk hfresh]
    have := ih (target ++ [row]) (by simpa using hsome) (by simpa using hnd)
    rw [this]
    simp

theorem compareChecksums_self (pkColumn : String) (data : List Row)
    (hb : ∀ t ∈ data, (t.get? pkColumn).isSome ∧ (t.get? "row_checksum").isSome)
    (hsame : ∀ r ∈ data, ∀ m ∈ data, r.get? pkColumn = m.get? pkColumn →
      r.get? "row_checksum" = m.get? "row_checksum") :
    compareChecksums pkColumn data data = [] := by
  rw [compareChecksums_eq]
  apply List.filterMap_eq_nil_iff.2
  intro m hm
  obtain ⟨k, hk⟩ := Option.isSome_iff_exists.1 (hb m hm).1
  obtain ⟨c, hc⟩ := Option.isSome_iff_exists.1 (hb m hm).2
  simp only [hk, hc]
  cases ht : targetChecksum pkColumn data k with
  | none =>
    exact absurd hk ((targetChecksum_none_iff pkColumn data hb k).1 ht m hm)
  | some x =>
    obtain ⟨r, hr, hrk, hrx⟩ := targetChecksum_some_mem pkColumn k data x ht
    have := hsame r hr m hm (hrk.trans hk.symm)
    rw [hrx, hc] at this
    simp [this]

theorem withChecksum_get? (db : TableDb) (row : Row) (c : String) :
    (withChecksum db row).get? c
      = if "row_checksum" = c then (withChecksum db row).get? "row_checksum" else row.get? c := by
  unfold withChecksum
  rw [GoMap.get?_insert, GoMap.get?_insert]
  simp

theorem withChecksum_get?_of_ne (db : TableDb) (row : Row) (c : String)
    (h : ¬ "row_checksum" = c) : (withChecksum db row).get? c = row.get? c := by
  rw [withChecksum_get?, if_neg h]

theorem withChecksum_isSome (db : TableDb) (row : Row) :
    ((withChecksum db row).get? "row_checksum").isSome := by
  unfold withChecksum
  rw [GoMap.get?_insert]
  simp

/-- With every call succeeding and the target table in place, the checksum scan of a
target that holds exactly the source rows (keys distinct, each key held by its row) finds
no changed row. -/
theorem fetchChangedDataByChecksum_in_sync (db : TableDb) (tableName pkColumn : String)
    (hf : db.faults = []) (ht : db.targetExists = true)
    (hnd : (db.source.map (fun r => r.key)).Nodup)
    (hint : ∀ r ∈ db.source, r.cols.get? pkColumn = some (.int64 r.key))
    (htarget : db.target = (db.source.insertionSort keyLe).map (fun r => r.cols)) :
    fetchChangedDataByChecksum db tableName pkColumn
      = (.ok [], db.after db.target
          (db.log ++ [.getTableColumns, .checksumMaster, .checksumBackup])) := by
  unfold fetchChangedDataByChecksum getTableColumns
  rw [call_ok db _ hf]
  simp only
  rw [call_ok { db with log := db.log ++ [DbCall.getTableColumns] } _ hf]
  simp only
  rw [call_ok { db with log := db.log ++ [DbCall.getTableColumns] ++ [DbCall.checksumMaster] } _ hf]
  simp only
  rw [if_pos (show db.targetExists = true from ht)]
  simp only
  have hdata : List.map (withChecksum
        { db with log := db.log ++ [DbCall.getTableColumns] ++ [DbCall.checksumMaster]
                    ++ [DbCall.checksumBackup] }) db.target
      = List.map (fun r => withChecksum
          { db with log := db.log ++ [DbCall.getTableColumns] ++ [DbCall.checksumMaster] } r.cols)
          (db.source.insertionSort keyLe) := by
    rw [htarget, List.map_map]
    rfl
  show (Except.ok (compareChecksums pkColumn _ (List.map (withChecksum
        { db with log := db.log ++ [DbCall.getTableColumns] ++ [DbCall.checksumMaster]
                    ++ [DbCall.checksumBackup] }) db.target)), _) = _
  rw [hdata, compareChecksums_self]
  · simp [TableDb.after]
  · intro t htm
    obtain ⟨r, hr, rfl⟩ := List.mem_map.1 htm
    refine ⟨?_, withChecksum_isSome _ _⟩
    rw [withChecksum_get?]
    split
    · exact withChecksum_isSome _ _
    · rw [hint r (((List.perm_insertionSort keyLe _).mem_iff).1 hr)]; rfl
  · intro t1 ht1 t2 ht2 hpk
    obtain ⟨r1, hr1, rfl⟩ := List.mem_map.1 ht1
    obtain ⟨r2, hr2, rfl⟩ := List.mem_map.1 ht2
    have hm1 := ((List.perm_insertionSort keyLe _).mem_iff).1 hr1
    have hm2 := ((List.perm_insertionSort keyLe _).mem_iff).1 hr2
    by_cases hcs : "row_checksum" = pkColumn
    · subst hcs
      exact hpk
    · rw [withChecksum_get?_of_ne _ r1.cols _ hcs, withChecksum_get?_of_ne _ r2.cols _ hcs,
        hint r1 hm1, hint r2 hm2] at hpk
      have hkey : r1.key = r2.key := by
        simpa using hpk
      have : r1 = r2 := List.inj_on_of_nodup_map hnd hm1 hm2 hkey
      rw [this]

theorem statusOnEntry_cold (s : SyncService) (tableName : String)
    (hcold : ∀ st, s.tableStatus.get? tableName = some st →
      st.LastSyncID = 0 ∧ st.LastSyncTime = 0) :
    (statusOnEntry s tableName).LastSyncID = 0 ∧ (statusOnEntry s tableName).LastSyncTime = 0 := by
  unfold statusOnEntry
  cases h : s.tableStatus.get? tableName with
  | none => exact ⟨rfl, rfl⟩
  | some st => exact hcold st h

theorem updateTableStatus_get? (s : SyncService) (tableName status errMsg : String)
    (lastID : Int) (totalSynced : Nat) :
    ∃ st, (updateTableStatus s tableName status errMsg lastID totalSynced).tableStatus.get?
        tableName = some st ∧
      st.Status = status ∧ st.LastSyncID = lastID ∧ st.TotalSynced = totalSynced ∧
      st.LastSyncTime = s.clock ∧ st.ErrorMessage = errMsg := by
  unfold updateTableStatus
  simp only
  rw [GoMap.get?_modify]
  cases h : s.tableStatus.get? tableName with
  | none =>
    simp only [GoMap.get?_insert, if_true, Option.map_some']
    exact ⟨_, rfl, rfl, rfl, rfl, rfl, rfl⟩
  | some st0 =>
    simp only [h, Option.map_some', if_true]
    exact ⟨_, rfl, rfl, rfl, rfl, rfl, rfl⟩

theorem rowsAbove_zero_of_pos (db : TableDb) (hpos : ∀ r ∈ db.source, 0 < r.key) :
    rowsAbove db 0 = db.source.insertionSort keyLe := by
  unfold rowsAbove
  rw [List.filter_eq_self.2]
  intro r hr
  simpa using hpos r hr

theorem phaseB_cold_in_sync (tableName pkColumn : String) (s : SyncService) (db : TableDb)
    (hasUpdatedAt : Bool) (total : Nat)
    (hf : db.faults = []) (ht : db.targetExists = true)
    (hnd : (db.source.map (fun r => r.key)).Nodup)
    (hint : ∀ r ∈ db.source, r.cols.get? pkColumn = some (.int64 r.key))
    (htarget : db.target = (db.source.insertionSort keyLe).map (fun r => r.cols)) :
    ∃ log, phaseB tableName pkColumn s db hasUpdatedAt 0 total
      = (total, db.after db.target log) := by
  unfold phaseB
  have h0 : (hasUpdatedAt && (0 : Nat) != 0) = false := by simp
  rw [h0]
  simp only [Bool.false_eq_true, if_false]
  by_cases hc : s.enableChecksumSync = true
  · rw [if_pos hc, fetchChangedDataByChecksum_in_sync db tableName pkColumn hf ht hnd hint htarget]
    exact ⟨_, rfl⟩
  · rw [if_neg hc]
    exact ⟨db.log, rfl⟩

/-- Cold start of one table whose keys reach Go as `int64`: the table has a primary key,
the source keys are distinct positive integers that reach Go as `int64`, the batch size
is at least 1, the target table exists and is empty, the status record is absent or has
watermark 0 and the zero last-sync time, the engine is running and not being stopped, and no database call
fails. Then for every bound of at least the number of source rows plus one `syncTable`
returns; afterwards the target holds exactly the source rows (in key order), the
`LastSyncID` of the table is the largest source key (0 for an empty source), its
`TotalSynced` is the number of source rows and its status is `success`. -/
theorem syncTable_cold_start (tableName : String) (s : SyncService) (db : TableDb) (fuel : Nat)
    (hpk : db.pkColumn ≠ "")
    (hnd : (db.source.map (fun r => r.key)).Nodup)
    (hpos : ∀ r ∈ db.source, 0 < r.key)
    (hint : ∀ r ∈ db.source, r.cols.get? db.pkColumn = some (.int64 r.key))
    (hB : 1 ≤ s.batchSize)
    (hexists : db.targetExists = true) (hempty : db.target = [])
    (hcold : ∀ st, s.tableStatus.get? tableName = some st →
      st.LastSyncID = 0 ∧ st.LastSyncTime = 0)
    (hrun : s.isRunning = true) (hstop : s.stopAfter = none)
    (hf : db.faults = [])
    (hfuel : db.source.length + 1 ≤ fuel) :
    ∃ s' db' st, syncTable fuel tableName s db = some (s', db') ∧
      db'.target = (db.source.insertionSort keyLe).map (fun r => r.cols) ∧
      db'.target.Perm (db.source.map (fun r => r.cols)) ∧
      s'.tableStatus.get? tableName = some st ∧
      (∀ r ∈ db.source, r.key ≤ st.LastSyncID) ∧
      (db.source = [] → st.LastSyncID = 0) ∧
      (db.source ≠ [] → ∃ r ∈ db.source, r.key = st.LastSyncID) ∧
      st.TotalSynced = db.source.length ∧ st.Status = "success" := by
  obtain ⟨hid, htime⟩ := statusOnEntry_cold s tableName hcold
  have hsorted_perm := List.perm_insertionSort keyLe db.source
  have h0 : ∀ r ∈ db.source, r.key ≠ 0 := fun r hr => ne_of_gt (hpos r hr)
  have hbs : s.batchSize = ((s.batchSize.toNat : Nat) : Int) :=
    (Int.toNat_of_nonneg (le_trans (by decide) hB)).symm
  have hBn : 1 ≤ s.batchSize.toNat := by omega
  have hlen : (rowsAbove db 0).length = db.source.length := by
    rw [rowsAbove_zero_of_pos db hpos]
    exact hsorted_perm.length_eq
  -- step 1
  obtain ⟨log, hA⟩ := phaseA_spec tableName db.pkColumn (beginSync s tableName)
    s.batchSize.toNat hBn hrun hstop hbs db.source.length fuel
    ((db.after db.target (db.log ++ [DbCall.getPrimaryKeyColumn])).after db.target
      (db.log ++ [DbCall.getPrimaryKeyColumn] ++ [DbCall.hasUpdatedAtColumn]))
    0 0 hf hexists hnd h0
    (fun r hr l => updateLastID_of_int64 db.pkColumn r.cols r.key (hint r hr) l) hlen hfuel
  have hrows : rowsAbove ((db.after db.target (db.log ++ [DbCall.getPrimaryKeyColumn])).after db.target
      (db.log ++ [DbCall.getPrimaryKeyColumn] ++ [DbCall.hasUpdatedAtColumn])) 0
      = db.source.insertionSort keyLe := rowsAbove_zero_of_pos db hpos
  rw [hrows] at hA
  have hpkv : ∀ r ∈ db.source.insertionSort keyLe,
      r.cols.get? db.pkColumn = some (.int64 r.key) :=
    fun r hr => hint r (hsorted_perm.mem_iff.1 hr)
  have htargetA : ((db.source.insertionSort keyLe).map (fun r => r.cols)).foldl
      (upsertRow db.pkColumn) db.target
      = (db.source.insertionSort keyLe).map (fun r => r.cols) := by
    rw [hempty, upsert_all_fresh]
    · rfl
    · intro r hr
      simp only [List.nil_append] at hr
      obtain ⟨x, hx, rfl⟩ := List.mem_map.1 hr
      rw [hpkv x hx]; rfl
    · simp only [List.nil_append, List.map_map]
      have : (db.source.insertionSort keyLe).map ((fun r : Row => r.get? db.pkColumn) ∘ fun r => r.cols)
          = (db.source.insertionSort keyLe).map (fun r => some (Value.int64 r.key)) := by
        apply List.map_congr_left
        intro r hr
        exact hpkv r hr
      rw [this]
      have hk : ((db.source.insertionSort keyLe).map (fun r => r.key)).Nodup :=
        (hsorted_perm.map _).nodup_iff.2 hnd
      have := hk.map (f := fun k : Int => some (Value.int64 k))
        (fun a b h => by simpa using h)
      simpa [List.map_map, Function.comp_def] using this
  -- step 2
  obtain ⟨log2, hBph⟩ := phaseB_cold_in_sync tableName db.pkColumn (beginSync s tableName)
    (db.after ((db.source.insertionSort keyLe).map (fun r => r.cols)) log) db.hasUpdatedAt
    (0 + db.source.length) hf hexists hnd hint rfl
  obtain ⟨st, hst, hstatus, hlast, htotal, _, _⟩ := updateTableStatus_get? (beginSync s tableName)
    tableName "success" "" (lastKey (db.source.insertionSort keyLe) 0) (0 + db.source.length)
  have hsync : syncTable fuel tableName s db
      = some (updateTableStatus (beginSync s tableName) tableName "success" ""
          (lastKey (db.source.insertionSort keyLe) 0) (0 + db.source.length),
          db.after ((db.source.insertionSort keyLe).map (fun r => r.cols)) log2) := by
    unfold syncTable
    simp only
    rw [getPrimaryKeyColumn_ok db hf]
    simp only
    rw [if_neg hpk, hasUpdatedAtColumn_ok (db.after db.target (db.log ++ [DbCall.getPrimaryKeyColumn])) hf]
    simp only
    rw [hid, htime]
    have hA' : phaseA tableName db.pkColumn fuel (beginSync s tableName)
        ((db.after db.target (db.log ++ [DbCall.getPrimaryKeyColumn])).after
          (db.after db.target (db.log ++ [DbCall.getPrimaryKeyColumn])).target
          ((db.after db.target (db.log ++ [DbCall.getPrimaryKeyColumn])).log ++ [DbCall.hasUpdatedAtColumn]))
        0 0 = some (LoopEnd.done (lastKey (db.source.insertionSort keyLe) 0)
          (0 + db.source.length), beginSync s tableName,
          ((db.after db.target (db.log ++ [DbCall.getPrimaryKeyColumn])).after db.target
            (db.log ++ [DbCall.getPrimaryKeyColumn] ++ [DbCall.hasUpdatedAtColumn])).after
            ((db.source.insertionSort keyLe).map (fun r => r.cols)) log) := by
      simp only [TableDb.after] at hA ⊢
      rw [htargetA] at hA
      exact hA
    rw [hA']
    simp only
    have hB' : phaseB tableName db.pkColumn (beginSync s tableName)
        (((db.after db.target (db.log ++ [DbCall.getPrimaryKeyColumn])).after db.target
          (db.log ++ [DbCall.getPrimaryKeyColumn] ++ [DbCall.hasUpdatedAtColumn])).after
          ((db.source.insertionSort keyLe).map (fun r => r.cols)) log)
        (db.after db.target (db.log ++ [DbCall.getPrimaryKeyColumn])).hasUpdatedAt 0
        (0 + db.source.length) = _ := hBph
    rw [hB']
    rfl
  refine ⟨_, _, st, hsync, rfl, hsorted_perm.map _, hst, ?_, ?_, ?_, by rw [htotal]; omega,
    hstatus⟩
  · intro r hr
    rw [hlast]
    exact le_lastKey _ 0 (sorted_keyLt_of_nodup _ (List.sorted_insertionSort keyLe _)
      ((hsorted_perm.map _).nodup_iff.2 hnd)) r (hsorted_perm.mem_iff.2 hr)
  · intro he
    rw [hlast, he]
    rfl
  · intro hne
    have hne' : db.source.insertionSort keyLe ≠ [] := by
      intro e
      apply hne
      have := hsorted_perm.length_eq
      rw [e] at this
      exact List.length_eq_zero.1 this.symm
    obtain ⟨r, hr, hk⟩ := lastKey_mem _ 0 hne'
    exact ⟨r, hsorted_perm.mem_iff.1 hr, by rw [hlast, hk]⟩

/-- Scenario D in every order: whatever the two iteration orders, the plan is a, b, c
with levels 0, 1, 2. -/
theorem scenarioD_every_order :
    ∀ o1 ∈ [["a", "b", "c"], ["a", "c", "b"], ["b", "a", "c"], ["b", "c", "a"],
        ["c", "a", "b"], ["c", "b", "a"]],
      ∀ o2 ∈ [["a", "b", "c"], ["a", "c", "b"], ["b", "a", "c"], ["b", "c", "a"],
          ["c", "a", "b"], ["c", "b", "a"]],
        (GetAllTablesWithDependencies (.ok ["a", "b", "c"]) scenarioD o1 o2).toOption
          = some [⟨"a", [], 0, false⟩, ⟨"b", ["a"], 1, false⟩, ⟨"c", ["b"], 2, false⟩] := by
  decide

/-- Witness of C2 on scenario D. -/
theorem planner_level_recurrence_witness :
    (["a", "b", "c"].Nodup ∧ CatalogAcyclic ["a", "b", "c"] scenarioD ∧
      ["c", "a", "b"].Perm ["a", "b", "c"] ∧ ["b", "c", "a"].Perm ["a", "b", "c"]) ∧
    ∃ plan, GetAllTablesWithDependencies (.ok ["a", "b", "c"]) scenarioD
        ["c", "a", "b"] ["b", "c", "a"] = .ok plan ∧
      (∀ t ∈ ["a", "b", "c"], planLevel plan t
        = if catalogRefs ["a", "b", "c"] scenarioD t = [] then 0
          else 1 + ((catalogRefs ["a", "b", "c"] scenarioD t).map (planLevel plan)).foldr max 0) ∧
      ∀ order1' order2' : List String, order1'.Perm ["a", "b", "c"] →
        order2'.Perm ["a", "b", "c"] →
        ∃ plan', GetAllTablesWithDependencies (.ok ["a", "b", "c"]) scenarioD order1' order2'
            = .ok plan' ∧
          ∀ t ∈ ["a", "b", "c"], planLevel plan' t = planLevel plan t :=
  ⟨⟨by decide, scenarioD_acyclic, by decide, by decide⟩,
    planner_level_recurrence ["a", "b", "c"] scenarioD ["c", "a", "b"] ["b", "c", "a"]
      (by decide) scenarioD_acyclic (by decide) (by decide)⟩

/-- Scenario A evaluated: batch size 2 gives `LastSyncID = 3`, `TotalSynced = 3`, status
`success`, and the three rows on the target. -/
theorem scenarioA_result :
    (syncTable 4 "items" (runningEngine 2) scenarioA).map
        (fun r => (r.1.tableStatus, r.2.target))
      = some ([("items", ⟨"items", 3, 3, 1000, "success", ""⟩)],
          [[("id", .int64 1), ("name", .str "a")], [("id", .int64 2), ("name", .str "b")],
           [("id", .int64 3), ("name", .str "c")]]) := by
  decide

/-- The cold start of scenario A with batch size 2. -/
theorem syncTable_cold_start_witness :
    ∃ s' db' st, syncTable 4 "items" (runningEngine 2) scenarioA = some (s', db') ∧
      db'.target = (scenarioA.source.insertionSort keyLe).map (fun r => r.cols) ∧
      db'.target.Perm (scenarioA.source.map (fun r => r.cols)) ∧
      s'.tableStatus.get? "items" = some st ∧
      (∀ r ∈ scenarioA.source, r.key ≤ st.LastSyncID) ∧
      (scenarioA.source = [] → st.LastSyncID = 0) ∧
      (scenarioA.source ≠ [] → ∃ r ∈ scenarioA.source, r.key = st.LastSyncID) ∧
      st.TotalSynced = scenarioA.source.length ∧ st.Status = "success" :=
  syncTable_cold_start "items" (runningEngine 2) scenarioA 4
    (by decide) (by decide) (by decide) (by decide) (by decide) rfl rfl
    (fun st h => by simp [runningEngine, GoMap.get?] at h) rfl rfl rfl (by decide)

/-- Witness of C6: row 1 has another checksum on the target and row 3 is absent there. -/
theorem compareChecksums_changed_rows_witness :
    ((∀ m ∈ masterChecksummed, (m.get? "id").isSome ∧ (m.get? "row_checksum").isSome) ∧
      (∀ t ∈ backupChecksummed, (t.get? "id").isSome ∧ (t.get? "row_checksum").isSome)) ∧
    (compareChecksums "id" masterChecksummed backupChecksummed
        = (masterChecksummed.filter (fun m =>
            match m.get? "id" with
            | none => false
            | some k =>
              decide (targetChecksum "id" backupChecksummed k ≠ m.get? "row_checksum"))).map
          (fun m => m.filter (fun e => decide (e.1 ≠ "row_checksum"))) ∧
      (∀ k, targetChecksum "id" backupChecksummed k = none
        ↔ ∀ t ∈ backupChecksummed, t.get? "id" ≠ some k) ∧
      ((backupChecksummed.map (fun t => t.get? "id")).Nodup →
        ∀ t ∈ backupChecksummed, ∀ k, t.get? "id" = some k →
          targetChecksum "id" backupChecksummed k = t.get? "row_checksum")) :=
  ⟨⟨by decide, by decide⟩,
    compareChecksums_changed_rows "id" masterChecksummed backupChecksummed
      (by decide) (by decide)⟩

/-- The comparison scenario evaluated: rows 1 and 3 come back, without checksum. -/
theorem compareChecksums_example :
    compareChecksums "id" masterChecksummed backupChecksummed
      = [[("id", .int64 1), ("name", .str "A")], [("id", .int64 3), ("name", .str "c")]] := by
  decide

/-- Witness of C9: `id` is modified, `phone` is added, and the second diff is empty. -/
theorem CompareSchemas_idempotent_witness :
    (sourceColumns.map (fun c => c.ColumnName)).Nodup ∧
    (CompareSchemas "users" (.ok sourceColumns) (.ok targetColumns)
        = .ok ((sourceColumns.filterMap (schemaAlter targetColumns)).map (Alter.text "users")) ∧
      CompareSchemas "users" (.ok sourceColumns)
          (.ok ((sourceColumns.filterMap (schemaAlter targetColumns)).foldl applyAlter
            targetColumns)) = .ok [] ∧
      CompareSchemas "users" (.ok sourceColumns) (.ok sourceColumns) = .ok []) :=
  ⟨by decide, CompareSchemas_idempotent "users" sourceColumns targetColumns (by decide)⟩

/-- The schema scenario evaluated: one MODIFY for `id`, one ADD for `phone`, nothing for
the column that only the target has. -/
theorem CompareSchemas_example :
    (CompareSchemas "users" (.ok sourceColumns) (.ok targetColumns)).toOption
      = some ["ALTER TABLE `users` MODIFY COLUMN `id` int(11) NOT NULL auto_increment",
          "ALTER TABLE `users` ADD COLUMN `phone` VARCHAR(20) NOT NULL DEFAULT ''"] := by
  decide

theorem WellKeyed.after {db : TableDb} (hw : WellKeyed db) (target : List Row)
    (log : List DbCall) : WellKeyed (db.after target log) :=
  ⟨hw.hasPk, hw.keysNodup, hw.keysNonzero, hw.intKeyed, hw.allColumns, hw.noChecksumColumn⟩

theorem rowsAbove_length_le (db : TableDb) (offset : Int) :
    (rowsAbove db offset).length ≤ db.source.length := by
  unfold rowsAbove
  rw [List.length_insertionSort]
  exact List.length_filter_le _ _

theorem statusOnEntry_of_get? (s : SyncService) (tableName : String) (st : SyncStatus)
    (h : s.tableStatus.get? tableName = some st) : statusOnEntry s tableName = st := by
  unfold statusOnEntry
  rw [h]

/-- The two ticks on the stale table `items` evaluated: the first tick copies row 3 in step 1
and row 1 in step 2; the second issues no upsert. -/
theorem staleItems_two_ticks :
    (syncTable 4 "items" resumedEngine staleItems).map
        (fun r => (r.1.tableStatus, r.2.target))
      = some ([("items", ⟨"items", 3, 2, 1000, "success", ""⟩)],
          [[("id", .int64 1), ("name", .str "aa")], [("id", .int64 2), ("name", .str "b")],
           [("id", .int64 3), ("name", .str "c")]]) ∧
    (syncTable 4 "items" resumedEngine staleItems).bind (fun r =>
        (syncTable 1 "items" r.1 r.2).map (fun r2 =>
          (r2.1.tableStatus, r2.2.target, r2.2.log.drop r.2.log.length)))
      = some ([("items", ⟨"items", 3, 0, 1000, "success", ""⟩)],
          [[("id", .int64 1), ("name", .str "aa")], [("id", .int64 2), ("name", .str "b")],
           [("id", .int64 3), ("name", .str "c")]],
          [.getPrimaryKeyColumn, .hasUpdatedAtColumn, .fetchData 3 2,
           .getTableColumns, .checksumMaster, .checksumBackup]) := by
  decide

/-- C5, failing input. The ledger has `items` at watermark 5 and the source has gained
the row with key 2^63, which the driver hands over as the text `9223372036854775808`.
The tick fetches and upserts that row; `Sscanf` cannot store the key in an `int`, so
`lastID` keeps its initial 0 and `syncTable` records 0 as the new watermark, with status
`success`: the watermark after the tick is below the watermark before it. -/
theorem syncTable_watermark_regresses :
    (statusOnEntry engineAtFive "items").LastSyncID = 5 ∧
    unsignedKeyTable.pkColumn = "id" ∧
    (syncTable 2 "items" engineAtFive unsignedKeyTable).map
        (fun r => (r.1.tableStatus, r.2.target))
      = some ([("items", ⟨"items", 0, 1, 1000, "success", ""⟩)],
          [[("id", .int64 5), ("name", .str "e")],
           [("id", .str "9223372036854775808"), ("name", .str "f")]]) := by
  decide

theorem IsRunning_clock (s : SyncService) : s.IsRunning.2.clock = s.clock := by
  unfold SyncService.IsRunning
  split <;> rfl

theorem phaseA_clock (tableName pkColumn : String) :
    ∀ (fuel : Nat) (s : SyncService) (db : TableDb) (offset : Int) (total : Nat)
      (r : LoopEnd) (s1 : SyncService) (db1 : TableDb),
      phaseA tableName pkColumn fuel s db offset total = some (r, s1, db1) →
      s1.clock = s.clock := by
  intro fuel
  induction fuel with
  | zero =>
    intro s db offset total r s1 db1 h
    simp [phaseA] at h
  | succ fuel ih =>
    intro s db offset total r s1 db1 h
    unfold phaseA at h
    have hc := IsRunning_clock s
    rcases hrun : s.IsRunning with ⟨b, s0⟩
    rw [hrun] at h hc
    simp only at hc
    cases b with
    | false =>
      simp only [Option.some.injEq, Prod.mk.injEq] at h
      rw [← h.2.1]; exact hc
    | true =>
      simp only at h
      rcases hfetch : fetchDataFromMaster db offset s0.batchSize with ⟨res, dbf⟩
      rw [hfetch] at h
      cases res with
      | error e =>
        simp only [Option.some.injEq, Prod.mk.injEq] at h
        rw [← h.2.1]; exact hc
      | ok rows =>
        simp only at h
        by_cases hlen : rows.length = 0
        · rw [if_pos hlen] at h
          simp only [Option.some.injEq, Prod.mk.injEq] at h
          rw [← h.2.1]; exact hc
        · rw [if_neg hlen] at h
          rcases hup : upsertDataToBackup dbf tableName pkColumn rows with ⟨⟨synced, lastID, err⟩, dbu⟩
          rw [hup] at h
          cases err with
          | some e =>
            simp only [Option.some.injEq, Prod.mk.injEq] at h
            rw [← h.2.1]; exact hc
          | none =>
            simp only at h
            by_cases hlt : (rows.length : Int) < s0.batchSize
            · rw [if_pos hlt] at h
              simp only [Option.some.injEq, Prod.mk.injEq] at h
              rw [← h.2.1]; exact hc
            · rw [if_neg hlt] at h
              exact (ih _ _ _ _ _ _ _ h).trans hc

theorem IsRunning_tableStatus (s : SyncService) :
    s.IsRunning.2.tableStatus = s.tableStatus := by
  unfold SyncService.IsRunning
  split <;> rfl

/-- Step 1 leaves the status map as it is. -/
theorem phaseA_tableStatus (tableName pkColumn : String) :
    ∀ (fuel : Nat) (s : SyncService) (db : TableDb) (offset : Int) (total : Nat)
      (r : LoopEnd) (s1 : SyncService) (db1 : TableDb),
      phaseA tableName pkColumn fuel s db offset total = some (r, s1, db1) →
      s1.tableStatus = s.tableStatus := by
  intro fuel
  induction fuel with
  | zero =>
    intro s db offset total r s1 db1 h
    simp [phaseA] at h
  | succ fuel ih =>
    intro s db offset total r s1 db1 h
    unfold phaseA at h
    have hc := IsRunning_tableStatus s
    rcases hrun : s.IsRunning with ⟨b, s0⟩
    rw [hrun] at h hc
    simp only at hc
    cases b with
    | false =>
      simp only [Option.some.injEq, Prod.mk.injEq] at h
      rw [← h.2.1]; exact hc
    | true =>
      simp only at h
      rcases hfetch : fetchDataFromMaster db offset s0.batchSize with ⟨res, dbf⟩
      rw [hfetch] at h
      cases res with
      | error e =>
        simp only [Option.some.injEq, Prod.mk.injEq] at h
        rw [← h.2.1]; exact hc
      | ok rows =>
        simp only at h
        by_cases hlen : rows.length = 0
        · rw [if_pos hlen] at h
          simp only [Option.some.injEq, Prod.mk.injEq] at h
          rw [← h.2.1]; exact hc
        · rw [if_neg hlen] at h
          rcases hup : upsertDataToBackup dbf tableName pkColumn rows with ⟨⟨synced, lastID, err⟩, dbu⟩
          rw [hup] at h
          cases err with
          | some e =>
            simp only [Option.some.injEq, Prod.mk.injEq] at h
            rw [← h.2.1]; exact hc
          | none =>
            simp only at h
            by_cases hlt : (rows.length : Int) < s0.batchSize
            · rw [if_pos hlt] at h
              simp only [Option.some.injEq, Prod.mk.injEq] at h
              rw [← h.2.1]; exact hc
            · rw [if_neg hlt] at h
              exact (ih _ _ _ _ _ _ _ h).trans hc

/-- The record of the table after the first lines of `syncTable`: marked `syncing`, with
the watermark and the last-sync time it had, or the zero values when it is new. -/
theorem beginSync_get? (s : SyncService) (tableName : String) :
    ∃ st0, (beginSync s tableName).tableStatus.get? tableName = some st0 ∧
      st0.Status = "syncing" ∧
      st0.LastSyncTime = (match s.tableStatus.get? tableName with
        | none => 0
        | some st => st.LastSyncTime) ∧
      st0.LastSyncID = (match s.tableStatus.get? tableName with
        | none => 0
        | some st => st.LastSyncID) := by
  unfold beginSync
  simp only
  rw [GoMap.get?_modify]
  cases h : s.tableStatus.get? tableName with
  | none =>
    simp only [GoMap.get?_insert, if_true, Option.map_some']
    have hs : statusOnEntry s tableName
        = { TableName := tableName, LastSyncID := 0, TotalSynced := 0, LastSyncTime := 0,
            Status := "syncing", ErrorMessage := "" } := by
      unfold statusOnEntry
      rw [h]
    rw [hs]
    exact ⟨_, rfl, rfl, rfl, rfl⟩
  | some st =>
    simp only [h, Option.map_some', if_true]
    exact ⟨_, rfl, rfl, rfl, rfl⟩

theorem get?_modify_other {V : Type} (m : GoMap String V) (key k : String) (f : V → V)
    (h : k ≠ key) : (m.modify key f).get? k = m.get? k := by
  rw [GoMap.get?_modify]
  cases m.get? k with
  | none => rfl
  | some d => simp [h]

/-- The first lines of `syncTable` leave the records of the other tables alone. -/
theorem beginSync_get?_other (s : SyncService) (tableName other : String)
    (h : other ≠ tableName) :
    (beginSync s tableName).tableStatus.get? other = s.tableStatus.get? other := by
  unfold beginSync
  simp only
  rw [get?_modify_other _ _ _ _ h]
  cases hg : s.tableStatus.get? tableName with
  | none =>
    simp only
    rw [GoMap.get?_insert, if_neg (fun e => h e.symm)]
  | some st => rfl

/-- `updateTableStatus` leaves the records of the other tables alone. -/
theorem updateTableStatus_get?_other (s : SyncService) (tableName status errMsg : String)
    (lastID : Int) (totalSynced : Nat) (other : String) (h : other ≠ tableName) :
    (updateTableStatus s tableName status errMsg lastID totalSynced).tableStatus.get? other
      = s.tableStatus.get? other := by
  unfold updateTableStatus
  simp only
  rw [get?_modify_other _ _ _ _ h]
  cases hg : s.tableStatus.get? tableName with
  | none =>
    simp only
    rw [GoMap.get?_insert, if_neg (fun e => h e.symm)]
  | some st => rfl

/-- Step 1 on a table whose only row has key 0, with batch size 1 and the engine
running: every iteration fetches the row again and leaves the watermark at 0, so no
bound on the number of iterations is enough. -/
theorem phaseA_key_zero_loops (s : SyncService) (hrun : s.isRunning = true)
    (hstop : s.stopAfter = none) (hbs : s.batchSize = 1) :
    ∀ (fuel : Nat) (db : TableDb) (total : Nat),
      db.source = [itemRow 0 "z"] → db.faults = [] → db.targetExists = true →
      phaseA "items" "id" fuel s db 0 total = none := by
  have hisr : s.IsRunning = (true, s) := by
    unfold SyncService.IsRunning
    rw [hstop, hrun]
  intro fuel
  induction fuel with
  | zero => intro db total _ _ _; rfl
  | succ fuel ih =>
    intro db total hsrc hf ht
    unfold phaseA
    rw [hisr]
    simp only
    have hfetch : fetchDataFromMaster db 0 s.batchSize
        = (.ok [[("id", .int64 0), ("name", .str "z")]],
            db.after db.target (db.log ++ [DbCall.fetchData 0 s.batchSize])) := by
      unfold fetchDataFromMaster
      rw [call_ok db _ hf]
      simp only
      rw [hbs]
      simp only [if_true, hsrc]
      have hrows : ((([itemRow 0 "z"].filter (fun r => decide (r.key ≥ 0))).insertionSort
          keyLe).take (1 : Int).toNat).map (fun r => r.cols)
          = [[("id", .int64 0), ("name", .str "z")]] := by decide
      rw [hrows]
      simp only [TableDb.after, ← hsrc]
      rfl
    rw [hfetch]
    simp only
    rw [if_neg (by decide),
      upsertDataToBackup_ok (db.after db.target (db.log ++ [DbCall.fetchData 0 s.batchSize]))
        "items" "id" [[("id", .int64 0), ("name", .str "z")]] hf ht (by simp)]
    simp only [List.length_singleton, hbs]
    have hlast : ([[("id", Value.int64 0), ("name", Value.str "z")]] : List Row).foldl
        (fun l r => updateLastID "id" r l) 0 = 0 := by decide
    rw [hlast]
    simp only [Nat.cast_one, lt_self_iff_false, if_false]
    exact ih _ _ hsrc hf ht

/-- With every call succeeding, a batch in which no row has a usable key comes back
with `lastID = 0`, whatever the watermark was. -/
theorem upsertDataToBackup_lastID_zero (db : TableDb) (tableName pkColumn : String)
    (rows : List Row) (hf : db.faults = []) (ht : db.targetExists = true)
    (hno : ∀ row ∈ rows, ∀ l, updateLastID pkColumn row l = l) :
    (upsertDataToBackup db tableName pkColumn rows).1 = (rows.length, 0, none) := by
  by_cases hne : rows = []
  · subst hne
    rfl
  · rw [upsertDataToBackup_ok db tableName pkColumn rows hf ht hne]
    have : ∀ (rs : List Row) (l : Int), (∀ row ∈ rs, ∀ l, updateLastID pkColumn row l = l) →
        rs.foldl (fun l r => updateLastID pkColumn r l) l = l := by
      intro rs
      induction rs with
      | nil => intro l _; rfl
      | cons r rest ih =>
        intro l h
        rw [List.foldl_cons, h r (List.mem_cons_self _ _) l]
        exact ih l (fun row hr => h row (List.mem_cons_of_mem _ hr))
    simp only
    rw [this rows 0 hno]

/-- C14. When the primary-key lookup yields the empty name, `syncTable` returns, for
every bound and every engine state, having issued the primary-key query and nothing
else: no row fetch and no upsert, source and target untouched. The status of the table
is `skipped` with message `no primary key`, and its `LastSyncID` is the one it had
before (0 for a table met for the first time). -/
theorem syncTable_no_primary_key (fuel : Nat) (tableName : String) (s : SyncService)
    (db : TableDb) (hpk : (getPrimaryKeyColumn db).1 = .ok "") :
    ∃ s' db' st, syncTable fuel tableName s db = some (s', db') ∧
      db'.log = db.log ++ [.getPrimaryKeyColumn] ∧
      db'.source = db.source ∧ db'.target = db.target ∧
      s'.tableStatus.get? tableName = some st ∧
      st.Status = "skipped" ∧ st.ErrorMessage = "no primary key" ∧
      (∀ st0, s.tableStatus.get? tableName = some st0 → st.LastSyncID = st0.LastSyncID) ∧
      (s.tableStatus.get? tableName = none → st.LastSyncID = 0) := by
  obtain ⟨st, hst, hstatus, hlast, _, _, hmsg⟩ := updateTableStatus_get?
    (beginSync s tableName) tableName "skipped" "no primary key"
    (statusOnEntry s tableName).LastSyncID 0
  have hsync : syncTable fuel tableName s db
      = some (updateTableStatus (beginSync s tableName) tableName "skipped" "no primary key"
          (statusOnEntry s tableName).LastSyncID 0, (getPrimaryKeyColumn db).2) := by
    unfold syncTable
    simp only
    rcases hg : getPrimaryKeyColumn db with ⟨res, db1⟩
    rw [hg] at hpk
    simp only at hpk
    rw [hpk]
    simp
  have hlog : (getPrimaryKeyColumn db).2.log = db.log ++ [.getPrimaryKeyColumn] ∧
      (getPrimaryKeyColumn db).2.source = db.source ∧
      (getPrimaryKeyColumn db).2.target = db.target := by
    unfold getPrimaryKeyColumn TableDb.call
    cases db.faults with
    | nil => exact ⟨rfl, rfl, rfl⟩
    | cons f rest => cases f <;> exact ⟨rfl, rfl, rfl⟩
  refine ⟨_, _, st, hsync, hlog.1, hlog.2.1, hlog.2.2, hst, hstatus, hmsg, ?_, ?_⟩
  · intro st0 h0
    rw [hlast, statusOnEntry_of_get? s tableName st0 h0]
  · intro h0
    rw [hlast]
    unfold statusOnEntry
    rw [h0]

/-- Witness of C14 on a table without primary key whose ledger entry is at watermark 2. -/
theorem syncTable_no_primary_key_witness :
    (getPrimaryKeyColumn keylessTable).1 = .ok "" ∧
    ∃ s' db' st, syncTable 3 "items" resumedEngine keylessTable = some (s', db') ∧
      db'.log = keylessTable.log ++ [.getPrimaryKeyColumn] ∧
      db'.source = keylessTable.source ∧ db'.target = keylessTable.target ∧
      s'.tableStatus.get? "items" = some st ∧
      st.Status = "skipped" ∧ st.ErrorMessage = "no primary key" ∧
      (∀ st0, resumedEngine.tableStatus.get? "items" = some st0 →
        st.LastSyncID = st0.LastSyncID) ∧
      (resumedEngine.tableStatus.get? "items" = none → st.LastSyncID = 0) :=
  ⟨rfl, syncTable_no_primary_key 3 "items" resumedEngine keylessTable rfl⟩

/-- C15, failing input. Table `items` has the primary key `id`, and the catalog query
behind `getPrimaryKeyColumn` fails with a deadline error. `getPrimaryKeyColumn` returns
the empty name and no error, and `syncTable` records the table as `skipped` with message
`no primary key`, not as `error`. -/
theorem syncTable_probe_failure_skipped :
    probeTimeout.pkColumn = "id" ∧
    (getPrimaryKeyColumn probeTimeout).1 = .ok "" ∧
    (syncTable 4 "items" (runningEngine 2) probeTimeout).map
        (fun r => (r.1.tableStatus, r.2.log))
      = some ([("items", ⟨"items", 0, 0, 1000, "skipped", "no primary key"⟩)],
          [.getPrimaryKeyColumn]) :=
  ⟨rfl, rfl, by decide⟩

/-- C17, failing input. Step 1 starts at watermark 5 and fetches the one row above it,
whose key the driver hands over as the text `9223372036854775808`; `Sscanf` stores
nothing for it. `upsertDataToBackup` returns `lastID = 0`, as it does for a key of a Go
type that the type switch does not list, and the loop of step 1 ends with watermark 0,
not 5. -/
theorem phaseA_watermark_reset :
    sscanfD "9223372036854775808" = none ∧
    (upsertDataToBackup unsignedKeyTable "items" "id"
        [[("id", .str "9223372036854775808"), ("name", .str "f")]]).1 = (1, 0, none) ∧
    (upsertDataToBackup unsignedKeyTable "items" "id"
        [[("id", .other 0), ("name", .str "f")]]).1 = (1, 0, none) ∧
    (phaseA "items" "id" 2 engineAtFive unsignedKeyTable 5 0).map (fun r => r.1)
      = some (.done 0 1) := by
  decide

/-- C16, failing input. Source `items` holds the single row with key 0, the target is
empty, the watermark is 0, the engine is running and the batch size is 1. The loop of
step 1 fetches `id >= 0` with limit 1, upserts the row, sets the watermark to 0 again,
and, the batch being full, goes round once more: `syncTable` does not finish, whatever
the bound on the number of iterations. -/
theorem syncTable_key_zero_batch_one (fuel : Nat) :
    syncTable fuel "items" (runningEngine 1) zeroKeyTable = none := by
  have h := phaseA_key_zero_loops (beginSync (runningEngine 1) "items") rfl rfl rfl fuel
    ((zeroKeyTable.after zeroKeyTable.target [.getPrimaryKeyColumn]).after
      zeroKeyTable.target [.getPrimaryKeyColumn, .hasUpdatedAtColumn]) 0 rfl rfl rfl
  unfold syncTable
  simp only
  rw [getPrimaryKeyColumn_ok zeroKeyTable rfl]
  simp only
  rw [if_neg (by decide),
    hasUpdatedAtColumn_ok (zeroKeyTable.after zeroKeyTable.target
      (zeroKeyTable.log ++ [DbCall.getPrimaryKeyColumn])) rfl]
  simp only
  have h' : phaseA "items" zeroKeyTable.pkColumn fuel (beginSync (runningEngine 1) "items")
      ((zeroKeyTable.after zeroKeyTable.target
        (zeroKeyTable.log ++ [DbCall.getPrimaryKeyColumn])).after
        (zeroKeyTable.after zeroKeyTable.target
          (zeroKeyTable.log ++ [DbCall.getPrimaryKeyColumn])).target
        ((zeroKeyTable.after zeroKeyTable.target
          (zeroKeyTable.log ++ [DbCall.getPrimaryKeyColumn])).log
          ++ [DbCall.hasUpdatedAtColumn]))
      (statusOnEntry (runningEngine 1) "items").LastSyncID 0 = none := h
  rw [h']

/-- C12, counterexample. Table `items` has never been synced: it has no ledger entry, so
its last-sync time is the zero instant. In the first run the first fetch of step 1 fails:
the run ends with status `error`, and `LastSyncTime` is the time of the run (1000), not
the zero instant. A run on a table without primary key ends with status `skipped` and
moves `LastSyncTime` from 900 to 1000. -/
theorem lastSyncTime_set_on_error :
    (runningEngine 2).tableStatus.get? "items" = none ∧
    (syncTable 4 "items" (runningEngine 2) fetchRefused).map (fun r => r.1.tableStatus)
      = some [("items", ⟨"items", 0, 0, 1000, "error", "connection refused"⟩)] ∧
    resumedEngine.tableStatus.get? "items" = some ⟨"items", 2, 2, 900, "success", ""⟩ ∧
    (syncTable 4 "items" resumedEngine keylessTable).map (fun r => r.1.tableStatus)
      = some [("items", ⟨"items", 2, 0, 1000, "skipped", "no primary key"⟩)] := by
  decide

/-- C12, amended. `LastSyncTime` is the time of the last run of `syncTable` on the
table, whatever its outcome. A fresh engine has an empty status map. The first lines of a
run leave the table with a record marked `syncing` whose `LastSyncTime` is the one it had,
and the zero instant when the record is new; they leave the records of the other tables
as they are. Step 1, from whatever state, leaves the status map as it is (step 2 has no
access to it). Every run that returns has ended in one of the states `success`, `error`
and `skipped`, and in each of them it has set `LastSyncTime` of the table to the current
time, whatever the value before; the records of the other tables are what they were
before the run. So the record of a table carries the zero instant, or is absent, until
the first run on that table ends. -/
theorem syncTable_sets_lastSyncTime (fuel : Nat) (tableName : String) (s : SyncService)
    (db : TableDb) :
    (∀ (cronSchedule : String) (batchSize : Int) (autoSchemaSync enableChecksumSync : Bool)
        (clock : Nat),
      (NewSyncService cronSchedule batchSize autoSchemaSync enableChecksumSync
        clock).tableStatus = []) ∧
    (∃ st0, (beginSync s tableName).tableStatus.get? tableName = some st0 ∧
      st0.Status = "syncing" ∧
      st0.LastSyncTime = (match s.tableStatus.get? tableName with
        | none => 0
        | some st => st.LastSyncTime)) ∧
    (∀ other, other ≠ tableName →
      (beginSync s tableName).tableStatus.get? other = s.tableStatus.get? other) ∧
    (∀ (pkColumn : String) (fuelA : Nat) (s0 : SyncService) (dbA : TableDb) (offset : Int)
        (total : Nat) (r : LoopEnd) (s1 : SyncService) (db1 : TableDb),
      phaseA tableName pkColumn fuelA s0 dbA offset total = some (r, s1, db1) →
      s1.tableStatus = s0.tableStatus) ∧
    (∀ (s' : SyncService) (db' : TableDb), syncTable fuel tableName s db = some (s', db') →
      (∃ st, s'.tableStatus.get? tableName = some st ∧ st.LastSyncTime = s.clock ∧
        (st.Status = "success" ∨ st.Status = "error" ∨ st.Status = "skipped")) ∧
      ∀ other, other ≠ tableName → s'.tableStatus.get? other = s.tableStatus.get? other) := by
  refine ⟨fun _ _ _ _ _ => rfl, ?_, beginSync_get?_other s tableName, ?_, ?_⟩
  · obtain ⟨st0, h1, h2, h3, _⟩ := beginSync_get? s tableName
    exact ⟨st0, h1, h2, h3⟩
  · intro pkColumn fuelA s0 dbA offset total r s1 db1 h
    exact phaseA_tableStatus tableName pkColumn fuelA s0 dbA offset total r s1 db1 h
  · intro s' db' h
    unfold syncTable at h
    simp only at h
    rcases hg : getPrimaryKeyColumn db with ⟨res, db1⟩
    rw [hg] at h
    cases res with
    | error e =>
      simp only [Option.some.injEq, Prod.mk.injEq] at h
      obtain ⟨st, hst, hstatus, _, _, htime, _⟩ := updateTableStatus_get?
        (beginSync s tableName) tableName "error" e (statusOnEntry s tableName).LastSyncID 0
      rw [h.1] at hst
      refine ⟨⟨st, hst, htime, Or.inr (Or.inl hstatus)⟩, ?_⟩
      intro other ho
      rw [← h.1, updateTableStatus_get?_other _ _ _ _ _ _ _ ho,
        beginSync_get?_other s tableName other ho]
    | ok pkColumn =>
      simp only at h
      by_cases hpk : pkColumn = ""
      · rw [if_pos hpk] at h
        simp only [Option.some.injEq, Prod.mk.injEq] at h
        obtain ⟨st, hst, hstatus, _, _, htime, _⟩ := updateTableStatus_get?
          (beginSync s tableName) tableName "skipped" "no primary key"
          (statusOnEntry s tableName).LastSyncID 0
        rw [h.1] at hst
        refine ⟨⟨st, hst, htime, Or.inr (Or.inr hstatus)⟩, ?_⟩
        intro other ho
        rw [← h.1, updateTableStatus_get?_other _ _ _ _ _ _ _ ho,
          beginSync_get?_other s tableName other ho]
      · rw [if_neg hpk] at h
        rcases hA : phaseA tableName pkColumn fuel (beginSync s tableName)
            (hasUpdatedAtColumn db1).2 (statusOnEntry s tableName).LastSyncID 0 with
          _ | ⟨r, s1, db3⟩
        · rw [hA] at h
          cases h
        · rw [hA] at h
          have hclock : s1.clock = s.clock :=
            phaseA_clock _ _ _ (beginSync s tableName) _ _ _ _ _ _ hA
          have hmap : s1.tableStatus = (beginSync s tableName).tableStatus :=
            phaseA_tableStatus _ _ _ (beginSync s tableName) _ _ _ _ _ _ hA
          cases r with
          | failed e offset total =>
            simp only [Option.some.injEq, Prod.mk.injEq] at h
            obtain ⟨st, hst, hstatus, _, _, htime, _⟩ := updateTableStatus_get?
              s1 tableName "error" e offset total
            rw [h.1] at hst
            refine ⟨⟨st, hst, htime.trans hclock, Or.inr (Or.inl hstatus)⟩, ?_⟩
            intro other ho
            rw [← h.1, updateTableStatus_get?_other _ _ _ _ _ _ _ ho, hmap,
              beginSync_get?_other s tableName other ho]
          | done offset total =>
            simp only [Option.some.injEq, Prod.mk.injEq] at h
            obtain ⟨st, hst, hstatus, _, _, htime, _⟩ := updateTableStatus_get?
              s1 tableName "success" "" offset
              (phaseB tableName pkColumn s1 db3 (hasUpdatedAtColumn db1).1
                (statusOnEntry s tableName).LastSyncTime total).1
            rw [h.1] at hst
            refine ⟨⟨st, hst, htime.trans hclock, Or.inl hstatus⟩, ?_⟩
            intro other ho
            rw [← h.1, updateTableStatus_get?_other _ _ _ _ _ _ _ ho, hmap,
              beginSync_get?_other s tableName other ho]

/-- Witness of C12 (amended): the run of scenario A whose first fetch fails. -/
theorem syncTable_sets_lastSyncTime_witness :
    syncTable 4 "items" (runningEngine 2) fetchRefused
      = some (updateTableStatus (beginSync (runningEngine 2) "items") "items" "error"
          "connection refused" 0 0,
        { scenarioA with
          faults := [],
          log := [.getPrimaryKeyColumn, .hasUpdatedAtColumn, .fetchData 0 2] }) ∧
    ((∃ st, (updateTableStatus (beginSync (runningEngine 2) "items") "items" "error"
        "connection refused" 0 0).tableStatus.get? "items" = some st ∧
      st.LastSyncTime = (runningEngine 2).clock ∧
      (st.Status = "success" ∨ st.Status = "error" ∨ st.Status = "skipped")) ∧
      ∀ other, other ≠ "items" →
        (updateTableStatus (beginSync (runningEngine 2) "items") "items" "error"
          "connection refused" 0 0).tableStatus.get? other
          = (runningEngine 2).tableStatus.get? other) :=
  ⟨by rfl, (syncTable_sets_lastSyncTime 4 "items" (runningEngine 2) fetchRefused).2.2.2.2 _
    { scenarioA with
      faults := [],
      log := [.getPrimaryKeyColumn, .hasUpdatedAtColumn, .fetchData 0 2] }
    (by rfl)⟩

theorem upsertCount_append (l1 l2 : List DbCall) :
    upsertCount (l1 ++ l2) = upsertCount l1 + upsertCount l2 := by
  simp [upsertCount, List.filter_append]

theorem upsertCount_upsertCalls (tableName pkColumn : String) (rows : List Row) :
    upsertCount (upsertCalls tableName pkColumn rows) = rows.length := by
  induction rows with
  | nil => rfl
  | cons r rest ih =>
    simp only [upsertCalls, List.map_cons, upsertCount, List.filter_cons, DbCall.isUpsert,
      if_true, List.length_cons] at ih ⊢
    rw [ih]

theorem fetchDataFromMaster_db (db : TableDb) (offset limit : Int) (hf : db.faults = []) :
    (fetchDataFromMaster db offset limit).2
      = db.after db.target (db.log ++ [DbCall.fetchData offset limit]) := by
  unfold fetchDataFromMaster
  rw [call_ok db _ hf]
  simp only
  split <;> rfl

/-- With every call succeeding, a batch adds as many upserts to the log as it reports
synced rows. -/
theorem upsertDataToBackup_count (db : TableDb) (tableName pkColumn : String)
    (rows : List Row) (hf : db.faults = []) (ht : db.targetExists = true) :
    ∃ lastID db', upsertDataToBackup db tableName pkColumn rows
        = ((rows.length, lastID, none), db') ∧
      db'.faults = [] ∧ db'.targetExists = true ∧
      upsertCount db'.log = upsertCount db.log + rows.length := by
  by_cases hne : rows = []
  · subst hne
    exact ⟨0, db, rfl, hf, ht, rfl⟩
  · refine ⟨_, _, upsertDataToBackup_ok db tableName pkColumn rows hf ht hne, hf, ht, ?_⟩
    show upsertCount (db.log ++ upsertCalls tableName pkColumn rows) = _
    rw [upsertCount_append, upsertCount_upsertCalls]

/-- With every call succeeding, step 1 adds as many upserts to the log as it adds to
`totalSynced`. -/
theorem phaseA_upserts (tableName pkColumn : String) :
    ∀ (fuel : Nat) (s : SyncService) (db : TableDb) (offset : Int) (total : Nat)
      (r : LoopEnd) (s1 : SyncService) (db1 : TableDb),
      db.faults = [] → db.targetExists = true →
      phaseA tableName pkColumn fuel s db offset total = some (r, s1, db1) →
      db1.faults = [] ∧ db1.targetExists = true ∧
      ∃ k, upsertCount db1.log = upsertCount db.log + k ∧
        ∀ off tot, r = .done off tot → tot = total + k := by
  intro fuel
  induction fuel with
  | zero =>
    intro s db offset total r s1 db1 _ _ h
    simp [phaseA] at h
  | succ fuel ih =>
    intro s db offset total r s1 db1 hf ht h
    unfold phaseA at h
    rcases hrun : s.IsRunning with ⟨b, s0⟩
    rw [hrun] at h
    cases b with
    | false =>
      simp only [Option.some.injEq, Prod.mk.injEq] at h
      obtain ⟨hr, _, hdb⟩ := h
      subst hdb
      refine ⟨hf, ht, 0, rfl, ?_⟩
      intro off tot e
      rw [← hr] at e
      cases e
      rfl
    | true =>
      simp only at h
      have hfdb := fetchDataFromMaster_db db offset s0.batchSize hf
      rcases hfetch : fetchDataFromMaster db offset s0.batchSize with ⟨res, dbf⟩
      rw [hfetch] at h hfdb
      simp only at hfdb
      have hcf : upsertCount dbf.log = upsertCount db.log := by
        rw [hfdb]
        show upsertCount (db.log ++ _) = _
        rw [upsertCount_append]
        rfl
      have hff : dbf.faults = [] := by rw [hfdb]; exact hf
      have htf : dbf.targetExists = true := by rw [hfdb]; exact ht
      cases res with
      | error e =>
        simp only [Option.some.injEq, Prod.mk.injEq] at h
        obtain ⟨hr, _, hdb⟩ := h
        subst hdb
        refine ⟨hff, htf, 0, hcf, ?_⟩
        intro off tot e'
        rw [← hr] at e'
        cases e'
      | ok rows =>
        simp only at h
        by_cases hlen : rows.length = 0
        · rw [if_pos hlen] at h
          simp only [Option.some.injEq, Prod.mk.injEq] at h
          obtain ⟨hr, _, hdb⟩ := h
          subst hdb
          refine ⟨hff, htf, 0, hcf, ?_⟩
          intro off tot e'
          rw [← hr] at e'
          cases e'
          rfl
        · rw [if_neg hlen] at h
          obtain ⟨lastID, dbu, hup, hfu, htu, hcu⟩ :=
            upsertDataToBackup_count dbf tableName pkColumn rows hff htf
          rw [hup] at h
          simp only at h
          by_cases hlt : (rows.length : Int) < s0.batchSize
          · rw [if_pos hlt] at h
            simp only [Option.some.injEq, Prod.mk.injEq] at h
            obtain ⟨hr, _, hdb⟩ := h
            subst hdb
            refine ⟨hfu, htu, rows.length, by rw [hcu, hcf], ?_⟩
            intro off tot e'
            rw [← hr] at e'
            cases e'
            rfl
          · rw [if_neg hlt] at h
            obtain ⟨hf1, ht1, k, hk, hdone⟩ := ih _ _ _ _ _ _ _ hfu htu h
            refine ⟨hf1, ht1, rows.length + k, by rw [hk, hcu, hcf]; omega, ?_⟩
            intro off tot e'
            rw [hdone off tot e']
            omega

theorem fetchUpdatedDataFromMaster_healthy (db : TableDb) (since : Nat)
    (hf : db.faults = []) :
    ∃ rows, fetchUpdatedDataFromMaster db since
      = (.ok rows, db.after db.target (db.log ++ [DbCall.fetchUpdated since])) := by
  unfold fetchUpdatedDataFromMaster
  rw [call_ok db _ hf]
  exact ⟨_, rfl⟩

theorem fetchChangedDataByChecksum_healthy (db : TableDb) (tableName pkColumn : String)
    (hf : db.faults = []) (ht : db.targetExists = true) :
    ∃ rows, fetchChangedDataByChecksum db tableName pkColumn
      = (.ok rows, db.after db.target
          (db.log ++ [DbCall.getTableColumns, DbCall.checksumMaster, DbCall.checksumBackup])) := by
  unfold fetchChangedDataByChecksum getTableColumns
  rw [call_ok db _ hf]
  simp only
  rw [call_ok { db with log := db.log ++ [DbCall.getTableColumns] } _ hf]
  simp only
  rw [call_ok { db with log := db.log ++ [DbCall.getTableColumns] ++ [DbCall.checksumMaster] } _ hf]
  simp only
  rw [if_pos (show db.targetExists = true from ht)]
  simp only
  refine ⟨_, Prod.ext rfl ?_⟩
  simp [TableDb.after]

/-- With every call succeeding, step 2 adds as many upserts to the log as it adds to
`totalSynced`. -/
theorem phaseB_upserts (tableName pkColumn : String) (s : SyncService) (db : TableDb)
    (hasUpdatedAt : Bool) (lastSyncTime total : Nat)
    (hf : db.faults = []) (ht : db.targetExists = true) :
    ∃ k, (phaseB tableName pkColumn s db hasUpdatedAt lastSyncTime total).1 = total + k ∧
      upsertCount (phaseB tableName pkColumn s db hasUpdatedAt lastSyncTime total).2.log
        = upsertCount db.log + k := by
  have key : ∀ (rows : List Row) (dbf : TableDb), dbf.faults = [] → dbf.targetExists = true →
      upsertCount dbf.log = upsertCount db.log →
      ∃ k, (if rows.length > 0 then
              match upsertDataToBackup dbf tableName pkColumn rows with
              | ((_, _, some _), db2) => (total, db2)
              | ((synced, _, none), db2) => (total + synced, db2)
            else (total, dbf)).1 = total + k ∧
        upsertCount (if rows.length > 0 then
              match upsertDataToBackup dbf tableName pkColumn rows with
              | ((_, _, some _), db2) => (total, db2)
              | ((synced, _, none), db2) => (total + synced, db2)
            else (total, dbf)).2.log = upsertCount db.log + k := by
    intro rows dbf hff htf hc
    by_cases hlen : rows.length > 0
    · rw [if_pos hlen]
      obtain ⟨lastID, dbu, hup, _, _, hcu⟩ :=
        upsertDataToBackup_count dbf tableName pkColumn rows hff htf
      rw [hup]
      exact ⟨rows.length, rfl, by rw [← hc]; exact hcu⟩
    · rw [if_neg hlen]
      exact ⟨0, rfl, hc⟩
  unfold phaseB
  by_cases h1 : (hasUpdatedAt && lastSyncTime != 0) = true
  · rw [if_pos h1]
    obtain ⟨rows, hfu⟩ := fetchUpdatedDataFromMaster_healthy db lastSyncTime hf
    rw [hfu]
    simp only
    apply key rows (db.after db.target (db.log ++ [DbCall.fetchUpdated lastSyncTime])) hf ht
    show upsertCount (db.log ++ _) = _
    rw [upsertCount_append]
    rfl
  · rw [if_neg h1]
    by_cases h2 : s.enableChecksumSync = true
    · rw [if_pos h2]
      obtain ⟨rows, hfc⟩ := fetchChangedDataByChecksum_healthy db tableName pkColumn hf ht
      rw [hfc]
      simp only
      apply key rows (db.after db.target
        (db.log ++ [DbCall.getTableColumns, DbCall.checksumMaster, DbCall.checksumBackup])) hf ht
      show upsertCount (db.log ++ _) = _
      rw [upsertCount_append]
      rfl
    · rw [if_neg h2]
      exact ⟨0, rfl, rfl⟩

/-- The body of `syncTable` after a primary-key lookup that gave a name: the outcome of
step 1 decides between `error` and `success`. -/
theorem syncTable_of_preamble (fuel : Nat) (tableName : String) (s : SyncService)
    (db db1 db2 : TableDb) (pkColumn : String) (hasUpdatedAt : Bool)
    (hg : getPrimaryKeyColumn db = (.ok pkColumn, db1)) (hpk : pkColumn ≠ "")
    (hu : hasUpdatedAtColumn db1 = (hasUpdatedAt, db2)) :
    syncTable fuel tableName s db
      = match phaseA tableName pkColumn fuel (beginSync s tableName) db2
          (statusOnEntry s tableName).LastSyncID 0 with
        | none => none
        | some (.failed e offset total, s1, db3) =>
          some (updateTableStatus s1 tableName "error" e offset total, db3)
        | some (.done offset total, s1, db3) =>
          some (updateTableStatus s1 tableName "success" "" offset
            (phaseB tableName pkColumn s1 db3 hasUpdatedAt
              (statusOnEntry s tableName).LastSyncTime total).1,
            (phaseB tableName pkColumn s1 db3 hasUpdatedAt
              (statusOnEntry s tableName).LastSyncTime total).2) := by
  unfold syncTable
  simp only
  rw [hg]
  simp only
  rewrite [if_neg hpk, hu]
  rfl

/-- When step 1 ends without error, `syncTable` ends with status `success`, whatever
happens in step 2. -/
theorem syncTable_of_done (fuel : Nat) (tableName : String) (s s1 : SyncService)
    (db db1 db2 db3 : TableDb) (pkColumn : String) (hasUpdatedAt : Bool) (offset : Int)
    (total : Nat)
    (hg : getPrimaryKeyColumn db = (.ok pkColumn, db1)) (hpk : pkColumn ≠ "")
    (hu : hasUpdatedAtColumn db1 = (hasUpdatedAt, db2))
    (hA : phaseA tableName pkColumn fuel (beginSync s tableName) db2
      (statusOnEntry s tableName).LastSyncID 0 = some (.done offset total, s1, db3)) :
    ∃ st, syncTable fuel tableName s db
        = some (updateTableStatus s1 tableName "success" "" offset
            (phaseB tableName pkColumn s1 db3 hasUpdatedAt
              (statusOnEntry s tableName).LastSyncTime total).1,
            (phaseB tableName pkColumn s1 db3 hasUpdatedAt
              (statusOnEntry s tableName).LastSyncTime total).2) ∧
      (updateTableStatus s1 tableName "success" "" offset
        (phaseB tableName pkColumn s1 db3 hasUpdatedAt
          (statusOnEntry s tableName).LastSyncTime total).1).tableStatus.get? tableName
        = some st ∧
      st.Status = "success" ∧ st.LastSyncID = offset ∧
      st.TotalSynced = (phaseB tableName pkColumn s1 db3 hasUpdatedAt
        (statusOnEntry s tableName).LastSyncTime total).1 ∧
      st.ErrorMessage = "" := by
  obtain ⟨st, hst, hstatus, hlast, htotal, _, hmsg⟩ := updateTableStatus_get? s1 tableName
    "success" "" offset (phaseB tableName pkColumn s1 db3 hasUpdatedAt
      (statusOnEntry s tableName).LastSyncTime total).1
  refine ⟨st, ?_, hst, hstatus, hlast, htotal, hmsg⟩
  rw [syncTable_of_preamble fuel tableName s db db1 db2 pkColumn hasUpdatedAt hg hpk hu, hA]

/-- When step 1 ends with an error, `syncTable` ends with status `error`, with the
message of the error and the watermark and count that step 1 had reached. -/
theorem syncTable_of_failed (fuel : Nat) (tableName : String) (s s1 : SyncService)
    (db db1 db2 db3 : TableDb) (pkColumn : String) (hasUpdatedAt : Bool) (e : String)
    (offset : Int) (total : Nat)
    (hg : getPrimaryKeyColumn db = (.ok pkColumn, db1)) (hpk : pkColumn ≠ "")
    (hu : hasUpdatedAtColumn db1 = (hasUpdatedAt, db2))
    (hA : phaseA tableName pkColumn fuel (beginSync s tableName) db2
      (statusOnEntry s tableName).LastSyncID 0 = some (.failed e offset total, s1, db3)) :
    ∃ st, syncTable fuel tableName s db
        = some (updateTableStatus s1 tableName "error" e offset total, db3) ∧
      (updateTableStatus s1 tableName "error" e offset total).tableStatus.get? tableName
        = some st ∧
      st.Status = "error" ∧ st.LastSyncID = offset ∧ st.TotalSynced = total ∧
      st.ErrorMessage = e := by
  obtain ⟨st, hst, hstatus, hlast, htotal, _, hmsg⟩ := updateTableStatus_get? s1 tableName
    "error" e offset total
  refine ⟨st, ?_, hst, hstatus, hlast, htotal, hmsg⟩
  rw [syncTable_of_preamble fuel tableName s db db1 db2 pkColumn hasUpdatedAt hg hpk hu, hA]

/-- C11, counterexample. Scenario B: the ledger has `items` at `TotalSynced = 2`; the
source has updated row 1. The tick finds no new row in step 1, upserts the changed row
in step 2 and ends with status `success`: one upsert is issued, and `TotalSynced` is 1
afterwards, not 3, so it has decreased. A further tick with nothing to do leaves it
at 0. -/
theorem totalSynced_not_cumulative :
    engineAfterFirstTick.tableStatus.get? "items"
      = some ⟨"items", 2, 2, 900, "success", ""⟩ ∧
    (syncTable 2 "items" engineAfterFirstTick scenarioB).map
        (fun r => (r.1.tableStatus, r.2.target, upsertCount r.2.log))
      = some ([("items", ⟨"items", 2, 1, 1000, "success", ""⟩)],
          [[("id", .int64 1), ("name", .str "A")], [("id", .int64 2), ("name", .str "b")]],
          1) ∧
    (syncTable 2 "items" engineAfterFirstTick scenarioB).bind (fun r =>
        (syncTable 2 "items" r.1 r.2).map (fun r2 => r2.1.tableStatus))
      = some [("items", ⟨"items", 2, 0, 1000, "success", ""⟩)] := by
  decide

/-- A tick on a table with a primary key whose source keys are distinct non-zero integers
that the engine reads back from the fetched rows, with a batch size of at least 1, the engine running and not
being stopped, the target table existing and no database call failing: `syncTable`
returns with status `success`, and `TotalSynced` after the tick is the number of upserts
issued during the tick. -/
theorem syncTable_healthy_count (tableName : String) (s : SyncService) (db : TableDb)
    (fuel : Nat) (hpk : db.pkColumn ≠ "")
    (hnd : (db.source.map (fun r => r.key)).Nodup)
    (h0 : ∀ r ∈ db.source, r.key ≠ 0)
    (hint : ∀ r ∈ db.source, ∀ lastID : Int,
      updateLastID db.pkColumn r.cols lastID = r.key)
    (hB : 1 ≤ s.batchSize) (hrun : s.isRunning = true) (hstop : s.stopAfter = none)
    (hf : db.faults = []) (hexists : db.targetExists = true)
    (hfuel : db.source.length + 1 ≤ fuel) :
    ∃ s' db' st, syncTable fuel tableName s db = some (s', db') ∧
      s'.tableStatus.get? tableName = some st ∧ st.Status = "success" ∧
      upsertCount db'.log = upsertCount db.log + st.TotalSynced := by
  have hbs : s.batchSize = ((s.batchSize.toNat : Nat) : Int) :=
    (Int.toNat_of_nonneg (le_trans (by decide) hB)).symm
  have hBn : 1 ≤ s.batchSize.toNat := by omega
  have hfuel' : (rowsAbove db (statusOnEntry s tableName).LastSyncID).length + 1 ≤ fuel :=
    le_trans (Nat.succ_le_succ (rowsAbove_length_le db _)) hfuel
  obtain ⟨logA, hA⟩ := phaseA_spec tableName db.pkColumn (beginSync s tableName)
    s.batchSize.toNat hBn hrun hstop hbs _ fuel
    ((db.after db.target (db.log ++ [DbCall.getPrimaryKeyColumn])).after
      (db.after db.target (db.log ++ [DbCall.getPrimaryKeyColumn])).target
      ((db.after db.target (db.log ++ [DbCall.getPrimaryKeyColumn])).log
        ++ [DbCall.hasUpdatedAtColumn]))
    (statusOnEntry s tableName).LastSyncID 0 hf hexists hnd h0 hint rfl hfuel'
  have hrows : rowsAbove ((db.after db.target (db.log ++ [DbCall.getPrimaryKeyColumn])).after
      (db.after db.target (db.log ++ [DbCall.getPrimaryKeyColumn])).target
      ((db.after db.target (db.log ++ [DbCall.getPrimaryKeyColumn])).log
        ++ [DbCall.hasUpdatedAtColumn])) (statusOnEntry s tableName).LastSyncID
      = rowsAbove db (statusOnEntry s tableName).LastSyncID := rfl
  rw [hrows] at hA
  obtain ⟨hfA, htA, k, hk, hdone⟩ := phaseA_upserts tableName db.pkColumn fuel
    (beginSync s tableName)
    ((db.after db.target (db.log ++ [DbCall.getPrimaryKeyColumn])).after
      (db.after db.target (db.log ++ [DbCall.getPrimaryKeyColumn])).target
      ((db.after db.target (db.log ++ [DbCall.getPrimaryKeyColumn])).log
        ++ [DbCall.hasUpdatedAtColumn]))
    (statusOnEntry s tableName).LastSyncID 0 _ _ _ hf hexists hA
  have hkA := hdone _ _ rfl
  obtain ⟨k2, hk2, hc2⟩ := phaseB_upserts tableName db.pkColumn (beginSync s tableName) _
    db.hasUpdatedAt (statusOnEntry s tableName).LastSyncTime
    (0 + (rowsAbove db (statusOnEntry s tableName).LastSyncID).length) hfA htA
  obtain ⟨st, hsync, hst, hstatus, _, htotal, _⟩ := syncTable_of_done fuel tableName s _ db
    _ _ _ db.pkColumn db.hasUpdatedAt _ _ (getPrimaryKeyColumn_ok db hf) hpk
    (hasUpdatedAtColumn_ok (db.after db.target (db.log ++ [DbCall.getPrimaryKeyColumn])) hf) hA
  have hpre : upsertCount ((db.after db.target (db.log ++ [DbCall.getPrimaryKeyColumn])).after
      (db.after db.target (db.log ++ [DbCall.getPrimaryKeyColumn])).target
      ((db.after db.target (db.log ++ [DbCall.getPrimaryKeyColumn])).log
        ++ [DbCall.hasUpdatedAtColumn])).log = upsertCount db.log := by
    show upsertCount (db.log ++ _ ++ _) = _
    rw [upsertCount_append, upsertCount_append]
    rfl
  refine ⟨_, _, st, hsync, hst, hstatus, ?_⟩
  rw [hc2, htotal, hk2, hk, hpre, hkA]
  omega

/-- A tick in which no database call fails, on whatever table and from whatever engine
state: if `syncTable` returns, the table has a record, and if its status is `success`,
its `TotalSynced` is the number of upserts issued during the tick. -/
theorem syncTable_count_of_success (tableName : String) (s : SyncService) (db : TableDb)
    (fuel : Nat) (hf : db.faults = []) (hexists : db.targetExists = true)
    (s' : SyncService) (db' : TableDb) (h : syncTable fuel tableName s db = some (s', db')) :
    ∃ st, s'.tableStatus.get? tableName = some st ∧
      (st.Status = "success" → upsertCount db'.log = upsertCount db.log + st.TotalSynced) := by
  by_cases hpk : db.pkColumn = ""
  · have hsync : syncTable fuel tableName s db
        = some (updateTableStatus (beginSync s tableName) tableName "skipped" "no primary key"
            (statusOnEntry s tableName).LastSyncID 0,
            db.after db.target (db.log ++ [DbCall.getPrimaryKeyColumn])) := by
      unfold syncTable
      simp only
      rw [getPrimaryKeyColumn_ok db hf]
      simp only
      rw [if_pos hpk]
    rw [hsync] at h
    simp only [Option.some.injEq, Prod.mk.injEq] at h
    obtain ⟨st, hst, hstatus, _, _, _, _⟩ := updateTableStatus_get? (beginSync s tableName)
      tableName "skipped" "no primary key" (statusOnEntry s tableName).LastSyncID 0
    rw [h.1] at hst
    refine ⟨st, hst, ?_⟩
    intro hs
    rw [hstatus] at hs
    exact absurd hs (by decide)
  · have hpre := syncTable_of_preamble fuel tableName s db _ _ db.pkColumn db.hasUpdatedAt
      (getPrimaryKeyColumn_ok db hf) hpk
      (hasUpdatedAtColumn_ok (db.after db.target (db.log ++ [DbCall.getPrimaryKeyColumn])) hf)
    rw [hpre] at h
    rcases hA : phaseA tableName db.pkColumn fuel (beginSync s tableName)
        ((db.after db.target (db.log ++ [DbCall.getPrimaryKeyColumn])).after
          (db.after db.target (db.log ++ [DbCall.getPrimaryKeyColumn])).target
          ((db.after db.target (db.log ++ [DbCall.getPrimaryKeyColumn])).log
            ++ [DbCall.hasUpdatedAtColumn]))
        (statusOnEntry s tableName).LastSyncID 0 with _ | ⟨r, s1, db3⟩
    · rw [hA] at h
      cases h
    · rw [hA] at h
      cases r with
      | failed e offset total =>
        simp only [Option.some.injEq, Prod.mk.injEq] at h
        obtain ⟨st, hst, hstatus, _, _, _, _⟩ := updateTableStatus_get? s1 tableName
          "error" e offset total
        rw [h.1] at hst
        refine ⟨st, hst, ?_⟩
        intro hs
        rw [hstatus] at hs
        exact absurd hs (by decide)
      | done offset total =>
        simp only [Option.some.injEq, Prod.mk.injEq] at h
        obtain ⟨hfA, htA, k, hk, hdone⟩ := phaseA_upserts tableName db.pkColumn fuel
          (beginSync s tableName)
          ((db.after db.target (db.log ++ [DbCall.getPrimaryKeyColumn])).after
            (db.after db.target (db.log ++ [DbCall.getPrimaryKeyColumn])).target
            ((db.after db.target (db.log ++ [DbCall.getPrimaryKeyColumn])).log
              ++ [DbCall.hasUpdatedAtColumn]))
          (statusOnEntry s tableName).LastSyncID 0 _ _ _ hf hexists hA
        have hkA := hdone _ _ rfl
        obtain ⟨k2, hk2, hc2⟩ := phaseB_upserts tableName db.pkColumn s1 db3
          db.hasUpdatedAt (statusOnEntry s tableName).LastSyncTime total hfA htA
        obtain ⟨st, hst, _, _, htotal, _, _⟩ := updateTableStatus_get? s1 tableName
          "success" "" offset (phaseB tableName db.pkColumn s1 db3 db.hasUpdatedAt
            (statusOnEntry s tableName).LastSyncTime total).1
        rw [h.1] at hst
        refine ⟨st, hst, ?_⟩
        intro _
        have hpre2 : upsertCount ((db.after db.target
            (db.log ++ [DbCall.getPrimaryKeyColumn])).after
            (db.after db.target (db.log ++ [DbCall.getPrimaryKeyColumn])).target
            ((db.after db.target (db.log ++ [DbCall.getPrimaryKeyColumn])).log
              ++ [DbCall.hasUpdatedAtColumn])).log = upsertCount db.log := by
          show upsertCount (db.log ++ _ ++ _) = _
          rw [upsertCount_append, upsertCount_append]
          rfl
        rw [← h.2, hc2, htotal, hk2, hk, hpre2, hkA]
        omega

/-- C11, amended. `TotalSynced` is the count of the last tick. Take a tick in which no
database call fails, on whatever table, from whatever engine state and ledger entry. If
`syncTable` returns with status `success`, then `TotalSynced` after the tick is the
number of upserts issued during the tick, whatever it was before. And `syncTable` does
return with status `success` when the table has a primary key, its source keys are
distinct non-zero integers that the engine reads back from the fetched rows (the type
switch of `upsertDataToBackup` stores the key of every row: the key reaches Go as an `int`
or `int64`, or as text that `Sscanf` reads as the key), the batch size is at least 1 and
the engine is running and not being stopped (for every bound of at least the number of
source rows plus one); the table may or may not have `updated_at`, and checksum sync may
be on or off. -/
theorem syncTable_totalSynced_per_tick (tableName : String) (s : SyncService) (db : TableDb)
    (fuel : Nat) (hf : db.faults = []) (hexists : db.targetExists = true) :
    (∀ (s' : SyncService) (db' : TableDb), syncTable fuel tableName s db = some (s', db') →
      ∃ st, s'.tableStatus.get? tableName = some st ∧
        (st.Status = "success" →
          upsertCount db'.log = upsertCount db.log + st.TotalSynced)) ∧
    (db.pkColumn ≠ "" → (db.source.map (fun r => r.key)).Nodup →
      (∀ r ∈ db.source, r.key ≠ 0) →
      (∀ r ∈ db.source, ∀ lastID : Int, updateLastID db.pkColumn r.cols lastID = r.key) →
      1 ≤ s.batchSize → s.isRunning = true → s.stopAfter = none →
      db.source.length + 1 ≤ fuel →
      ∃ s' db' st, syncTable fuel tableName s db = some (s', db') ∧
        s'.tableStatus.get? tableName = some st ∧ st.Status = "success" ∧
        upsertCount db'.log = upsertCount db.log + st.TotalSynced) :=
  ⟨fun s' db' h => syncTable_count_of_success tableName s db fuel hf hexists s' db' h,
    fun hpk hnd h0 hint hB hrun hstop hfuel =>
      syncTable_healthy_count tableName s db fuel hpk hnd h0 hint hB hrun hstop hf hexists
        hfuel⟩

/-- Witness of C11 (amended) on scenario B. -/
theorem syncTable_totalSynced_per_tick_witness :
    (scenarioB.faults = [] ∧ scenarioB.targetExists = true) ∧
    (∀ (s' : SyncService) (db' : TableDb),
      syncTable 3 "items" engineAfterFirstTick scenarioB = some (s', db') →
      ∃ st, s'.tableStatus.get? "items" = some st ∧
        (st.Status = "success" →
          upsertCount db'.log = upsertCount scenarioB.log + st.TotalSynced)) ∧
    ∃ s' db' st, syncTable 3 "items" engineAfterFirstTick scenarioB = some (s', db') ∧
      s'.tableStatus.get? "items" = some st ∧ st.Status = "success" ∧
      upsertCount db'.log = upsertCount scenarioB.log + st.TotalSynced :=
  ⟨⟨rfl, rfl⟩,
    (syncTable_totalSynced_per_tick "items" engineAfterFirstTick scenarioB 3 rfl rfl).1,
    (syncTable_totalSynced_per_tick "items" engineAfterFirstTick scenarioB 3 rfl rfl).2
      (by decide) (by decide) (by decide)
      (fun r hr l => updateLastID_of_int64 "id" r.cols r.key
        ((by decide : ∀ r ∈ scenarioB.source, r.cols.get? "id" = some (.int64 r.key)) r hr) l)
      (by decide) rfl rfl (by decide)⟩

/-- When an upsert of step 2 fails, the rows that step 2 has upserted before it are not
counted: the tick ends with status `success` and `TotalSynced = 0`, although row 1 has
been written to the target. -/
theorem totalSynced_skips_failed_batch :
    (syncTable 2 "items" engineAfterFirstTick lostInSecondUpsert).map
        (fun r => (r.1.tableStatus, r.2.target, upsertCount r.2.log))
      = some ([("items", ⟨"items", 2, 0, 1000, "success", ""⟩)],
          [[("id", .int64 1), ("name", .str "A")], [("id", .int64 2), ("name", .str "b")]],
          2) := by
  decide

/-- With a batch size of at least 2 the table whose only row has key 0 is synced by the
first tick: the row is fetched with `id >= 0` and upserted, the batch is not full, step 1
ends, and `syncTable` ends with status `success` and watermark 0. -/
theorem syncTable_key_zero_larger_batch (B : Int) (hB : 2 ≤ B) (fuel : Nat) :
    ∃ s' db' st, syncTable (fuel + 1) "items" (runningEngine B) zeroKeyTable = some (s', db') ∧
      s'.tableStatus.get? "items" = some st ∧ st.Status = "success" ∧ st.LastSyncID = 0 ∧
      st.TotalSynced = 1 ∧
      db'.target = [[("id", .int64 0), ("name", .str "z")]] := by
  have htake : (([itemRow 0 "z"].filter (fun r => decide (r.key ≥ 0))).insertionSort
      keyLe).take B.toNat = [itemRow 0 "z"] := by
    have h1 : ([itemRow 0 "z"].filter (fun r => decide (r.key ≥ 0))).insertionSort keyLe
        = [itemRow 0 "z"] := by decide
    rw [h1]
    obtain ⟨n, hn⟩ : ∃ n, B.toNat = n + 1 := ⟨B.toNat - 1, by omega⟩
    rw [hn]
    simp
  have hA : phaseA "items" "id" (fuel + 1) (beginSync (runningEngine B) "items")
      ((zeroKeyTable.after zeroKeyTable.target
        (zeroKeyTable.log ++ [DbCall.getPrimaryKeyColumn])).after
        (zeroKeyTable.after zeroKeyTable.target
          (zeroKeyTable.log ++ [DbCall.getPrimaryKeyColumn])).target
        ((zeroKeyTable.after zeroKeyTable.target
          (zeroKeyTable.log ++ [DbCall.getPrimaryKeyColumn])).log
          ++ [DbCall.hasUpdatedAtColumn]))
      (statusOnEntry (runningEngine B) "items").LastSyncID 0
      = some (.done 0 1, beginSync (runningEngine B) "items",
          { zeroKeyTable with
            target := [[("id", .int64 0), ("name", .str "z")]],
            log := [DbCall.getPrimaryKeyColumn, DbCall.hasUpdatedAtColumn,
              DbCall.fetchData 0 B] ++
              upsertCalls "items" "id" [[("id", .int64 0), ("name", .str "z")]] }) := by
    unfold phaseA
    have hisr : (beginSync (runningEngine B) "items").IsRunning
        = (true, beginSync (runningEngine B) "items") := rfl
    rw [hisr]
    simp only
    have hfetch : fetchDataFromMaster
        ((zeroKeyTable.after zeroKeyTable.target
          (zeroKeyTable.log ++ [DbCall.getPrimaryKeyColumn])).after
          (zeroKeyTable.after zeroKeyTable.target
            (zeroKeyTable.log ++ [DbCall.getPrimaryKeyColumn])).target
          ((zeroKeyTable.after zeroKeyTable.target
            (zeroKeyTable.log ++ [DbCall.getPrimaryKeyColumn])).log
            ++ [DbCall.hasUpdatedAtColumn]))
        (statusOnEntry (runningEngine B) "items").LastSyncID
        (beginSync (runningEngine B) "items").batchSize
        = (.ok [[("id", .int64 0), ("name", .str "z")]],
            { zeroKeyTable with
              log := [DbCall.getPrimaryKeyColumn, DbCall.hasUpdatedAtColumn,
                DbCall.fetchData 0 B] }) := by
      unfold fetchDataFromMaster
      rw [call_ok _ _ rfl]
      simp only
      have hB' : ¬ (beginSync (runningEngine B) "items").batchSize < 0 := by
        show ¬ B < 0
        omega
      rw [if_neg hB']
      have hz : (statusOnEntry (runningEngine B) "items").LastSyncID = 0 := rfl
      rw [hz]
      simp only [if_true]
      have hsrc : zeroKeyTable.source = [itemRow 0 "z"] := rfl
      show (Except.ok (List.map (fun r => r.cols)
        (List.take B.toNat (List.insertionSort keyLe
          (List.filter (fun r => decide (r.key ≥ 0)) [itemRow 0 "z"])))), _) = _
      rw [htake]
      rfl
    rw [hfetch]
    simp only
    rw [if_neg (by decide),
      upsertDataToBackup_ok _ "items" "id" [[("id", .int64 0), ("name", .str "z")]] rfl rfl
        (by simp)]
    simp only
    have hlt : ((([[("id", Value.int64 0), ("name", Value.str "z")]] : List Row).length : Nat)
        : Int) < (beginSync (runningEngine B) "items").batchSize := by
      show ((1 : Nat) : Int) < B
      omega
    rw [if_pos hlt]
    rfl
  obtain ⟨st, hsync, hst, hstatus, hlast, htotal, _⟩ := syncTable_of_done (fuel + 1) "items"
    (runningEngine B) _ zeroKeyTable _ _ _ "id" false 0 1
    (getPrimaryKeyColumn_ok zeroKeyTable rfl) (by decide)
    (hasUpdatedAtColumn_ok (zeroKeyTable.after zeroKeyTable.target
      (zeroKeyTable.log ++ [DbCall.getPrimaryKeyColumn])) rfl) hA
  refine ⟨_, _, st, hsync, hst, hstatus, hlast, ?_, ?_⟩
  · rw [htotal]
    rfl
  · rfl

theorem phaseA_of_fullBatch (tableName pkColumn : String) (σ σ1 : LoopState) (fuel : Nat)
    (h : fullBatch tableName pkColumn σ = some σ1) :
    phaseA tableName pkColumn (fuel + 1) σ.1 σ.2.1 σ.2.2.1 σ.2.2.2
      = phaseA tableName pkColumn fuel σ1.1 σ1.2.1 σ1.2.2.1 σ1.2.2.2 := by
  obtain ⟨s, db, offset, total⟩ := σ
  unfold fullBatch at h
  conv_lhs => unfold phaseA
  simp only at h ⊢
  rcases hrun : s.IsRunning with ⟨b, s1⟩
  rw [hrun] at h
  cases b with
  | false => simp at h
  | true =>
    simp only at h ⊢
    rcases hfetch : fetchDataFromMaster db offset s1.batchSize with ⟨res, dbf⟩
    rw [hfetch] at h
    cases res with
    | error e => simp at h
    | ok rows =>
      simp only at h ⊢
      by_cases hlen : rows.length = 0
      · rw [if_pos hlen] at h
        cases h
      · rw [if_neg hlen] at h ⊢
        rcases hup : upsertDataToBackup dbf tableName pkColumn rows with
          ⟨⟨synced, lastID, err⟩, dbu⟩
        rw [hup] at h
        cases err with
        | some e => simp at h
        | none =>
          simp only at h ⊢
          by_cases hlt : (rows.length : Int) < s1.batchSize
          · rw [if_pos hlt] at h
            cases h
          · rw [if_neg hlt] at h ⊢
            simp only [Option.some.injEq] at h
            rw [← h]

theorem phaseA_of_fullBatches (tableName pkColumn : String) (fuel : Nat) :
    ∀ (n : Nat) (σ σ1 : LoopState), fullBatches tableName pkColumn n σ = some σ1 →
      phaseA tableName pkColumn (n + fuel) σ.1 σ.2.1 σ.2.2.1 σ.2.2.2
        = phaseA tableName pkColumn fuel σ1.1 σ1.2.1 σ1.2.2.1 σ1.2.2.2 := by
  intro n
  induction n with
  | zero =>
    intro σ σ1 h
    simp only [fullBatches, Option.some.injEq] at h
    rw [h, Nat.zero_add]
  | succ n ih =>
    intro σ σ1 h
    unfold fullBatches at h
    rcases hb : fullBatch tableName pkColumn σ with _ | σ2
    · rw [hb] at h
      cases h
    · rw [hb] at h
      have : n + 1 + fuel = (n + fuel) + 1 := by omega
      rw [this, phaseA_of_fullBatch tableName pkColumn σ σ2 (n + fuel) hb]
      exact ih σ2 σ1 h

/-- An iteration of the loop whose fetch fails ends the loop with the error, at the
watermark and count of the top of the iteration. -/
theorem phaseA_fetch_fails (tableName pkColumn : String) (fuel : Nat) (s s1 : SyncService)
    (db dbf : TableDb) (offset : Int) (total : Nat) (e : String)
    (hrun : s.IsRunning = (true, s1))
    (hfetch : fetchDataFromMaster db offset s1.batchSize = (.error e, dbf)) :
    phaseA tableName pkColumn (fuel + 1) s db offset total
      = some (.failed e offset total, s1, dbf) := by
  unfold phaseA
  rw [hrun]
  simp only
  rw [hfetch]

/-- An iteration of the loop in which an upsert fails ends the loop with the error, at
the watermark and count of the top of the iteration. -/
theorem phaseA_upsert_fails (tableName pkColumn : String) (fuel : Nat) (s s1 : SyncService)
    (db dbf dbu : TableDb) (offset : Int) (total : Nat) (rows : List Row) (synced : Nat)
    (lastID : Int) (e : String)
    (hrun : s.IsRunning = (true, s1))
    (hfetch : fetchDataFromMaster db offset s1.batchSize = (.ok rows, dbf))
    (hne : rows ≠ [])
    (hup : upsertDataToBackup dbf tableName pkColumn rows = ((synced, lastID, some e), dbu)) :
    phaseA tableName pkColumn (fuel + 1) s db offset total
      = some (.failed e offset total, s1, dbu) := by
  unfold phaseA
  rw [hrun]
  simp only
  rw [hfetch]
  simp only
  rw [if_neg (fun h => hne (List.length_eq_zero.1 h)), hup]

theorem upsertLoop_error_prefix (tableName pkColumn : String) (rows : List Row) :
    ∀ (synced : Nat) (lastID : Int) (db : TableDb) (a : Nat) (b : Int) (e : String)
      (db' : TableDb),
      upsertLoop tableName pkColumn rows synced lastID db = ((a, b, some e), db') →
      ∃ x, e = "failed to upsert row: " ++ x := by
  induction rows with
  | nil =>
    intro synced lastID db a b e db' h
    simp [upsertLoop] at h
  | cons row rest ih =>
    intro synced lastID db a b e db' h
    unfold upsertLoop at h
    rcases hc : db.call (.upsert (upsertQuery tableName pkColumn row) (row.map Prod.snd)) with
      ⟨f, db1⟩
    rw [hc] at h
    cases f with
    | some x =>
      simp only [Prod.mk.injEq, Option.some.injEq] at h
      exact ⟨x, h.1.2.2.symm⟩
    | none =>
      simp only at h
      by_cases ht : db1.targetExists = true
      · rw [if_pos ht] at h
        exact ih _ _ _ _ _ _ _ h
      · rw [if_neg ht] at h
        simp only [Prod.mk.injEq, Option.some.injEq] at h
        exact ⟨_, h.1.2.2.symm⟩

theorem upsert_error_ne_empty (db db' : TableDb) (tableName pkColumn : String)
    (rows : List Row) (a : Nat) (b : Int) (e : String)
    (h : upsertDataToBackup db tableName pkColumn rows = ((a, b, some e), db')) : e ≠ "" := by
  unfold upsertDataToBackup at h
  by_cases hlen : rows.length = 0
  · rw [if_pos hlen] at h
    simp at h
  · rw [if_neg hlen] at h
    obtain ⟨x, rfl⟩ := upsertLoop_error_prefix _ _ _ _ _ _ _ _ _ _ h
    intro he
    have := congrArg String.length he
    rw [String.length_append] at this
    have h2 : "failed to upsert row: ".length = 22 := by decide
    rw [h2] at this
    simp at this

/-- C13, counterexample. Scenario A with batch size 2: step 1 copies the three rows, then
the first query of the checksum scan of step 2 fails. The failure is logged only:
`syncTable` ends with status `success` and an empty error message. -/
theorem phaseB_error_ends_in_success :
    (fetchChangedDataByChecksum
        { scenarioA with faults := [some "connection lost"] } "items" "id").1
      = .error ("failed to get table columns: failed to get columns for table items: "
          ++ "connection lost") ∧
    (syncTable 4 "items" (runningEngine 2) lostInScan).map
        (fun r => (r.1.tableStatus, r.2.log.getLast?, r.2.faults))
      = some ([("items", ⟨"items", 3, 3, 1000, "success", ""⟩)],
          some .getTableColumns, []) :=
  ⟨rfl, by decide⟩

/-- C13, amended. Let the primary-key lookup give a name, and let the loop of step 1 have
run `n` full batches without error, reaching the watermark `offset` and the count
`total`, with the engine still running. If the next fetch fails, or the next fetch
succeeds with a non-empty batch and an upsert of that batch fails, then `syncTable`
returns (for every bound above `n`) with status `error`, the message of the error,
`LastSyncID = offset` and `TotalSynced = total`; the message of a failed upsert is never
empty. An error in step 2 does not do this: whenever step 1 ends without error,
`syncTable` returns with status `success`, an empty message and the watermark that step
1 reached, whatever happens in step 2. -/
theorem syncTable_error_handling (tableName : String) (s : SyncService)
    (db db1 db2 : TableDb) (pkColumn : String) (hasUpdatedAt : Bool)
    (hg : getPrimaryKeyColumn db = (.ok pkColumn, db1)) (hpk : pkColumn ≠ "")
    (hu : hasUpdatedAtColumn db1 = (hasUpdatedAt, db2)) :
    (∀ (n : Nat) (s' s1 : SyncService) (db' : TableDb) (offset : Int) (total : Nat),
      fullBatches tableName pkColumn n
        (beginSync s tableName, db2, (statusOnEntry s tableName).LastSyncID, 0)
        = some (s', db', offset, total) →
      s'.IsRunning = (true, s1) →
      (∀ (e : String) (dbf : TableDb),
        fetchDataFromMaster db' offset s1.batchSize = (.error e, dbf) →
        ∀ fuel, n + 1 ≤ fuel →
          ∃ s2 st, syncTable fuel tableName s db = some (s2, dbf) ∧
            s2.tableStatus.get? tableName = some st ∧ st.Status = "error" ∧
            st.ErrorMessage = e ∧ st.LastSyncID = offset ∧ st.TotalSynced = total) ∧
      (∀ (rows : List Row) (dbf dbu : TableDb) (synced : Nat) (lastID : Int) (e : String),
        fetchDataFromMaster db' offset s1.batchSize = (.ok rows, dbf) → rows ≠ [] →
        upsertDataToBackup dbf tableName pkColumn rows = ((synced, lastID, some e), dbu) →
        ∀ fuel, n + 1 ≤ fuel →
          ∃ s2 st, syncTable fuel tableName s db = some (s2, dbu) ∧
            s2.tableStatus.get? tableName = some st ∧ st.Status = "error" ∧
            st.ErrorMessage = e ∧ e ≠ "" ∧ st.LastSyncID = offset ∧
            st.TotalSynced = total)) ∧
    (∀ (fuel : Nat) (s1 : SyncService) (db3 : TableDb) (offset : Int) (total : Nat),
      phaseA tableName pkColumn fuel (beginSync s tableName) db2
        (statusOnEntry s tableName).LastSyncID 0 = some (.done offset total, s1, db3) →
      ∃ s2 db4 st, syncTable fuel tableName s db = some (s2, db4) ∧
        s2.tableStatus.get? tableName = some st ∧ st.Status = "success" ∧
        st.ErrorMessage = "" ∧ st.LastSyncID = offset) := by
  refine ⟨?_, ?_⟩
  · intro n s' s1 db' offset total hreach hrun
    have hphase : ∀ fuel, n + 1 ≤ fuel → ∀ r,
        phaseA tableName pkColumn (fuel - (n + 1) + 1) s' db' offset total = some r →
        phaseA tableName pkColumn fuel (beginSync s tableName) db2
          (statusOnEntry s tableName).LastSyncID 0 = some r := by
      intro fuel hfuel r hr
      have h := phaseA_of_fullBatches tableName pkColumn (fuel - (n + 1) + 1) n _ _ hreach
      simp only at h
      have e : n + (fuel - (n + 1) + 1) = fuel := by omega
      rw [e] at h
      rw [h]
      exact hr
    refine ⟨?_, ?_⟩
    · intro e dbf hfetch fuel hfuel
      have hA := hphase fuel hfuel _
        (phaseA_fetch_fails tableName pkColumn _ s' s1 db' dbf offset total e hrun hfetch)
      obtain ⟨st, hsync, hst, hstatus, hlast, htotal, hmsg⟩ := syncTable_of_failed fuel
        tableName s s1 db db1 db2 dbf pkColumn hasUpdatedAt e offset total hg hpk hu hA
      exact ⟨_, st, hsync, hst, hstatus, hmsg, hlast, htotal⟩
    · intro rows dbf dbu synced lastID e hfetch hne hup fuel hfuel
      have hA := hphase fuel hfuel _
        (phaseA_upsert_fails tableName pkColumn _ s' s1 db' dbf dbu offset total rows synced
          lastID e hrun hfetch hne hup)
      obtain ⟨st, hsync, hst, hstatus, hlast, htotal, hmsg⟩ := syncTable_of_failed fuel
        tableName s s1 db db1 db2 dbu pkColumn hasUpdatedAt e offset total hg hpk hu hA
      exact ⟨_, st, hsync, hst, hstatus, hmsg,
        upsert_error_ne_empty dbf dbu tableName pkColumn rows synced lastID e hup, hlast,
        htotal⟩
  · intro fuel s1 db3 offset total hA
    obtain ⟨st, hsync, hst, hstatus, hlast, _, hmsg⟩ := syncTable_of_done fuel tableName s s1
      db db1 db2 db3 pkColumn hasUpdatedAt offset total hg hpk hu hA
    exact ⟨_, _, st, hsync, hst, hstatus, hmsg, hlast⟩

/-- Witness of C13 (amended): scenario A with batch size 2 when the second fetch of step 1
fails. The first batch has brought the watermark to 2; the run ends with status `error`,
the message of the failed fetch, `LastSyncID = 2` and `TotalSynced = 2`. -/
theorem syncTable_error_handling_witness :
    ∃ s2 st, syncTable 4 "items" (runningEngine 2) lostAfterBatch
        = some (s2, { lostAfterBatchState with
            faults := [], log := lostAfterBatchState.log ++ [.fetchData 2 2] }) ∧
      s2.tableStatus.get? "items" = some st ∧ st.Status = "error" ∧
      st.ErrorMessage = "connection lost" ∧ st.LastSyncID = 2 ∧ st.TotalSynced = 2 :=
  ((syncTable_error_handling "items" (runningEngine 2) lostAfterBatch
      (getPrimaryKeyColumn lostAfterBatch).2
      (hasUpdatedAtColumn (getPrimaryKeyColumn lostAfterBatch).2).2 "id" false
      rfl (by decide) rfl).1
    1 (beginSync (runningEngine 2) "items") (beginSync (runningEngine 2) "items")
    lostAfterBatchState 2 2 (by rfl) rfl).1
    "connection lost"
    { lostAfterBatchState with
      faults := [], log := lostAfterBatchState.log ++ [.fetchData 2 2] }
    (by rfl) 4 (by decide)

/-- C20, counterexample. The running flag is false and `syncTable` runs on the table of
scenario B. Step 1 is skipped, but step 2 is not: the checksum scan reads the rows of the
source and of the target, and the changed row is upserted into the target. -/
theorem stopped_syncTable_runs_step_two :
    stoppedEngine.isRunning = false ∧
    (syncTable 1 "items" stoppedEngine scenarioB).map
        (fun r => (r.1.isRunning, r.2.log, r.2.target))
      = some (false,
          [.getPrimaryKeyColumn, .hasUpdatedAtColumn, .getTableColumns, .checksumMaster,
           .checksumBackup,
           .upsert ("INSERT INTO `items` (`id`, `name`) VALUES (?, ?) " ++
              "ON DUPLICATE KEY UPDATE `name` = VALUES(`name`)")
             [.int64 1, .str "A"]],
          [[("id", .int64 1), ("name", .str "A")], [("id", .int64 2), ("name", .str "b")]]) := by
  decide

/-- C20, amended. While the running flag is false (and no stop is under way) the engine
starts no replication work: `syncAllTables` returns without calling `syncTable` for any
table, so no call reaches either database; and the loop of step 1 of `syncTable` ends at
once, without a fetch or an upsert. Step 2 of `syncTable` has no such check: after the
two catalog queries, `syncTable` runs step 2 as it would with the flag set, and ends
with status `success` at the old watermark. -/
theorem stopped_engine_work (s : SyncService) (hrun : s.isRunning = false)
    (hstop : s.stopAfter = none) :
    (∀ (fuel : Nat) (getAllTables : Except String (List String))
        (getForeignKeys : String → Except String (List ForeignKey))
        (order1 order2 : List String) (world : String → TableDb),
      syncAllTables fuel getAllTables getForeignKeys order1 order2 s world
        = some (s, world)) ∧
    (∀ (fuel : Nat) (tableName pkColumn : String) (db : TableDb) (offset : Int) (total : Nat),
      phaseA tableName pkColumn (fuel + 1) s db offset total
        = some (.done offset total, s, db)) ∧
    (∀ (fuel : Nat) (tableName pkColumn : String) (db db1 db2 : TableDb)
        (hasUpdatedAt : Bool),
      getPrimaryKeyColumn db = (.ok pkColumn, db1) → pkColumn ≠ "" →
      hasUpdatedAtColumn db1 = (hasUpdatedAt, db2) →
      syncTable (fuel + 1) tableName s db
        = some (updateTableStatus (beginSync s tableName) tableName "success" ""
            (statusOnEntry s tableName).LastSyncID
            (phaseB tableName pkColumn (beginSync s tableName) db2 hasUpdatedAt
              (statusOnEntry s tableName).LastSyncTime 0).1,
            (phaseB tableName pkColumn (beginSync s tableName) db2 hasUpdatedAt
              (statusOnEntry s tableName).LastSyncTime 0).2)) := by
  have hisr : ∀ s0 : SyncService, s0.isRunning = false → s0.stopAfter = none →
      s0.IsRunning = (false, s0) := by
    intro s0 h1 h2
    unfold SyncService.IsRunning
    rw [h2, h1]
  have hphase : ∀ (s0 : SyncService), s0.isRunning = false → s0.stopAfter = none →
      ∀ (fuel : Nat) (tableName pkColumn : String) (db : TableDb) (offset : Int) (total : Nat),
      phaseA tableName pkColumn (fuel + 1) s0 db offset total
        = some (.done offset total, s0, db) := by
    intro s0 h1 h2 fuel tableName pkColumn db offset total
    unfold phaseA
    rw [hisr s0 h1 h2]
  refine ⟨?_, hphase s hrun hstop, ?_⟩
  · intro fuel getAllTables getForeignKeys order1 order2 world
    unfold syncAllTables
    cases GetAllTablesWithDependencies getAllTables getForeignKeys order1 order2 with
    | error e => rfl
    | ok tableDeps =>
      cases tableDeps with
      | nil => rfl
      | cons dep rest =>
        simp only [syncTables]
        rw [hisr s hrun hstop]
  · intro fuel tableName pkColumn db db1 db2 hasUpdatedAt hg hpk hu
    have hA := hphase (beginSync s tableName) hrun hstop fuel tableName pkColumn db2
      (statusOnEntry s tableName).LastSyncID 0
    obtain ⟨st, hsync, _⟩ := syncTable_of_done (fuel + 1) tableName s _ db db1 db2 db2 pkColumn
      hasUpdatedAt _ _ hg hpk hu hA
    exact hsync

/-- Witness of C20 (amended) on the stopped engine of scenario B. -/
theorem stopped_engine_work_witness :
    (∀ (fuel : Nat) (getAllTables : Except String (List String))
        (getForeignKeys : String → Except String (List ForeignKey))
        (order1 order2 : List String) (world : String → TableDb),
      syncAllTables fuel getAllTables getForeignKeys order1 order2 stoppedEngine world
        = some (stoppedEngine, world)) ∧
    (∀ (fuel : Nat) (tableName pkColumn : String) (db : TableDb) (offset : Int) (total : Nat),
      phaseA tableName pkColumn (fuel + 1) stoppedEngine db offset total
        = some (.done offset total, stoppedEngine, db)) ∧
    (∀ (fuel : Nat) (tableName pkColumn : String) (db db1 db2 : TableDb)
        (hasUpdatedAt : Bool),
      getPrimaryKeyColumn db = (.ok pkColumn, db1) → pkColumn ≠ "" →
      hasUpdatedAtColumn db1 = (hasUpdatedAt, db2) →
      syncTable (fuel + 1) tableName stoppedEngine db
        = some (updateTableStatus (beginSync stoppedEngine tableName) tableName "success" ""
            (statusOnEntry stoppedEngine tableName).LastSyncID
            (phaseB tableName pkColumn (beginSync stoppedEngine tableName) db2 hasUpdatedAt
              (statusOnEntry stoppedEngine tableName).LastSyncTime 0).1,
            (phaseB tableName pkColumn (beginSync stoppedEngine tableName) db2 hasUpdatedAt
              (statusOnEntry stoppedEngine tableName).LastSyncTime 0).2)) :=
  stopped_engine_work stoppedEngine rfl rfl

theorem attempts_append (l1 l2 : List SchemaCall) :
    attempts (l1 ++ l2) = attempts l1 ++ attempts l2 := by
  simp [attempts, List.filterMap_append]

theorem SchemaDb.call_log (db : SchemaDb) (c : SchemaCall) :
    (db.call c).2.log = db.log ++ [c] := by
  unfold SchemaDb.call
  cases db.faults <;> rfl

theorem SchemaDb.GetTableCreateStatement_attempts (db : SchemaDb) (t : String) :
    attempts (db.GetTableCreateStatement t).2.log = attempts db.log := by
  have h := db.call_log (.showCreateTable t)
  unfold SchemaDb.GetTableCreateStatement
  rcases hc : db.call (.showCreateTable t) with ⟨f, db1⟩
  rw [hc] at h
  simp only at h
  cases f <;>
  · simp only
    rw [h, attempts_append]
    exact List.append_nil _

theorem SchemaDb.CreateTable_attempts (db : SchemaDb) (t : String) :
    attempts (db.CreateTable t).2.log = attempts db.log := by
  have h := db.GetTableCreateStatement_attempts t
  unfold SchemaDb.CreateTable
  rcases hc : db.GetTableCreateStatement t with ⟨r, db1⟩
  rw [hc] at h
  simp only at h
  cases r with
  | error e => exact h
  | ok stmt =>
    simp only
    have h2 := db1.call_log (.exec stmt)
    rcases hc2 : db1.call (.exec stmt) with ⟨f, db2⟩
    rw [hc2] at h2
    simp only at h2
    cases f <;>
    · simp only
      rw [h2, attempts_append, h]
      exact List.append_nil _

theorem SchemaDb.GetTableSchema_attempts (db : SchemaDb) (t : String) :
    attempts (db.GetTableSchema t).2.log = attempts db.log := by
  have h := db.call_log (.getTableSchema t)
  unfold SchemaDb.GetTableSchema
  rcases hc : db.call (.getTableSchema t) with ⟨f, db1⟩
  rw [hc] at h
  simp only at h
  cases f <;>
  · simp only
    rw [h, attempts_append]
    exact List.append_nil _

theorem SchemaDb.getBackupTableSchema_attempts (db : SchemaDb) (t : String) :
    attempts (db.getBackupTableSchema t).2.log = attempts db.log := by
  have h := db.call_log (.getBackupTableSchema t)
  unfold SchemaDb.getBackupTableSchema
  rcases hc : db.call (.getBackupTableSchema t) with ⟨f, db1⟩
  rw [hc] at h
  simp only at h
  cases f <;>
  · simp only
    rw [h, attempts_append]
    exact List.append_nil _

theorem SchemaDb.CompareSchemas_attempts (db : SchemaDb) (t : String) :
    attempts (db.CompareSchemas t).2.log = attempts db.log := by
  have h := db.GetTableSchema_attempts t
  unfold SchemaDb.CompareSchemas
  rcases hc : db.GetTableSchema t with ⟨r, db1⟩
  rw [hc] at h
  simp only at h
  cases r with
  | error e => exact h
  | ok cols =>
    simp only
    rw [db1.getBackupTableSchema_attempts t]
    exact h

theorem SchemaDb.execAll_attempts (stmts : List String) :
    ∀ db : SchemaDb, attempts (SchemaDb.execAll stmts db).2.log = attempts db.log := by
  induction stmts with
  | nil => intro db; rfl
  | cons stmt rest ih =>
    intro db
    have h := db.call_log (.exec stmt)
    unfold SchemaDb.execAll
    rcases hc : db.call (.exec stmt) with ⟨f, db1⟩
    rw [hc] at h
    simp only at h
    cases f with
    | some e =>
      simp only
      rw [h, attempts_append]
      exact List.append_nil _
    | none =>
      simp only
      rw [ih]
      show attempts db1.log = _
      rw [h, attempts_append]
      exact List.append_nil _

/-- A run of `SyncSchema` adds its table, once, to the tables on which `SyncSchema` has
been started. -/
theorem SchemaDb.SyncSchema_attempts (db : SchemaDb) (t : String) :
    attempts (db.SyncSchema t).2.log = attempts db.log ++ [t] := by
  have h := db.call_log (.tableExists t)
  unfold SchemaDb.SyncSchema SchemaDb.TableExists
  rcases hc : db.call (.tableExists t) with ⟨f, db1⟩
  rw [hc] at h
  simp only at h
  have h1 : attempts db1.log = attempts db.log ++ [t] := by
    rw [h, attempts_append]
    rfl
  cases f with
  | some e => exact h1
  | none =>
    simp only
    cases (db1.backup.get? t).isSome with
    | false =>
      simp only
      rw [db1.CreateTable_attempts t]
      exact h1
    | true =>
      simp only
      have h2 := db1.CompareSchemas_attempts t
      rcases hc2 : db1.CompareSchemas t with ⟨r, db2⟩
      rw [hc2] at h2
      simp only at h2
      cases r with
      | error e => simp only; rw [h2]; exact h1
      | ok stmts =>
        simp only
        split
        · rw [h2]; exact h1
        · rw [SchemaDb.execAll_attempts, h2]; exact h1

theorem SchemaDb.syncSchemas_attempts (plan : List TableDependency) :
    ∀ db : SchemaDb, attempts (SchemaDb.syncSchemas plan db).log
      = attempts db.log ++ plan.map (fun d => d.TableName) := by
  induction plan with
  | nil => intro db; simp [SchemaDb.syncSchemas]
  | cons dep rest ih =>
    intro db
    have h := db.SyncSchema_attempts dep.TableName
    unfold SchemaDb.syncSchemas
    rcases hc : db.SyncSchema dep.TableName with ⟨r, db1⟩
    rw [hc] at h
    simp only at h
    cases r <;> simp [ih, h]

theorem SchemaDb.syncSchemas_eq_foldl (plan : List TableDependency) :
    ∀ db : SchemaDb, SchemaDb.syncSchemas plan db
      = plan.foldl (fun d dep => (d.SyncSchema dep.TableName).2) db := by
  induction plan with
  | nil => intro db; rfl
  | cons dep rest ih =>
    intro db
    unfold SchemaDb.syncSchemas
    rcases hc : db.SyncSchema dep.TableName with ⟨r, db1⟩
    cases r <;> simp [ih, hc]

/-- C19. `SyncAllSchemas`, and `TriggerSchemaSync` with it, returns an error exactly when
the dependency plan cannot be computed, and then it has touched nothing. When there is a
plan it returns no error, whatever calls fail on the way; the database it leaves is the
one obtained by running `SyncSchema` on the tables of the plan one after the other, each
run starting from what the run before left, failed or not; and the tables on which
`SyncSchema` has been started are those of the plan, each once, in planner order. -/
theorem SyncAllSchemas_attempts_every_table (db : SchemaDb)
    (getAllTables : Except String (List String))
    (getForeignKeys : String → Except String (List ForeignKey)) (order1 order2 : List String) :
    TriggerSchemaSync db getAllTables getForeignKeys order1 order2
      = db.SyncAllSchemas getAllTables getForeignKeys order1 order2 ∧
    match GetAllTablesWithDependencies getAllTables getForeignKeys order1 order2 with
    | .error e => db.SyncAllSchemas getAllTables getForeignKeys order1 order2 = (some e, db)
    | .ok plan =>
      (db.SyncAllSchemas getAllTables getForeignKeys order1 order2).1 = none ∧
      (db.SyncAllSchemas getAllTables getForeignKeys order1 order2).2
        = plan.foldl (fun d dep => (d.SyncSchema dep.TableName).2) db ∧
      attempts (db.SyncAllSchemas getAllTables getForeignKeys order1 order2).2.log
        = attempts db.log ++ plan.map (fun d => d.TableName) := by
  refine ⟨rfl, ?_⟩
  unfold SchemaDb.SyncAllSchemas
  cases GetAllTablesWithDependencies getAllTables getForeignKeys order1 order2 with
  | error e => rfl
  | ok plan =>
    exact ⟨rfl, SchemaDb.syncSchemas_eq_foldl plan db, SchemaDb.syncSchemas_attempts plan db⟩

/-- Scenario D with a failure on the first table: `SyncSchema` fails on `a`, and is then
run on `b` and on `c`, which are created on the target; no error is returned. -/
theorem SyncAllSchemas_scenarioD :
    (scenarioDSchemas.SyncSchema "a").1 = some "connection refused" ∧
    (scenarioDSchemas.SyncAllSchemas (.ok ["a", "b", "c"]) scenarioD
        ["c", "a", "b"] ["b", "c", "a"]).1 = none ∧
    (scenarioDSchemas.SyncAllSchemas (.ok ["a", "b", "c"]) scenarioD
        ["c", "a", "b"] ["b", "c", "a"]).2.log
      = [.tableExists "a",
         .tableExists "b", .showCreateTable "b", .exec "CREATE TABLE `b` (...)",
         .tableExists "c", .showCreateTable "c", .exec "CREATE TABLE `c` (...)"] ∧
    (scenarioDSchemas.SyncAllSchemas (.error "failed to get tables: timeout") scenarioD
        [] []).1 = some "failed to get tables: timeout" := by
  decide

theorem setFlag_self (m : String → Bool) (k : String) (v : Bool) : setFlag m k v k = v := by
  simp [setFlag]

theorem setFlag_of_ne (m : String → Bool) (k k' : String) (v : Bool) (h : k' ≠ k) :
    setFlag m k v k' = m k' := by
  simp [setFlag, h]

theorem calculateLevel_enters_cycle (fuel : Nat) (a b : String) (st : SortState)
    (ea eb : TableDependency) (hab : a ≠ b)
    (ha : st.depMap.get? a = some ea) (hb : st.depMap.get? b = some eb)
    (hda : ea.DependsOn = [b]) (hdb : eb.DependsOn = [a])
    (hva : st.visited a = false) (hvb : st.visited b = false)
    (hra : st.recStack a = false) (hrb : st.recStack b = false) :
    calculateLevel (fuel + 2) a st = some (2, afterCycle a b st) := by
  have hba : b ≠ a := fun h => hab h.symm
  -- the innermost call: `a` again, found on the recursion stack
  have h3 : calculateLevel fuel a
      { depMap := st.depMap,
        visited := setFlag (setFlag st.visited a true) b true,
        recStack := setFlag (setFlag st.recStack a true) b true }
      = some (0, { depMap := st.depMap.modify a (fun d => { d with HasCircular := true }),
                   visited := setFlag (setFlag st.visited a true) b true,
                   recStack := setFlag (setFlag st.recStack a true) b true }) := by
    have hr : setFlag (setFlag st.recStack a true) b true a = true := by
      rw [setFlag_of_ne _ _ _ _ hab, setFlag_self]
    cases fuel with
    | zero => simp [calculateLevel, calculateLevelBody, hr, ha]
    | succ f => simp [calculateLevel, calculateLevelBody, hr, ha]
  -- the call at `b`
  have h2 : calculateLevel (fuel + 1) b
      { depMap := st.depMap,
        visited := setFlag st.visited a true,
        recStack := setFlag st.recStack a true }
      = some (1, { depMap := (st.depMap.modify a (fun d => { d with HasCircular := true })).modify
                      b (fun d => { d with Level := 1 }),
                   visited := setFlag (setFlag st.visited a true) b true,
                   recStack := setFlag (setFlag (setFlag st.recStack a true) b true) b false }) := by
    have hr : setFlag st.recStack a true b = false := by
      rw [setFlag_of_ne _ _ _ _ hba, hrb]
    have hv : setFlag st.visited a true b = false := by
      rw [setFlag_of_ne _ _ _ _ hba, hvb]
    show calculateLevelBody (some (calculateLevel fuel)) b _ = _
    simp only [calculateLevelBody, hr, hv, Bool.false_eq_true, if_false, hb, hdb, loopDeps, ha,
      h3]
    simp
  show calculateLevelBody (some (calculateLevel (fuel + 1))) a st = _
  simp only [calculateLevelBody, hra, hva, Bool.false_eq_true, if_false, ha, hda, loopDeps, hb,
    h2]
  simp [afterCycle]

theorem CycleFresh.swapPair {a b : String} {st : SortState} (h : CycleFresh a b st) :
    CycleFresh b a st := by
  obtain ⟨ea, eb, h1, h2, h3, h4, h5, h6, h7, h8, h9, h10⟩ := h
  exact ⟨eb, ea, h2, h1, h4, h3, h6, h5, h8, h7, h10, h9⟩

theorem CycleInv.swapInv {a b : String} {st : SortState} (h : CycleInv a b st) :
    CycleInv b a st := by
  rcases h with h | h | h
  · exact Or.inl h.swapPair
  · exact Or.inr (Or.inr h)
  · exact Or.inr (Or.inl h)

theorem CycleTrans.swapTrans {a b : String} {st st' : SortState} (h : CycleTrans a b st st') :
    CycleTrans b a st st' :=
  ⟨fun hf => (h.1 hf.swapPair).swapInv, h.2.2, h.2.1⟩

theorem CycleTrans.refl (a b : String) (st : SortState) : CycleTrans a b st st :=
  ⟨Or.inl, id, id⟩

theorem CycleTrans.trans {a b : String} {st st1 st2 : SortState}
    (h1 : CycleTrans a b st st1) (h2 : CycleTrans a b st1 st2) : CycleTrans a b st st2 := by
  refine ⟨?_, fun h => h2.2.1 (h1.2.1 h), fun h => h2.2.2 (h1.2.2 h)⟩
  intro hf
  rcases h1.1 hf with h | h | h
  · exact h2.1 h
  · exact Or.inr (Or.inl (h2.2.1 h))
  · exact Or.inr (Or.inr (h2.2.2 h))

theorem SameAt.swapSame {a b : String} {st st' : SortState} (h : SameAt a b st st') :
    SameAt b a st st' :=
  ⟨h.2.1, h.1, h.2.2.2.1, h.2.2.1, h.2.2.2.2.2, h.2.2.2.2.1⟩

theorem SameAt.fresh {a b : String} {st st' : SortState} (h : SameAt a b st st')
    (hf : CycleFresh a b st) : CycleFresh a b st' := by
  obtain ⟨ea, eb, h1, h2, h3, h4, h5, h6, h7, h8, h9, h10⟩ := hf
  obtain ⟨g1, g2, g3, g4, g5, g6⟩ := h
  exact ⟨ea, eb, g1.trans h1, g2.trans h2, h3, h4, h5, h6, g3.trans h7, g4.trans h8,
    g5.trans h9, g6.trans h10⟩

theorem SameAt.done {a b : String} {st st' : SortState} (h : SameAt a b st st')
    (hd : CycleDone a b st) : CycleDone a b st' := by
  obtain ⟨ea, eb, h1, h2, h3, h4, h5, h6, h7, h8, h9, h10⟩ := hd
  obtain ⟨g1, g2, g3, g4, g5, g6⟩ := h
  exact ⟨ea, eb, g1.trans h1, g2.trans h2, h3, h4, h5, h6, g3.trans h7, g4.trans h8,
    g5.trans h9, g6.trans h10⟩

theorem SameAt.cycleTrans {a b : String} {st st' : SortState} (h : SameAt a b st st') :
    CycleTrans a b st st' :=
  ⟨fun hf => Or.inl (h.fresh hf), h.done, h.swapSame.done⟩

/-- Entering the cycle at `a` leaves `a` with the flag and level 2, `b` with level 1. -/
theorem afterCycle_done (a b : String) (st : SortState) (hab : a ≠ b)
    (hf : CycleFresh a b st) : CycleDone a b (afterCycle a b st) := by
  obtain ⟨ea, eb, h1, h2, h3, h4, h5, h6, h7, h8, h9, h10⟩ := hf
  have hba : b ≠ a := fun h => hab h.symm
  refine ⟨{ ea with HasCircular := true, Level := 2 }, { eb with Level := 1 }, ?_, ?_, rfl, h6,
    rfl, rfl, ?_, ?_, ?_, ?_⟩
  · simp [afterCycle, GoMap.get?_modify, h1, hab]
  · simp [afterCycle, GoMap.get?_modify, h2, hba]
  · simp [afterCycle, setFlag, hab]
  · simp [afterCycle, setFlag]
  · simp [afterCycle, setFlag]
  · simp [afterCycle, setFlag, hba, h10]

/-- A call at `a` with the pair not visited yet, if it returns, has gone round the
cycle. -/
theorem calculateLevel_fresh_entry (fuel : Nat) (a b : String) (st st' : SortState) (r : Nat)
    (hab : a ≠ b) (hf : CycleFresh a b st)
    (h : calculateLevel fuel a st = some (r, st')) : st' = afterCycle a b st := by
  obtain ⟨ea, eb, h1, h2, h3, h4, h5, h6, h7, h8, h9, h10⟩ := hf
  have hba : b ≠ a := fun h => hab h.symm
  match fuel, h with
  | 0, h =>
    simp [calculateLevel, calculateLevelBody, h9, h7] at h
  | 1, h =>
    have hr : setFlag st.recStack a true b = false := by
      rw [setFlag_of_ne _ _ _ _ hba, h10]
    have hv : setFlag st.visited a true b = false := by
      rw [setFlag_of_ne _ _ _ _ hba, h8]
    have h0 : calculateLevel 0 b
        { depMap := st.depMap, visited := setFlag st.visited a true,
          recStack := setFlag st.recStack a true } = none := by
      simp [calculateLevel, calculateLevelBody, hr, hv]
    have h' : calculateLevelBody (some (calculateLevel 0)) a st = some (r, st') := h
    simp [calculateLevelBody, h9, h7, h1, h3, loopDeps, h2, h0] at h'
  | fuel + 2, h =>
    rw [calculateLevel_enters_cycle fuel a b st ea eb hab h1 h2 h3 h4 h7 h8 h9 h10] at h
    simp only [Option.some.injEq, Prod.mk.injEq] at h
    exact h.2.symm

theorem GoMap.get?_modify_of_ne {V : Type} (m : GoMap String V) (key k : String) (f : V → V)
    (h : k ≠ key) : (m.modify key f).get? k = m.get? k := by
  rw [GoMap.get?_modify]
  cases m.get? k with
  | none => rfl
  | some d => simp [h]

theorem loopDeps_cycleTrans (a b : String)
    (recur : String → SortState → Option (Nat × SortState))
    (hrec : ∀ t st r st', recur t st = some (r, st') → CycleTrans a b st st') :
    ∀ (ds : List String) (m : Nat) (st : SortState) (m' : Nat) (st' : SortState),
      loopDeps recur ds m st = some (m', st') → CycleTrans a b st st' := by
  intro ds
  induction ds with
  | nil =>
    intro m st m' st' h
    simp only [loopDeps, Option.some.injEq, Prod.mk.injEq] at h
    rw [← h.2]
    exact CycleTrans.refl a b st
  | cons d rest ih =>
    intro m st m' st' h
    unfold loopDeps at h
    cases hg : st.depMap.get? d with
    | none =>
      rw [hg] at h
      exact ih _ _ _ _ h
    | some e =>
      rw [hg] at h
      simp only at h
      rcases hr : recur d st with _ | ⟨l, st1⟩
      · rw [hr] at h
        cases h
      · rw [hr] at h
        exact (hrec d st l st1 hr).trans (ih _ _ _ _ h)

/-- A call at a table outside the pair does to the pair what its recursive calls do. -/
theorem calculateLevelBody_cycleTrans (a b : String)
    (recur : Option (String → SortState → Option (Nat × SortState)))
    (hrec : ∀ f, recur = some f → ∀ t st r st', f t st = some (r, st') → CycleTrans a b st st')
    (t : String) (hta : t ≠ a) (htb : t ≠ b) (st st' : SortState) (r : Nat)
    (h : calculateLevelBody recur t st = some (r, st')) : CycleTrans a b st st' := by
  have hat : a ≠ t := fun e => hta e.symm
  have hbt : b ≠ t := fun e => htb e.symm
  unfold calculateLevelBody at h
  by_cases hrs : st.recStack t = true
  · rw [if_pos hrs] at h
    cases hg : st.depMap.get? t with
    | none => rw [hg] at h; cases h
    | some e =>
      rw [hg] at h
      simp only [Option.some.injEq, Prod.mk.injEq] at h
      rw [← h.2]
      exact SameAt.cycleTrans ⟨GoMap.get?_modify_of_ne _ _ _ _ hat,
        GoMap.get?_modify_of_ne _ _ _ _ hbt, rfl, rfl, rfl, rfl⟩
  · rw [if_neg hrs] at h
    by_cases hv : st.visited t = true
    · rw [if_pos hv] at h
      cases hg : st.depMap.get? t with
      | none => rw [hg] at h; cases h
      | some e =>
        rw [hg] at h
        simp only [Option.some.injEq, Prod.mk.injEq] at h
        rw [← h.2]
        exact CycleTrans.refl a b st
    · rw [if_neg hv] at h
      cases recur with
      | none => cases h
      | some f =>
        simp only at h
        cases hg : st.depMap.get? t with
        | none => rw [hg] at h; cases h
        | some dep =>
          rw [hg] at h
          simp only at h
          rcases hl : loopDeps f dep.DependsOn 0
              { depMap := st.depMap, visited := setFlag st.visited t true,
                recStack := setFlag st.recStack t true } with _ | ⟨m, st2⟩
          · rw [hl] at h
            cases h
          · rw [hl] at h
            simp only [Option.some.injEq, Prod.mk.injEq] at h
            rw [← h.2]
            have s1 : SameAt a b st
                { depMap := st.depMap, visited := setFlag st.visited t true,
                  recStack := setFlag st.recStack t true } :=
              ⟨rfl, rfl, setFlag_of_ne _ _ _ _ hat, setFlag_of_ne _ _ _ _ hbt,
                setFlag_of_ne _ _ _ _ hat, setFlag_of_ne _ _ _ _ hbt⟩
            have s2 : SameAt a b st2
                { depMap := st2.depMap.modify t (fun d => { d with Level := m }),
                  visited := st2.visited, recStack := setFlag st2.recStack t false } :=
              ⟨GoMap.get?_modify_of_ne _ _ _ _ hat, GoMap.get?_modify_of_ne _ _ _ _ hbt, rfl, rfl,
                setFlag_of_ne _ _ _ _ hat, setFlag_of_ne _ _ _ _ hbt⟩
            exact (s1.cycleTrans.trans
              (loopDeps_cycleTrans a b f (hrec f rfl) _ _ _ _ _ hl)).trans s2.cycleTrans

/-- A call at a table of the pair whose levels are already there changes nothing. -/
theorem calculateLevel_done (fuel : Nat) (x y : String) (st st' : SortState) (r : Nat)
    (t : String) (ht : t = x ∨ t = y) (hd : CycleDone x y st)
    (h : calculateLevel fuel t st = some (r, st')) : st' = st := by
  obtain ⟨ex, ey, h1, h2, _, _, _, _, h7, h8, h9, h10⟩ := hd
  have hr : st.recStack t = false := by rcases ht with e | e <;> rw [e] <;> assumption
  have hv : st.visited t = true := by rcases ht with e | e <;> rw [e] <;> assumption
  have hg : ∃ e, st.depMap.get? t = some e := by
    rcases ht with e | e
    · exact ⟨ex, by rw [e]; exact h1⟩
    · exact ⟨ey, by rw [e]; exact h2⟩
  obtain ⟨e, hg⟩ := hg
  cases fuel with
  | zero =>
    simp [calculateLevel, calculateLevelBody, hr, hv, hg] at h
    exact h.2.symm
  | succ f =>
    simp [calculateLevel, calculateLevelBody, hr, hv, hg] at h
    exact h.2.symm

/-- A call at `a` does to the pair what the invariant allows, and settles it. -/
theorem calculateLevel_at_first (fuel : Nat) (a b : String) (hab : a ≠ b)
    (st st' : SortState) (r : Nat) (h : calculateLevel fuel a st = some (r, st')) :
    CycleTrans a b st st' ∧ (CycleFresh a b st → CycleDone a b st') := by
  have hfresh : CycleFresh a b st → CycleDone a b st' := by
    intro hf
    rw [calculateLevel_fresh_entry fuel a b st st' r hab hf h]
    exact afterCycle_done a b st hab hf
  refine ⟨⟨fun hf => Or.inr (Or.inl (hfresh hf)), ?_, ?_⟩, hfresh⟩
  · intro hd
    rw [calculateLevel_done fuel a b st st' r a (Or.inl rfl) hd h]
    exact hd
  · intro hd
    rw [calculateLevel_done fuel b a st st' r a (Or.inr rfl) hd h]
    exact hd

/-- Every call of `calculateLevel` keeps the invariant of the pair. -/
theorem calculateLevel_cycleTrans (a b : String) (hab : a ≠ b) :
    ∀ (fuel : Nat) (t : String) (st : SortState) (r : Nat) (st' : SortState),
      calculateLevel fuel t st = some (r, st') → CycleTrans a b st st' := by
  have hba : b ≠ a := fun h => hab h.symm
  intro fuel
  induction fuel with
  | zero =>
    intro t st r st' h
    by_cases hta : t = a
    · subst hta
      exact (calculateLevel_at_first 0 t b hab st st' r h).1
    · by_cases htb : t = b
      · subst htb
        exact (calculateLevel_at_first 0 t a hba st st' r h).1.swapTrans
      · exact calculateLevelBody_cycleTrans a b none (fun f hf => by cases hf) t hta htb st st'
          r h
  | succ fuel ih =>
    intro t st r st' h
    by_cases hta : t = a
    · subst hta
      exact (calculateLevel_at_first (fuel + 1) t b hab st st' r h).1
    · by_cases htb : t = b
      · subst htb
        exact (calculateLevel_at_first (fuel + 1) t a hba st st' r h).1.swapTrans
      · refine calculateLevelBody_cycleTrans a b (some (calculateLevel fuel)) ?_ t hta htb st
          st' r h
        intro f hf
        simp only [Option.some.injEq] at hf
        rw [← hf]
        exact ih

/-- The loop over the tables settles the pair as soon as it comes to one of the two, and
keeps it as it is from then on. -/
theorem calculateAll_cycle (fuel : Nat) (a b : String) (hab : a ≠ b) :
    ∀ (order : List String) (st st' : SortState), calculateAll fuel order st = some st' →
      CycleTrans a b st st' ∧
      (CycleInv a b st → (a ∈ order ∨ b ∈ order) → CycleDone a b st' ∨ CycleDone b a st') ∧
      (CycleFresh a b st → (∀ rest, order = a :: rest → CycleDone a b st') ∧
        (∀ rest, order = b :: rest → CycleDone b a st')) := by
  have hba : b ≠ a := fun h => hab h.symm
  intro order
  induction order with
  | nil =>
    intro st st' h
    simp only [calculateAll, Option.some.injEq] at h
    rw [← h]
    refine ⟨CycleTrans.refl a b st, ?_, ?_⟩
    · intro _ hm
      rcases hm with hm | hm <;> cases hm
    · intro _
      exact ⟨fun rest e => (by cases e), fun rest e => (by cases e)⟩
  | cons t rest ih =>
    intro st st' h
    unfold calculateAll at h
    by_cases hv : st.visited t = true
    · rw [if_pos hv] at h
      obtain ⟨htr, hset, _⟩ := ih st st' h
      refine ⟨htr, ?_, ?_⟩
      · intro hinv hm
        have hsettled : (t = a ∨ t = b) → CycleDone a b st ∨ CycleDone b a st := by
          intro ht
          rcases hinv with hf | hd | hd
          · obtain ⟨_, _, _, _, _, _, _, _, h7, h8, _, _⟩ := hf
            rcases ht with e | e
            · rw [e, h7] at hv; cases hv
            · rw [e, h8] at hv; cases hv
          · exact Or.inl hd
          · exact Or.inr hd
        have hkeep : CycleDone a b st ∨ CycleDone b a st →
            CycleDone a b st' ∨ CycleDone b a st' := by
          intro hd
          rcases hd with hd | hd
          · exact Or.inl (htr.2.1 hd)
          · exact Or.inr (htr.2.2 hd)
        rcases hm with hm | hm
        · rcases List.mem_cons.1 hm with e | hm'
          · exact hkeep (hsettled (Or.inl e.symm))
          · exact hset hinv (Or.inl hm')
        · rcases List.mem_cons.1 hm with e | hm'
          · exact hkeep (hsettled (Or.inr e.symm))
          · exact hset hinv (Or.inr hm')
      · intro hf
        obtain ⟨_, _, _, _, _, _, _, _, h7, h8, _, _⟩ := hf
        refine ⟨fun rest' e => ?_, fun rest' e => ?_⟩
        · simp only [List.cons.injEq] at e
          rw [e.1, h7] at hv; cases hv
        · simp only [List.cons.injEq] at e
          rw [e.1, h8] at hv; cases hv
    · rw [if_neg hv] at h
      rcases hc : calculateLevel fuel t st with _ | ⟨l, st1⟩
      · rw [hc] at h
        cases h
      · rw [hc] at h
        simp only at h
        have ht1 := calculateLevel_cycleTrans a b hab fuel t st l st1 hc
        obtain ⟨htr, hset, _⟩ := ih st1 st' h
        have hkeep : CycleDone a b st1 ∨ CycleDone b a st1 →
            CycleDone a b st' ∨ CycleDone b a st' := by
          intro hd
          rcases hd with hd | hd
          · exact Or.inl (htr.2.1 hd)
          · exact Or.inr (htr.2.2 hd)
        have hinv1 : CycleInv a b st → CycleInv a b st1 := by
          intro hinv
          rcases hinv with hf | hd | hd
          · exact ht1.1 hf
          · exact Or.inr (Or.inl (ht1.2.1 hd))
          · exact Or.inr (Or.inr (ht1.2.2 hd))
        have hat : t = a → CycleInv a b st → CycleDone a b st1 ∨ CycleDone b a st1 := by
          intro e hinv
          subst e
          rcases hinv with hf | hd | hd
          · exact Or.inl ((calculateLevel_at_first fuel t b hab st st1 l hc).2 hf)
          · exact Or.inl (ht1.2.1 hd)
          · exact Or.inr (ht1.2.2 hd)
        have hbt : t = b → CycleInv a b st → CycleDone a b st1 ∨ CycleDone b a st1 := by
          intro e hinv
          subst e
          rcases hinv with hf | hd | hd
          · exact Or.inr ((calculateLevel_at_first fuel t a hba st st1 l hc).2 hf.swapPair)
          · exact Or.inl (ht1.2.1 hd)
          · exact Or.inr (ht1.2.2 hd)
        refine ⟨ht1.trans htr, ?_, ?_⟩
        · intro hinv hm
          rcases hm with hm | hm
          · rcases List.mem_cons.1 hm with e | hm'
            · exact hkeep (hat e.symm hinv)
            · exact hset (hinv1 hinv) (Or.inl hm')
          · rcases List.mem_cons.1 hm with e | hm'
            · exact hkeep (hbt e.symm hinv)
            · exact hset (hinv1 hinv) (Or.inr hm')
        · intro hf
          refine ⟨fun rest' e => ?_, fun rest' e => ?_⟩
          · simp only [List.cons.injEq] at e
            have e1 := e.1
            subst e1
            exact htr.2.1 ((calculateLevel_at_first fuel t b hab st st1 l hc).2 hf)
          · simp only [List.cons.injEq] at e
            have e1 := e.1
            subst e1
            exact htr.2.2 ((calculateLevel_at_first fuel t a hba st st1 l hc).2 hf.swapPair)

/-- C18, counterexample. The catalog holds `a` and `b`, each referencing the other. When
the level loop comes to `a` first, the plan has `b` at level 1 without the circular flag
and `a` at level 2 with it; when it comes to `b` first, it is the other way round. So
only one of the two nodes is flagged, and the levels depend on each other and on the
iteration order. -/
theorem two_cycle_flags_one_node :
    (GetAllTablesWithDependencies (.ok ["a", "b"]) cycleCatalog ["a", "b"] ["a", "b"]).toOption
      = some [⟨"b", ["a"], 1, false⟩, ⟨"a", ["b"], 2, true⟩] ∧
    (GetAllTablesWithDependencies (.ok ["a", "b"]) cycleCatalog ["b", "a"] ["a", "b"]).toOption
      = some [⟨"a", ["b"], 1, false⟩, ⟨"b", ["a"], 2, true⟩] := by
  decide

/-- C18, amended. Let the dependency map hold two distinct tables `a` and `b`, `a`
depending on `b` only and `b` on `a` only, neither flagged yet, among any other tables;
let the level loop range over keys of the map and come to `a` or `b`, and let the result
loop come to both. Then `topologicalSort` returns a list that holds the node of `a` and
the node of `b`, with their names and dependencies; exactly one of the two has the
circular flag, and that node has level 2 while the other has level 1. Which one it is
depends on the iteration order: when the level loop starts with `a` it is `a`, when it
starts with `b` it is `b`. -/
theorem topologicalSort_two_cycle (depMap : DepMap) (a b : String) (order1 order2 : List String)
    (da db : TableDependency) (hab : a ≠ b)
    (ha : depMap.get? a = some da) (hb : depMap.get? b = some db)
    (hda : da.DependsOn = [b]) (hdb : db.DependsOn = [a])
    (hfa : da.HasCircular = false) (hfb : db.HasCircular = false)
    (h1 : ∀ k ∈ order1, k ∈ depMap.keys) (hin : a ∈ order1 ∨ b ∈ order1)
    (ha2 : a ∈ order2) (hb2 : b ∈ order2) :
    ∃ result ea eb, topologicalSort depMap order1 order2 = some result ∧
      ea ∈ result ∧ eb ∈ result ∧
      ea.TableName = da.TableName ∧ eb.TableName = db.TableName ∧
      ea.DependsOn = [b] ∧ eb.DependsOn = [a] ∧
      ((ea.HasCircular = true ∧ eb.HasCircular = false ∧ ea.Level = 2 ∧ eb.Level = 1) ∨
        (eb.HasCircular = true ∧ ea.HasCircular = false ∧ eb.Level = 2 ∧ ea.Level = 1)) ∧
      (∀ rest, order1 = a :: rest → ea.HasCircular = true) ∧
      (∀ rest, order1 = b :: rest → eb.HasCircular = true) := by
  have hfresh : CycleFresh a b
      { depMap := depMap, visited := fun _ => false, recStack := fun _ => false } :=
    ⟨da, db, ha, hb, hda, hdb, hfa, hfb, rfl, rfl, rfl, rfl⟩
  obtain ⟨st', hall, hs⟩ := calculateAll_total depMap.length order1
    { depMap := depMap, visited := fun _ => false, recStack := fun _ => false }
    (fun k hk => (GoMap.mem_keys_iff _ _).1 (h1 k hk)) (unvisited_le_length _)
  obtain ⟨_, hset, hhead⟩ := calculateAll_cycle depMap.length a b hab order1 _ st' hall
  have hres : topologicalSort depMap order1 order2
      = some (sortByLevel (order2.filterMap st'.depMap.get?)) := by
    simp [topologicalSort, hall]
  have hentries : ∃ ea eb, st'.depMap.get? a = some ea ∧ st'.depMap.get? b = some eb ∧
      ((ea.HasCircular = true ∧ eb.HasCircular = false ∧ ea.Level = 2 ∧ eb.Level = 1) ∨
        (eb.HasCircular = true ∧ ea.HasCircular = false ∧ eb.Level = 2 ∧ ea.Level = 1)) := by
    rcases hset (Or.inl hfresh) hin with ⟨ex, ey, g1, g2, g3, g4, g5, g6, _⟩ |
      ⟨ex, ey, g1, g2, g3, g4, g5, g6, _⟩
    · exact ⟨ex, ey, g1, g2, Or.inl ⟨g3, g4, g5, g6⟩⟩
    · exact ⟨ey, ex, g2, g1, Or.inr ⟨g3, g4, g5, g6⟩⟩
  obtain ⟨ea, eb, hea, heb, hflags⟩ := hentries
  have hska : (st'.depMap.get? a).map (fun d => (d.TableName, d.DependsOn))
      = (depMap.get? a).map (fun d => (d.TableName, d.DependsOn)) := get?_of_skeleton hs a
  have hskb : (st'.depMap.get? b).map (fun d => (d.TableName, d.DependsOn))
      = (depMap.get? b).map (fun d => (d.TableName, d.DependsOn)) := get?_of_skeleton hs b
  rw [hea, ha] at hska
  rw [heb, hb] at hskb
  have hska' : ea.TableName = da.TableName ∧ ea.DependsOn = da.DependsOn := by
    simpa using hska
  have hskb' : eb.TableName = db.TableName ∧ eb.DependsOn = db.DependsOn := by
    simpa using hskb
  have hmem : ∀ (k : String) (e : TableDependency), k ∈ order2 → st'.depMap.get? k = some e →
      e ∈ sortByLevel (order2.filterMap st'.depMap.get?) := by
    intro k e hk he
    exact (sortByLevel_perm _).mem_iff.2 (List.mem_filterMap.2 ⟨k, hk, he⟩)
  refine ⟨_, ea, eb, hres, hmem a ea ha2 hea, hmem b eb hb2 heb, hska'.1, hskb'.1,
    hska'.2.trans hda, hskb'.2.trans hdb, hflags, ?_, ?_⟩
  · intro rest e
    obtain ⟨ex, _, g1, _, g3, _⟩ := (hhead hfresh).1 rest e
    rw [hea] at g1
    simp only [Option.some.injEq] at g1
    rw [g1]
    exact g3
  · intro rest e
    obtain ⟨ex, _, g1, _, g3, _⟩ := (hhead hfresh).2 rest e
    rw [heb] at g1
    simp only [Option.some.injEq] at g1
    rw [g1]
    exact g3

/-- Witness of C18 (amended): the cycle of `a` and `b` with a table `c` that references
`a`, the level loop starting at `c`. -/
theorem topologicalSort_two_cycle_witness :
    ∃ result ea eb, topologicalSort cycleWithTail ["c", "b", "a"] ["a", "b", "c"]
        = some result ∧
      ea ∈ result ∧ eb ∈ result ∧
      ea.TableName = "a" ∧ eb.TableName = "b" ∧
      ea.DependsOn = ["b"] ∧ eb.DependsOn = ["a"] ∧
      ((ea.HasCircular = true ∧ eb.HasCircular = false ∧ ea.Level = 2 ∧ eb.Level = 1) ∨
        (eb.HasCircular = true ∧ ea.HasCircular = false ∧ eb.Level = 2 ∧ ea.Level = 1)) ∧
      (∀ rest, ["c", "b", "a"] = "a" :: rest → ea.HasCircular = true) ∧
      (∀ rest, ["c", "b", "a"] = "b" :: rest → eb.HasCircular = true) :=
  topologicalSort_two_cycle cycleWithTail "a" "b" ["c", "b", "a"] ["a", "b", "c"]
    ⟨"a", ["b"], 0, false⟩ ⟨"b", ["a"], 0, false⟩ (by decide) rfl rfl rfl rfl rfl rfl
    (by decide) (by decide) (by decide) (by decide)

/-- The witness of C18 evaluated: entered from `c`, the cycle is gone round from `a`. -/
theorem cycleWithTail_plan :
    topologicalSort cycleWithTail ["c", "b", "a"] ["a", "b", "c"]
      = some [⟨"b", ["a"], 1, false⟩, ⟨"a", ["b"], 2, true⟩, ⟨"c", ["a"], 3, false⟩] := by
  decide

theorem Cron.Start_running (c : Cron) (now : Nat) : (c.Start now).running = true := by
  unfold Cron.Start
  by_cases h : c.running = true
  · rw [if_pos h]; exact h
  · rw [if_neg h]

/-- A successful `StartSync` adds one entry to the scheduler. -/
theorem StartSync_adds_entry (s : SyncService) (c : Cron) (h : (StartSync s c).1 = none)
    (hc : c.running = false) :
    (StartSync s c).2.2.entries.length = c.entries.length + 1 := by
  unfold StartSync at h ⊢
  by_cases hr : s.isRunning = true
  · rw [if_pos hr] at h
    cases h
  · rw [if_neg hr] at h ⊢
    unfold Cron.AddFunc at h ⊢
    cases hp : c.parse s.cronSchedule with
    | some e =>
      rw [hp] at h
      cases h
    | none =>
      simp only
      have hlen : ∀ c1 : Cron, c1.running = false →
          c1.entries.length = c.entries.length + 1 →
          (c1.Start s.clock).entries.length = c.entries.length + 1 := by
        intro c1 h1 h2
        unfold Cron.Start
        simp [h1, h2]
      have hlen' := hlen
        { c with
          nextID := c.nextID + 1,
          entries := c.entries ++
            [{ ID := c.nextID + 1, Schedule := s.cronSchedule,
               Next := if c.running then c.nextAfter s.cronSchedule s.clock else 0 }] }
        hc (by simp)
      split <;> exact hlen'

/-- `StopSync` removes no entry from the scheduler. -/
theorem StopSync_keeps_entries (s : SyncService) (c : Cron)
    (r : Option String × SyncService × Cron) (h : StopSync s c = some r) :
    r.2.2.entries = c.entries := by
  unfold StopSync at h
  by_cases hr : (!s.isRunning) = true
  · rw [if_pos hr] at h
    simp only [Option.some.injEq] at h
    rw [← h]
  · rw [if_neg hr] at h
    simp only at h
    split at h
    · cases h
    · simp only [Option.some.injEq] at h
      rw [← h]
      rfl

/-- What `StartSync` and `StopSync` do, for every state of the engine and its scheduler.
`StartSync` on a running engine fails with `sync already running`, and `StopSync` on an
engine that is not running fails with `sync is not running`; in both cases the engine
(running flag, configuration, status map) and its scheduler are what they were.
`StartSync` on a stopped engine whose cron expression the scheduler accepts returns
without error with the running flag set and the scheduler started, the configuration and
the status map unchanged. `StopSync` on a running engine returns exactly when no job that
the scheduler has started has still to take the engine's mutex; it then returns without
error, and all it changes in the engine is the running flag, now false. -/
theorem StartSync_StopSync_spec (s : SyncService) (c : Cron) :
    (s.isRunning = true → StartSync s c = (some "sync already running", s, c)) ∧
    (s.isRunning = false → StopSync s c = some (some "sync is not running", s, c)) ∧
    (s.isRunning = false → c.parse s.cronSchedule = none →
      ∃ s' c', StartSync s c = (none, s', c') ∧ s'.isRunning = true ∧ c'.running = true ∧
        s'.cronSchedule = s.cronSchedule ∧ s'.batchSize = s.batchSize ∧
        s'.syncSchema = s.syncSchema ∧ s'.enableChecksumSync = s.enableChecksumSync ∧
        s'.tableStatus = s.tableStatus) ∧
    (s.isRunning = true → (∀ j ∈ c.jobs, j.needsMutex = false) →
      StopSync s c = some (none, { s with isRunning := false }, { c.Stop with jobs := [] })) ∧
    (s.isRunning = true → (∃ j ∈ c.jobs, j.needsMutex = true) → StopSync s c = none) := by
  refine ⟨?_, ?_, ?_, ?_, ?_⟩
  · intro h
    unfold StartSync
    rw [if_pos h]
  · intro h
    unfold StopSync
    rw [h]
    rfl
  · intro h hp
    unfold StartSync
    rw [if_neg (by rw [h]; exact Bool.false_ne_true)]
    unfold Cron.AddFunc
    rw [hp]
    simp only
    split
    · exact ⟨_, _, rfl, rfl, Cron.Start_running _ _, rfl, rfl, rfl, rfl, rfl⟩
    · exact ⟨_, _, rfl, rfl, Cron.Start_running _ _, rfl, rfl, rfl, rfl, rfl⟩
  · intro h hj
    unfold StopSync
    rw [h]
    have hany : (c.Stop.jobs.any fun j => j.needsMutex) = false := by
      rw [List.any_eq_false]
      intro j hm
      rw [hj j hm]
      exact Bool.false_ne_true
    simp only [Bool.not_true, Bool.false_eq_true, if_false]
    rw [hany]
    rfl
  · intro h hj
    unfold StopSync
    rw [h]
    have hany : (c.Stop.jobs.any fun j => j.needsMutex) = true := by
      rw [List.any_eq_true]
      exact hj
    simp only [Bool.not_true, Bool.false_eq_true, if_false]
    rw [hany]
    rfl

/-- The calls of `StartSync_StopSync_spec` on the fresh engine with the default schedule
and on the engine it becomes when started. -/
theorem StartSync_StopSync_example :
    StartSync startedOnce.2.1 startedOnce.2.2
      = (some "sync already running", startedOnce.2.1, startedOnce.2.2) ∧
    StopSync freshEngine everyMinute
      = some (some "sync is not running", freshEngine, everyMinute) ∧
    (∃ s' c', StartSync freshEngine everyMinute = (none, s', c') ∧ s'.isRunning = true ∧
      c'.running = true ∧
      s'.cronSchedule = freshEngine.cronSchedule ∧ s'.batchSize = freshEngine.batchSize ∧
      s'.syncSchema = freshEngine.syncSchema ∧
      s'.enableChecksumSync = freshEngine.enableChecksumSync ∧
      s'.tableStatus = freshEngine.tableStatus) ∧
    StopSync startedOnce.2.1 startedOnce.2.2
      = some (none, { startedOnce.2.1 with isRunning := false },
          { startedOnce.2.2.Stop with jobs := [] }) :=
  ⟨(StartSync_StopSync_spec startedOnce.2.1 startedOnce.2.2).1 rfl,
    (StartSync_StopSync_spec freshEngine everyMinute).2.1 rfl,
    (StartSync_StopSync_spec freshEngine everyMinute).2.2.1 rfl rfl,
    (StartSync_StopSync_spec startedOnce.2.1 startedOnce.2.2).2.2.2.1 rfl
      (by intro j hj; cases hj)⟩

/-- C21, failing input. A fresh engine is started without error and is running. At the
next cron match (instant 1020) the scheduler starts the tick function, which has all its
work ahead of it and begins by taking the engine's mutex. `StopSync` is called while this
run is in flight: it takes the mutex, stops the scheduler and waits for the run to end,
while the run waits for the mutex. The call never returns, so the running flag is not set
to false. -/
theorem StopSync_never_returns_during_tick :
    startedOnce.1 = none ∧ startedOnce.2.1.isRunning = true ∧
    startedOnce.2.2.Entries = [⟨1, "*/1 * * * *", 1020⟩] ∧
    (startedOnce.2.2.fire 1020).jobs = [⟨1, true⟩] ∧
    (StopSync startedOnce.2.1 (startedOnce.2.2.fire 1020)).isNone = true := by
  decide

/-- C23, failing input. A fresh engine is started, stopped and started again, each call
returning without error. `StopSync` stops the scheduler and leaves the tick function of
the first `StartSync` registered; the second `StartSync` registers it once more. The
scheduler then holds two entries with the same expression and the same next activation
time, so one cron match starts two tick bodies. -/
theorem restart_registers_second_tick :
    startedOnce.1 = none ∧ stoppedAgain.1 = none ∧ startedTwice.1 = none ∧
    startedOnce.2.2.entries = [⟨1, "*/1 * * * *", 1020⟩] ∧
    stoppedAgain.2.2.entries = [⟨1, "*/1 * * * *", 1020⟩] ∧
    startedTwice.2.1.isRunning = true ∧ startedTwice.2.2.running = true ∧
    startedTwice.2.2.Entries
      = [⟨1, "*/1 * * * *", 1020⟩, ⟨2, "*/1 * * * *", 1020⟩] ∧
    (StopSync startedOnce.2.1 startedOnce.2.2).isSome = true ∧
    (startedTwice.2.2.fire 1020).jobs = [⟨1, true⟩, ⟨2, true⟩] := by
  decide

theorem upsertQuery_eq (tableName pkColumn : String) (row : Row) :
    upsertQuery tableName pkColumn row
      = "INSERT INTO `" ++ tableName ++ "` (" ++ ", ".intercalate (row.keys.map quoted)
          ++ ") VALUES (" ++ ", ".intercalate (List.replicate row.keys.length "?")
          ++ ") ON DUPLICATE KEY UPDATE "
          ++ ", ".intercalate
              ((row.keys.filter (fun c => decide (c ≠ pkColumn))).map assignment) := by
  unfold upsertQuery
  have h1 : row.map (fun e => "`" ++ e.1 ++ "`") = row.keys.map quoted := by
    simp [GoMap.keys, List.map_map, Function.comp_def, quoted]
  have h2 : row.map (fun _ => "?") = List.replicate row.keys.length "?" := by
    simp [GoMap.keys, List.map_const']
  have h3 : (row.filter (fun e => decide (e.1 ≠ pkColumn))).map
        (fun e => "`" ++ e.1 ++ "` = VALUES(`" ++ e.1 ++ "`)")
      = (row.keys.filter (fun c => decide (c ≠ pkColumn))).map assignment := by
    simp only [GoMap.keys, List.filter_map, List.map_map]
    rfl
  simp only [h1, h2, h3]

theorem upsertDataToBackup_single_log (db : TableDb) (tableName pkColumn : String)
    (row : Row) :
    (upsertDataToBackup db tableName pkColumn [row]).2.log
      = db.log ++ [.upsert (upsertQuery tableName pkColumn row) (row.map Prod.snd)] := by
  unfold upsertDataToBackup
  rw [if_neg (by simp)]
  unfold upsertLoop TableDb.call
  cases db.faults with
  | nil =>
    simp only
    split
    · rfl
    · rfl
  | cons f rest =>
    cases f with
    | some e => rfl
    | none =>
      simp only
      split
      · rfl
      · rfl

theorem GoMap.get?_key_at (row : Row) (hnd : row.keys.Nodup) :
    ∀ (i : Nat) (c : String), row.keys[i]? = some c →
      (row.map Prod.snd)[i]? = row.get? c := by
  induction row with
  | nil =>
    intro i c h
    simp [GoMap.keys] at h
  | cons e rest ih =>
    intro i c h
    obtain ⟨k, v⟩ := e
    have hnd' : (k :: GoMap.keys rest).Nodup := hnd
    obtain ⟨hk, hrest⟩ := List.nodup_cons.1 hnd'
    cases i with
    | zero =>
      have hc : k = c := by simpa [GoMap.keys] using h
      simp [GoMap.get?, hc]
    | succ j =>
      have hj : (GoMap.keys rest)[j]? = some c := by simpa [GoMap.keys] using h
      have hmem : c ∈ GoMap.keys rest := by
        obtain ⟨hlt, he⟩ := List.getElem?_eq_some.1 hj
        exact he ▸ List.getElem_mem hlt
      have hne : ¬ k = c := fun e => hk (e ▸ hmem)
      simp only [List.map_cons, List.getElem?_cons_succ, GoMap.get?, hne, if_false]
      exact ih hrest j c hj

/-- C22. For every row (a map, so with distinct column names), table name and primary-key
column, the call that `upsertDataToBackup` issues for the row carries the statement
`INSERT INTO t (cols) VALUES (placeholders) ON DUPLICATE KEY UPDATE assignments` and the
values of the row, where: the listed columns are the columns of the row, each once; there
is one placeholder per listed column and one bound value per listed column, the i-th
value being the value of the i-th listed column; and the assignments are
`col = VALUES(col)` for the columns of the row other than the primary key, each once. -/
theorem upsertStatement_shape (db : TableDb) (tableName pkColumn : String) (row : Row)
    (hnd : row.keys.Nodup) :
    (upsertDataToBackup db tableName pkColumn [row]).2.log
      = db.log ++ [.upsert (upsertQuery tableName pkColumn row) (row.map Prod.snd)] ∧
    upsertQuery tableName pkColumn row
      = "INSERT INTO `" ++ tableName ++ "` (" ++ ", ".intercalate (row.keys.map quoted)
          ++ ") VALUES (" ++ ", ".intercalate (List.replicate row.keys.length "?")
          ++ ") ON DUPLICATE KEY UPDATE "
          ++ ", ".intercalate
              ((row.keys.filter (fun c => decide (c ≠ pkColumn))).map assignment) ∧
    (∀ c, c ∈ row.keys ↔ (row.get? c).isSome) ∧
    (row.map Prod.snd).length = row.keys.length ∧
    (∀ (i : Nat) (c : String), row.keys[i]? = some c → (row.map Prod.snd)[i]? = row.get? c) ∧
    (row.keys.filter (fun c => decide (c ≠ pkColumn))).Nodup ∧
    (∀ c, c ∈ row.keys.filter (fun c => decide (c ≠ pkColumn))
      ↔ (row.get? c).isSome ∧ c ≠ pkColumn) := by
  refine ⟨upsertDataToBackup_single_log db tableName pkColumn row,
    upsertQuery_eq tableName pkColumn row, GoMap.mem_keys_iff row, by simp [GoMap.keys],
    GoMap.get?_key_at row hnd, hnd.filter _, ?_⟩
  intro c
  rw [List.mem_filter, GoMap.mem_keys_iff]
  simp

/-- Witness of C22 on a row of `orders` with key column `id`. -/
theorem upsertStatement_shape_witness :
    orderRow.keys.Nodup ∧
    ((upsertDataToBackup scenarioA "orders" "id" [orderRow]).2.log
      = scenarioA.log ++ [.upsert (upsertQuery "orders" "id" orderRow)
          (orderRow.map Prod.snd)] ∧
    upsertQuery "orders" "id" orderRow
      = "INSERT INTO `" ++ "orders" ++ "` (" ++ ", ".intercalate (orderRow.keys.map quoted)
          ++ ") VALUES (" ++ ", ".intercalate (List.replicate orderRow.keys.length "?")
          ++ ") ON DUPLICATE KEY UPDATE "
          ++ ", ".intercalate
              ((orderRow.keys.filter (fun c => decide (c ≠ "id"))).map assignment) ∧
    (∀ c, c ∈ orderRow.keys ↔ (orderRow.get? c).isSome) ∧
    (orderRow.map Prod.snd).length = orderRow.keys.length ∧
    (∀ (i : Nat) (c : String), orderRow.keys[i]? = some c →
      (orderRow.map Prod.snd)[i]? = orderRow.get? c) ∧
    (orderRow.keys.filter (fun c => decide (c ≠ "id"))).Nodup ∧
    (∀ c, c ∈ orderRow.keys.filter (fun c => decide (c ≠ "id"))
      ↔ (orderRow.get? c).isSome ∧ c ≠ "id")) :=
  ⟨by decide, upsertStatement_shape scenarioA "orders" "id" orderRow (by decide)⟩

/-- The statement and the values for the row of `orders`, written out. -/
theorem upsertStatement_example :
    upsertQuery "orders" "id" orderRow
      = "INSERT INTO `orders` (`note`, `id`, `total`) VALUES (?, ?, ?) " ++
        "ON DUPLICATE KEY UPDATE `note` = VALUES(`note`), `total` = VALUES(`total`)" ∧
    orderRow.map Prod.snd = [.null, .int64 7, .str "12.50"] := by
  decide

/-- C4, failing input. Cold start of `items` with the source rows of keys 5 and 2^63 (two
distinct positive integers), an empty target, no ledger entry, batch size 2, the engine
running and no call failing. The first batch holds both rows and leaves `lastID` at 5,
the key 2^63 storing nothing; the batch being full, the loop fetches `id > 5`, upserts the
row of key 2^63 a second time and gets `lastID = 0`. `syncTable` ends with status
`success`, `LastSyncID = 0` and `TotalSynced = 3`: the watermark is not the largest
source key and the count is not the number of source rows, of which there are 2. With the
single row of key 2^63 and batch size 100 the run ends with `LastSyncID = 0` as well. -/
theorem syncTable_cold_start_unsigned_key :
    coldUnsigned.source.map (fun r => r.key) = [5, 9223372036854775808] ∧
    coldUnsigned.target = [] ∧ coldUnsigned.faults = [] ∧
    (runningEngine 2).tableStatus.get? "items" = none ∧
    (syncTable 3 "items" (runningEngine 2) coldUnsigned).map
        (fun r => (r.1.tableStatus, r.2.target, upsertCount r.2.log))
      = some ([("items", ⟨"items", 0, 3, 1000, "success", ""⟩)],
          [[("id", .int64 5), ("name", .str "e")],
           [("id", .str "9223372036854775808"), ("name", .str "f")]],
          3) ∧
    (syncTable 2 "items" (runningEngine 100) coldSingleUnsigned).map
        (fun r => (r.1.tableStatus, r.2.target))
      = some ([("items", ⟨"items", 0, 1, 1000, "success", ""⟩)],
          [[("id", .str "9223372036854775808"), ("name", .str "f")]]) := by
  decide

end DbSync
